import Mathlib

/-!
# jgovalidator: the custom validation predicates of `validator.go`

A shallow embedding of `validator.go` together with the two standard-library
services it calls: `regexp` (compiled patterns and `MatchString`) and
`time.Parse`.

Modelling conventions.

* A Go string is modelled by a Lean `String`.  Package `regexp` reads a string
  rune by rune, so the matcher reads its characters (`String.data`); package
  `time` indexes and slices a string byte by byte, so the parser reads the
  bytes of its UTF-8 encoding (`bytesOf`).
* `reflect.Value` is reduced to what the predicates observe of it: the result
  of its `String` method.
* The `(Time, error)` result of `time.Parse` becomes an `Except`.  The helpers
  inside the parser keep Go's shape: a tuple whose last component is the error,
  `none` for `nil`.
* The constants keep their Go names.  Inside this namespace `Int` and `Float`
  therefore name the two pattern constants; the integers are written `ℤ`.
-/

namespace JGoValidator

/-! ## Reflected values and field levels -/

/-- Go's `string` type. -/
abbrev GoString : Type := String

/-- Go's `error` values, told apart by their message. -/
abbrev GoError : Type := GoString

/-- Type `driver.Value`, the values a `driver.Valuer` may return: `nil`, an
`int64`, a `float64` (kept as its IEEE 754 bits), a `bool`, a `[]byte`, a
`string` or a `time.Time` (kept as nanoseconds since the epoch).  Held in an
`interface{}`, `nil` is the nil interface. -/
inductive driver.Value where
  | nil
  | int64 (i : ℤ)
  | float64 (bits : Nat)
  | bool (b : Bool)
  | bytes (b : List Nat)
  | string (s : GoString)
  | time (unixNano : ℤ)
  deriving DecidableEq, Repr

/-- A valid `reflect.Value` as far as the package observes it, through its
`String` method and through the type assertion of its `Interface()` to
`driver.Valuer`:

* a value of type `string` holding `s`;
* a value of some other type that does not implement `driver.Valuer`
  (`typeName` is what `v.Type().String()` prints);
* a value whose type implements `driver.Valuer`, as the `sql.Null...` types do:
  `text` is what its `String` method returns and `(val, err)` what its `Value`
  method returns.

The engine hands only valid values of exported fields to a validation function
or to a custom type function, so the zero `Value` and the values on which
`Interface()` panics are left out. -/
inductive Value where
  | str (s : GoString)
  | other (typeName : GoString)
  | valuer (text : GoString) (val : driver.Value) (err : Option GoError)
  deriving DecidableEq, Repr

/-- Method `reflect.Value.String`: the underlying string for a value of kind
`String`, and the text `<T Value>` for a value of any other type `T`; it never
fails. -/
def Value.String : Value → GoString
  | .str s => s
  | .other typeName => "<" ++ typeName ++ " Value>"
  | .valuer text _ _ => text

/-- The part of `validator.FieldLevel` the predicates use: the field under
validation. -/
structure FieldLevel where
  field : Value
  deriving DecidableEq, Repr

/-- Method `FieldLevel.Field`. -/
def FieldLevel.Field (fl : FieldLevel) : Value := fl.field

/-- The field level of a string field holding `s`. -/
def stringField (s : GoString) : FieldLevel := ⟨Value.str s⟩

/-! ## Package `regexp`: syntax -/

/-- One item of a bracket expression, as it is written in a pattern. -/
inductive ClassItem where
  /-- A character standing for itself, as `e` in `[eE]`. -/
  | single (c : Char)
  /-- An escaped punctuation character, as `\+` in `[\+\-]`. -/
  | escaped (c : Char)
  /-- A range, as `0-9`. -/
  | range (lo hi : Char)
  deriving DecidableEq, Repr

/-- Abstract syntax of the fragment of Go's (RE2) pattern language that the
package's patterns are written in. -/
inductive Regexp where
  /-- A literal character. -/
  | lit (c : Char)
  /-- An escaped punctuation character, as `\.`. -/
  | esc (c : Char)
  /-- The Perl class `\d`, ASCII digits only in Go. -/
  | digit
  /-- A bracket expression `[...]`. -/
  | cls (items : List ClassItem)
  /-- Anchor `^`: beginning of the text (no multi-line flag). -/
  | bol
  /-- Anchor `$`: end of the text (no multi-line flag). -/
  | eol
  /-- A non-capturing group `(?:r)`. -/
  | group (r : Regexp)
  /-- Concatenation `rs`. -/
  | cat (r s : Regexp)
  /-- Alternation `r|s`. -/
  | alt (r s : Regexp)
  /-- Repetition `r*`. -/
  | star (r : Regexp)
  /-- Repetition `r+`. -/
  | plus (r : Regexp)
  /-- Option `r?`. -/
  | quest (r : Regexp)
  /-- Counted repetition `r{n}`. -/
  | rep (r : Regexp) (n : Nat)
  deriving DecidableEq, Repr

/-- The text of a bracket-expression item. -/
def ClassItem.render : ClassItem → GoString
  | .single c => String.singleton c
  | .escaped c => "\\" ++ String.singleton c
  | .range lo hi => String.singleton lo ++ "-" ++ String.singleton hi

/-- The pattern text of a syntax tree: what `Regexp.String` returns for a
regexp compiled from that text. -/
def Regexp.render : Regexp → GoString
  | .lit c => String.singleton c
  | .esc c => "\\" ++ String.singleton c
  | .digit => "\\d"
  | .cls items => "[" ++ String.join (items.map ClassItem.render) ++ "]"
  | .bol => "^"
  | .eol => "$"
  | .group r => "(?:" ++ r.render ++ ")"
  | .cat r s => r.render ++ s.render
  | .alt r s => r.render ++ "|" ++ s.render
  | .star r => r.render ++ "*"
  | .plus r => r.render ++ "+"
  | .quest r => r.render ++ "?"
  | .rep r n => r.render ++ "\x7b" ++ String.mk (Nat.toDigits 10 n) ++ "\x7d"

/-! ## Package `regexp`: matching -/

/-- Whether `c` is an ASCII decimal digit. -/
def isDigitChar (c : Char) : Bool := decide (48 ≤ c.toNat) && decide (c.toNat ≤ 57)

/-- Whether character `c` belongs to a bracket-expression item. -/
def ClassItem.test (c : Char) : ClassItem → Bool
  | .single d => decide (c = d)
  | .escaped d => decide (c = d)
  | .range lo hi => decide (lo.toNat ≤ c.toNat) && decide (c.toNat ≤ hi.toNat)

/-- The positions reachable by consuming one character that satisfies `p`. -/
def oneChar (p : Char → Bool) : List Char → List (List Char)
  | [] => []
  | c :: t => if p c then [t] else []

/-- Ends of `r*` from `s`, given the ends `f` of `r`: zero or more rounds of
`f`.  A round that consumes nothing reaches no new position and is dropped, so
`s.length` rounds are always enough; the first argument bounds the rounds. -/
def starEnds (f : List Char → List (List Char)) : Nat → List Char → List (List Char)
  | 0, s => [s]
  | k + 1, s => s :: ((f s).filter fun t => decide (t.length < s.length)).flatMap (starEnds f k)

/-- Ends of `r{n}` from `s`, given the ends `f` of `r`: exactly `n` rounds. -/
def repEnds (f : List Char → List (List Char)) : Nat → List Char → List (List Char)
  | 0, s => [s]
  | n + 1, s => (f s).flatMap (repEnds f n)

/-- Backtracking matcher.  The text being searched has `n` characters and `s`
is the part of it that is still unread; the result lists every remainder of
the text at which a match of `r` that starts at `s` can end. -/
def Regexp.ends (n : Nat) : Regexp → List Char → List (List Char)
  | .lit c, s => oneChar (fun x => decide (x = c)) s
  | .esc c, s => oneChar (fun x => decide (x = c)) s
  | .digit, s => oneChar isDigitChar s
  | .cls items, s => oneChar (fun x => items.any (ClassItem.test x)) s
  | .bol, s => if s.length = n then [s] else []
  | .eol, s => if s.length = 0 then [s] else []
  | .group r, s => r.ends n s
  | .cat r r', s => (r.ends n s).flatMap (r'.ends n)
  | .alt r r', s => r.ends n s ++ r'.ends n s
  | .star r, s => starEnds (r.ends n) s.length s
  | .plus r, s => (r.ends n s).flatMap fun t => starEnds (r.ends n) t.length t
  | .quest r, s => r.ends n s ++ [s]
  | .rep r k, s => repEnds (r.ends n) k s

/-- Method `Regexp.MatchString`: whether the text contains any match of the
pattern, starting at any position. -/
def Regexp.MatchString (re : Regexp) (s : GoString) : Bool :=
  s.data.tails.any fun t => !(re.ends s.data.length t).isEmpty

/-! ## The package's constants and compiled patterns -/

/-- Pattern of the `int` rule. -/
def Int : GoString := "^(?:[-+]?(?:0|[1-9][0-9]*))$"

/-- Pattern of the `float` rule. -/
def Float : GoString := "^(?:[-+]?(?:[0-9]+))?(?:\\.[0-9]*)?(?:[eE][\\+\\-]?(?:[0-9]+))?$"

/-- Pattern of the `date` rule. -/
def DateExp : GoString := "\\d\x7b4\x7d-\\d\x7b2\x7d-\\d\x7b2\x7d"

/-- Layout of the `rfc3339WithoutZone` rule. -/
def RF3339WithoutZone : GoString := "2006-01-02T15:04:05"

/-- The bracket expression `[0-9]`. -/
def digits09 : Regexp := .cls [.range '0' '9']

/-- The syntax tree of `regexp.MustCompile(Int)`. -/
def rxInt : Regexp :=
  .cat .bol
    (.cat
      (.group
        (.cat (.quest (.cls [.single '-', .single '+']))
          (.group (.alt (.lit '0') (.cat (.cls [.range '1' '9']) (.star digits09))))))
      .eol)

/-- The syntax tree of `regexp.MustCompile(Float)`. -/
def rxFloat : Regexp :=
  .cat .bol
    (.cat (.quest (.group (.cat (.quest (.cls [.single '-', .single '+']))
                                (.group (.plus digits09)))))
      (.cat (.quest (.group (.cat (.esc '.') (.star digits09))))
        (.cat (.quest (.group (.cat (.cls [.single 'e', .single 'E'])
                                (.cat (.quest (.cls [.escaped '+', .escaped '-']))
                                      (.group (.plus digits09))))))
          .eol)))

/-- The syntax tree of `regexp.MustCompile(DateExp)`. -/
def rxDate : Regexp :=
  .cat (.rep .digit 4)
    (.cat (.lit '-') (.cat (.rep .digit 2) (.cat (.lit '-') (.rep .digit 2))))

/-! ## The predicates built on patterns -/

/-- Function `IsNull`: whether the string is empty. -/
def IsNull (str : GoString) : Bool := str.length == 0

/-- Function `IsInt`. -/
def IsInt (fl : FieldLevel) : Bool :=
  if IsNull fl.Field.String then
    false
  else
    rxInt.MatchString fl.Field.String

/-- Function `IsFloat`. -/
def IsFloat (fl : FieldLevel) : Bool :=
  fl.Field.String != "" && rxFloat.MatchString fl.Field.String

/-- Function `IsDate`. -/
def IsDate (fl : FieldLevel) : Bool :=
  if IsNull fl.Field.String then
    false
  else
    rxDate.MatchString fl.Field.String

/-! ## Package `regexp`: what a match is -/

/-- Declarative meaning of a pattern: `Matches n r s t` says that, in a text of
`n` characters of which `s` is still unread, `r` matches the characters that
lead from `s` to the remainder `t`. -/
inductive Regexp.Matches (n : Nat) : Regexp → List Char → List Char → Prop where
  | lit (c : Char) (t : List Char) : Matches n (.lit c) (c :: t) t
  | esc (c : Char) (t : List Char) : Matches n (.esc c) (c :: t) t
  | digit (c : Char) (t : List Char) : isDigitChar c = true → Matches n .digit (c :: t) t
  | cls (items : List ClassItem) (c : Char) (t : List Char) :
      items.any (ClassItem.test c) = true → Matches n (.cls items) (c :: t) t
  | bol (s : List Char) : s.length = n → Matches n .bol s s
  | eol : Matches n .eol [] []
  | group {r : Regexp} {s t : List Char} : Matches n r s t → Matches n (.group r) s t
  | cat {r r' : Regexp} {s u t : List Char} :
      Matches n r s u → Matches n r' u t → Matches n (.cat r r') s t
  | altL {r r' : Regexp} {s t : List Char} : Matches n r s t → Matches n (.alt r r') s t
  | altR {r r' : Regexp} {s t : List Char} : Matches n r' s t → Matches n (.alt r r') s t
  | starNil (r : Regexp) (s : List Char) : Matches n (.star r) s s
  | starCons {r : Regexp} {s u t : List Char} :
      Matches n r s u → Matches n (.star r) u t → Matches n (.star r) s t
  | plus {r : Regexp} {s u t : List Char} :
      Matches n r s u → Matches n (.star r) u t → Matches n (.plus r) s t
  | questSome {r : Regexp} {s t : List Char} : Matches n r s t → Matches n (.quest r) s t
  | questNone (r : Regexp) (s : List Char) : Matches n (.quest r) s s
  | repZero (r : Regexp) (s : List Char) : Matches n (.rep r 0) s s
  | repSucc {r : Regexp} {k : Nat} {s u t : List Char} :
      Matches n r s u → Matches n (.rep r k) u t → Matches n (.rep r (k + 1)) s t

/-! ## Vocabulary of the specification

The shapes of text that the rule table of the specification describes in
words, stated on the characters of a string and independently of the
matcher. -/

/-- An ASCII decimal digit, `'0'` to `'9'`. -/
def AsciiDigit (c : Char) : Prop := '0' ≤ c ∧ c ≤ '9'

/-- A text made of ASCII decimal digits only (possibly empty). -/
def AllDigits (w : List Char) : Prop := ∀ c ∈ w, AsciiDigit c

/-- An optional single sign: nothing, `+` or `-`. -/
def OptionalSign (w : List Char) : Prop := w = [] ∨ w = ['+'] ∨ w = ['-']

/-- The whole text is an optional single sign followed by either the single
digit `0`, or a digit `1`..`9` followed by zero or more digits. -/
def IntegerText (s : List Char) : Prop :=
  ∃ sign body, s = sign ++ body ∧ OptionalSign sign ∧
    (body = ['0'] ∨ ∃ d ds, body = d :: ds ∧ ('1' ≤ d ∧ d ≤ '9') ∧ AllDigits ds)

/-- An optional sign followed by one or more digits. -/
def SignedDigitsText (i : List Char) : Prop :=
  ∃ sign ds, i = sign ++ ds ∧ OptionalSign sign ∧ ds ≠ [] ∧ AllDigits ds

/-- A fraction: `.` followed by digits (possibly none). -/
def FractionText (f : List Char) : Prop := ∃ ds, f = '.' :: ds ∧ AllDigits ds

/-- An exponent: `e` or `E`, an optional sign, one or more digits. -/
def ExponentText (x : List Char) : Prop :=
  ∃ e sign ds, x = e :: (sign ++ ds) ∧ (e = 'e' ∨ e = 'E') ∧ OptionalSign sign ∧
    ds ≠ [] ∧ AllDigits ds

/-- The float shape as the rule table words it: the concatenation, in this
order, of four parts each of which is independently optional: a sign, an
integer part (one or more digits), a fraction and an exponent. -/
def FourOptionalParts (s : List Char) : Prop :=
  ∃ sign ip f x, s = sign ++ ip ++ f ++ x ∧ OptionalSign sign ∧
    (ip = [] ∨ (ip ≠ [] ∧ AllDigits ip)) ∧ (f = [] ∨ FractionText f) ∧
    (x = [] ∨ ExponentText x)

/-- The float shape with the sign tied to the integer part: the concatenation,
in this order, of three parts each of which is independently optional: an
optional sign followed by one or more digits, a fraction, and an exponent. -/
def FloatText (s : List Char) : Prop :=
  ∃ i f x, s = i ++ f ++ x ∧ (i = [] ∨ SignedDigitsText i) ∧ (f = [] ∨ FractionText f) ∧
    (x = [] ∨ ExponentText x)

/-- The characters a float may be written with: digits, `+`, `-`, `.`, `e`
and `E`. -/
def FloatAlphabet (c : Char) : Prop :=
  AsciiDigit c ∨ c = '+' ∨ c = '-' ∨ c = '.' ∨ c = 'e' ∨ c = 'E'

/-- A text of exactly the shape four digits, `-`, two digits, `-`, two
digits. -/
def DateText (m : List Char) : Prop :=
  ∃ y₁ y₂ y₃ y₄ m₁ m₂ d₁ d₂, m = [y₁, y₂, y₃, y₄, '-', m₁, m₂, '-', d₁, d₂] ∧
    AsciiDigit y₁ ∧ AsciiDigit y₂ ∧ AsciiDigit y₃ ∧ AsciiDigit y₄ ∧
    AsciiDigit m₁ ∧ AsciiDigit m₂ ∧ AsciiDigit d₁ ∧ AsciiDigit d₂

/-- The text contains, at some position, a contiguous part of date shape. -/
def ContainsDateText (s : List Char) : Prop :=
  ∃ pre mid post, s = pre ++ mid ++ post ∧ DateText mid

/-! ## Package `time`: layouts

The parser of the standard library, after `format.go` and `format_rfc3339.go`
of the current Go release line (a fraction of a second may follow a comma as
well as a period, a layout may name the day of the year, and `Parse` tries
`parseRFC3339` first).  The parser indexes and slices its two strings byte by
byte, so here a text is the list of its bytes, each byte written as the
character of its code: `bytesOf` gives the bytes of a string, which for a text
of ASCII characters are its characters.  An `int` is an integer, and the one
place where the width of a machine word matters (`leadingInt`, `atoi`) tests
the bound explicitly. -/

/-- The bytes of the UTF-8 encoding of a character. -/
def utf8Bytes (c : Char) : List Nat :=
  let n := c.toNat
  if n < 128 then [n]
  else if n < 2048 then [192 + n / 64, 128 + n % 64]
  else if n < 65536 then [224 + n / 4096, 128 + n / 64 % 64, 128 + n % 64]
  else [240 + n / 262144, 128 + n / 4096 % 64, 128 + n / 64 % 64, 128 + n % 64]

/-- The bytes of a string, `[]byte(s)`, each written as the character of its
code. -/
def bytesOf (s : GoString) : List Char :=
  s.data.flatMap fun c => (utf8Bytes c).map Char.ofNat

namespace time

/-- The parser's internal errors (`errBad`, `errAtoi`, `errLeadingInt`). -/
inductive Err where
  | errBad
  | errAtoi
  | errLeadingInt
  deriving DecidableEq, Repr

/-- The layout elements (`std...` constants).  The two fractional-second
elements carry their number of digits, of which `stdFracSecond` keeps the low
twelve bits, and their separator. -/
inductive Std where
  | stdLongMonth | stdMonth | stdNumMonth | stdZeroMonth
  | stdLongWeekDay | stdWeekDay
  | stdDay | stdUnderDay | stdZeroDay
  | stdUnderYearDay | stdZeroYearDay
  | stdHour | stdHour12 | stdZeroHour12
  | stdMinute | stdZeroMinute
  | stdSecond | stdZeroSecond
  | stdLongYear | stdYear
  | stdPM | stdpm
  | stdTZ
  | stdISO8601TZ | stdISO8601SecondsTZ | stdISO8601ShortTZ | stdISO8601ColonTZ
  | stdISO8601ColonSecondsTZ
  | stdNumTZ | stdNumSecondsTz | stdNumShortTZ | stdNumColonTZ | stdNumColonSecondsTZ
  | stdFracSecond0 (digits : Nat) (separator : Char)
  | stdFracSecond9 (digits : Nat) (separator : Char)
  deriving DecidableEq, Repr

/-- Layout `time.RFC3339`. -/
def RFC3339 : GoString := "2006-01-02T15:04:05Z07:00"

/-- Layout `time.RFC3339Nano`. -/
def RFC3339Nano : GoString := "2006-01-02T15:04:05.999999999Z07:00"

/-- Function `isDigit`: whether `s[i]` is in range and is a decimal digit. -/
def isDigit (s : List Char) (i : Nat) : Bool :=
  match s.get? i with
  | none => false
  | some c => isDigitChar c

/-- Function `commaOrPeriod`. -/
def commaOrPeriod (b : Char) : Bool := decide (b = '.') || decide (b = ',')

/-- Function `startsWithLowerCase`. -/
def startsWithLowerCase (str : List Char) : Bool :=
  match str with
  | [] => false
  | c :: _ => decide ('a'.toNat ≤ c.toNat) && decide (c.toNat ≤ 'z'.toNat)

/-- Whether the layout continues with `lit` (`len(layout) >= i+k` and
`layout[i:i+k] == lit`). -/
def hasPrefix (lit : GoString) (layout : List Char) : Bool := lit.data.isPrefixOf layout

/-- Table `std0x`: the elements `01` .. `06`. -/
def std0x (c : Char) : Std :=
  if c = '1' then .stdZeroMonth
  else if c = '2' then .stdZeroDay
  else if c = '3' then .stdZeroHour12
  else if c = '4' then .stdZeroMinute
  else if c = '5' then .stdZeroSecond
  else .stdYear

/-- A layout element `std` written with the next `k` bytes of the
layout: no literal text in front of it, and the layout after it. -/
def chunk (std : Std) (k : Nat) (layout : List Char) : Option (List Char × Std × List Char) :=
  some ([], std, layout.drop k)

/-- Case `'J'` of `nextStdChunk`: `January`, `Jan`. -/
def stdAtJ (layout : List Char) : Option (List Char × Std × List Char) :=
  if hasPrefix "Jan" layout then
    if hasPrefix "January" layout then chunk .stdLongMonth 7 layout
    else if !startsWithLowerCase (layout.drop 3) then chunk .stdMonth 3 layout
    else none
  else none

/-- Case `'M'` of `nextStdChunk`: `Monday`, `Mon`, `MST`. -/
def stdAtM (layout : List Char) : Option (List Char × Std × List Char) :=
  if 3 ≤ layout.length then
    if hasPrefix "Mon" layout && hasPrefix "Monday" layout then chunk .stdLongWeekDay 6 layout
    else if hasPrefix "Mon" layout && !startsWithLowerCase (layout.drop 3) then
      chunk .stdWeekDay 3 layout
    else if hasPrefix "MST" layout then chunk .stdTZ 3 layout
    else none
  else none

/-- Case `'0'` of `nextStdChunk`: `01` .. `06`, and `002`. -/
def stdAt0 (layout : List Char) : Option (List Char × Std × List Char) :=
  if 2 ≤ layout.length ∧ '1'.toNat ≤ (layout.getD 1 ' ').toNat ∧
      (layout.getD 1 ' ').toNat ≤ '6'.toNat then
    chunk (std0x (layout.getD 1 ' ')) 2 layout
  else if 3 ≤ layout.length ∧ layout.getD 1 ' ' = '0' ∧ layout.getD 2 ' ' = '2' then
    chunk .stdZeroYearDay 3 layout
  else none

/-- Case `'_'` of `nextStdChunk`: `_2`, then `_2006`, which is a literal
underscore followed by the long year, and `__2`. -/
def stdAtUnderscore (layout : List Char) : Option (List Char × Std × List Char) :=
  if 2 ≤ layout.length ∧ layout.getD 1 ' ' = '2' then
    if hasPrefix "_2006" layout then some (['_'], .stdLongYear, layout.drop 5)
    else chunk .stdUnderDay 2 layout
  else if 3 ≤ layout.length ∧ layout.getD 1 ' ' = '_' ∧ layout.getD 2 ' ' = '2' then
    chunk .stdUnderYearDay 3 layout
  else none

/-- Case `'-'` of `nextStdChunk`: the numeric offsets. -/
def stdAtMinus (layout : List Char) : Option (List Char × Std × List Char) :=
  if hasPrefix "-070000" layout then chunk .stdNumSecondsTz 7 layout
  else if hasPrefix "-07:00:00" layout then chunk .stdNumColonSecondsTZ 9 layout
  else if hasPrefix "-0700" layout then chunk .stdNumTZ 5 layout
  else if hasPrefix "-07:00" layout then chunk .stdNumColonTZ 6 layout
  else if hasPrefix "-07" layout then chunk .stdNumShortTZ 3 layout
  else none

/-- Case `'Z'` of `nextStdChunk`: the ISO 8601 offsets. -/
def stdAtZ (layout : List Char) : Option (List Char × Std × List Char) :=
  if hasPrefix "Z070000" layout then chunk .stdISO8601SecondsTZ 7 layout
  else if hasPrefix "Z07:00:00" layout then chunk .stdISO8601ColonSecondsTZ 9 layout
  else if hasPrefix "Z0700" layout then chunk .stdISO8601TZ 5 layout
  else if hasPrefix "Z07:00" layout then chunk .stdISO8601ColonTZ 6 layout
  else if hasPrefix "Z07" layout then chunk .stdISO8601ShortTZ 3 layout
  else none

/-- Case `'.', ','` of `nextStdChunk`: the separator `c` followed by a run of
`0`s or of `9`s that no further digit follows. -/
def stdAtFrac (c : Char) (layout : List Char) : Option (List Char × Std × List Char) :=
  let rest := layout.drop 1
  let ch := rest.getD 0 ' '
  if 0 < rest.length ∧ (ch = '0' ∨ ch = '9') then
    let run := rest.takeWhile fun x => decide (x = ch)
    let after := rest.dropWhile fun x => decide (x = ch)
    if !isDigit after 0 then
      some ([], if ch = '9' then .stdFracSecond9 (run.length % 4096) c
        else .stdFracSecond0 (run.length % 4096) c,
        after)
    else none
  else none

/-- One pass of the body of the scan in `nextStdChunk`, at a position where the
layout still reads `layout`: the element that starts here, if one does, with
the literal text that belongs in front of it and the layout that follows
it. -/
def stdAt (layout : List Char) : Option (List Char × Std × List Char) :=
  match layout with
  | [] => none
  | c :: _ =>
    if c = 'J' then stdAtJ layout
    else if c = 'M' then stdAtM layout
    else if c = '0' then stdAt0 layout
    else if c = '1' then
      if hasPrefix "15" layout then chunk .stdHour 2 layout else chunk .stdNumMonth 1 layout
    else if c = '2' then
      if hasPrefix "2006" layout then chunk .stdLongYear 4 layout else chunk .stdDay 1 layout
    else if c = '_' then stdAtUnderscore layout
    else if c = '3' then chunk .stdHour12 1 layout
    else if c = '4' then chunk .stdMinute 1 layout
    else if c = '5' then chunk .stdSecond 1 layout
    else if c = 'P' then
      if hasPrefix "PM" layout then chunk .stdPM 2 layout else none
    else if c = 'p' then
      if hasPrefix "pm" layout then chunk .stdpm 2 layout else none
    else if c = '-' then stdAtMinus layout
    else if c = 'Z' then stdAtZ layout
    else if c = '.' ∨ c = ',' then stdAtFrac c layout
    else none

/-- Function `nextStdChunk`: the literal text in front of the first layout
element, that element (`none` when the layout has none left, Go's `0`), and
the layout after it. -/
def nextStdChunk : List Char → List Char × Option Std × List Char
  | [] => ([], none, [])
  | c :: rest =>
    match stdAt (c :: rest) with
    | some (pre, std, suffix) => (pre, some std, suffix)
    | none =>
      match nextStdChunk rest with
      | (pre, std, suffix) => (c :: pre, std, suffix)

end time

/-! ## Package `time`: reading a value against a layout -/

namespace time

/-- The value of a digit, `int(c - '0')`. -/
def digitVal (c : Char) : ℤ := (c.toNat : ℤ) - 48

/-- The byte `s[i]`, read only where the parser has checked `i < len(s)`. -/
def charAt (s : List Char) (i : Nat) : Char := s.getD i ' '

/-- Function `cutspace`: drop the leading spaces. -/
def cutspace (s : List Char) : List Char := s.dropWhile fun c => decide (c = ' ')

/-- The loop of `skip`, at most `k` rounds; each round shortens the prefix, so
`prefix.length` rounds reach the end of the loop. -/
def skipN : Nat → List Char → List Char → List Char × Option Err
  | 0, value, _ => (value, none)
  | k + 1, value, pre =>
    match pre with
    | [] => (value, none)
    | p :: pre' =>
      if p = ' ' then
        if 0 < value.length ∧ charAt value 0 ≠ ' ' then (value, some .errBad)
        else skipN k (cutspace value) (cutspace pre)
      else if value.length = 0 ∨ charAt value 0 ≠ p then (value, some .errBad)
      else skipN k (value.drop 1) pre'

/-- Function `skip`: remove the literal `prefix` from the front of `value`; a
run of spaces in the prefix matches any run of spaces (also none at the end of
the value). -/
def skip (value pre : List Char) : List Char × Option Err := skipN pre.length value pre

/-- Function `leadingInt`, with the digits read so far in `x` (a `uint64`):
the leading digits of the text as a number, and the rest of the text; an error
when the number exceeds `1<<63`. -/
def leadingIntFrom : Nat → List Char → Nat × List Char × Option Err
  | x, [] => (x, [], none)
  | x, c :: s =>
    if !isDigitChar c then (x, c :: s, none)
    else if x > 2 ^ 63 / 10 then (0, [], some .errLeadingInt)
    else if x * 10 + (c.toNat - 48) > 2 ^ 63 then (0, [], some .errLeadingInt)
    else leadingIntFrom (x * 10 + (c.toNat - 48)) s

/-- Function `leadingInt`. -/
def leadingInt (s : List Char) : Nat × List Char × Option Err := leadingIntFrom 0 s

/-- The conversion `int(q)` of a `uint64` that is at most `1<<63`. -/
def toInt (q : Nat) : ℤ := if q < 2 ^ 63 then (q : ℤ) else (q : ℤ) - 2 ^ 64

/-- The negation `-x` of an `int`, which leaves the least `int` in place. -/
def negInt (x : ℤ) : ℤ := if x = -(2 ^ 63) then x else -x

/-- Function `atoi`: an optional sign and digits, nothing else; the empty text
reads as `0`. -/
def atoi (s : List Char) : ℤ × Option Err :=
  let neg := decide (0 < s.length ∧ charAt s 0 = '-')
  let s' := if 0 < s.length ∧ (charAt s 0 = '-' ∨ charAt s 0 = '+') then s.drop 1 else s
  match leadingInt s' with
  | (q, rem, err) =>
    if err ≠ none ∨ 0 < rem.length then (0, some .errAtoi)
    else (if neg then negInt (toInt q) else toInt q, none)

/-- Function `getnum`: a one- or two-digit number; exactly two digits when
`fixed`.  On failure the number is `0` and the text is returned whole. -/
def getnum (s : List Char) (fixed : Bool) : ℤ × List Char × Option Err :=
  if !isDigit s 0 then (0, s, some .errBad)
  else if !isDigit s 1 then
    if fixed then (0, s, some .errBad)
    else (digitVal (charAt s 0), s.drop 1, none)
  else (digitVal (charAt s 0) * 10 + digitVal (charAt s 1), s.drop 2, none)

/-- The loop of `getnum3`, with `k` rounds left of its three: the index it
stops at and the number read up to there. -/
def getnum3Loop (s : List Char) : Nat → Nat → ℤ → Nat × ℤ
  | 0, i, n => (i, n)
  | k + 1, i, n =>
    if isDigit s i then getnum3Loop s k (i + 1) (n * 10 + digitVal (charAt s i)) else (i, n)

/-- Function `getnum3`: a number of one to three digits; exactly three when
`fixed`. -/
def getnum3 (s : List Char) (fixed : Bool) : ℤ × List Char × Option Err :=
  match getnum3Loop s 3 0 0 with
  | (i, n) =>
    if i = 0 ∨ (fixed = true ∧ i ≠ 3) then (0, s, some .errBad)
    else (n, s.drop i, none)

/-- Function `match`: equality of two texts of the same length up to the case
of ASCII letters (`s2` is a table entry, `s1` a piece of the value of the
same length). -/
def matchFold : List Char → List Char → Bool
  | c1 :: s1, c2 :: s2 =>
    (decide (c1 = c2) ||
      (decide (c1.toNat ||| 32 = c2.toNat ||| 32) &&
        decide (97 ≤ c1.toNat ||| 32) && decide (c1.toNat ||| 32 ≤ 122))) &&
    matchFold s1 s2
  | _, _ => true

/-- Function `lookup`, on the table entries from index `i` on: the index of the
first entry the value starts with, and the value after it; `-1` and the whole
value when there is none. -/
def lookupFrom (i : ℤ) : List GoString → List Char → ℤ × List Char × Option Err
  | [], val => (-1, val, some .errBad)
  | v :: tab, val =>
    if v.data.length ≤ val.length ∧ matchFold (val.take v.data.length) v.data = true then
      (i, val.drop v.data.length, none)
    else lookupFrom (i + 1) tab val

/-- Function `lookup`. -/
def lookup (tab : List GoString) (val : List Char) : ℤ × List Char × Option Err :=
  lookupFrom 0 tab val

def longDayNames : List GoString :=
  ["Sunday", "Monday", "Tuesday", "Wednesday", "Thursday", "Friday", "Saturday"]

def shortDayNames : List GoString := ["Sun", "Mon", "Tue", "Wed", "Thu", "Fri", "Sat"]

def shortMonthNames : List GoString :=
  ["Jan", "Feb", "Mar", "Apr", "May", "Jun", "Jul", "Aug", "Sep", "Oct", "Nov", "Dec"]

def longMonthNames : List GoString :=
  ["January", "February", "March", "April", "May", "June", "July", "August", "September",
    "October", "November", "December"]

/-- Function `parseNanoseconds`: the fraction `value[0:nbytes]`, a separator
and digits, as nanoseconds; digits after the ninth are dropped.  The results
are `(ns, rangeErrString, err)`. -/
def parseNanoseconds (value : List Char) (nbytes : Nat) : ℤ × GoString × Option Err :=
  if !commaOrPeriod (charAt value 0) then (0, "", some .errBad)
  else
    let value₁ := if 10 < nbytes then value.take 10 else value
    let nbytes₁ := if 10 < nbytes then 10 else nbytes
    match atoi ((value₁.take nbytes₁).drop 1) with
    | (ns, err) =>
      if err ≠ none then (ns, "", err)
      else if ns < 0 then (ns, "fractional second", none)
      else (ns * 10 ^ (10 - nbytes₁), "", none)

/-- The length `n` of a fraction at the front of the value, as the loop
`n := 2; for ; n < len(value) && isDigit(value, n); n++` finds it. -/
def fracLen (value : List Char) : Nat := 2 + ((value.drop 2).takeWhile isDigitChar).length

/-- Function `parseSignedOffset`: the length of a signed hour offset of at most
`23` at the front of the value; `0` when there is none. -/
def parseSignedOffset (value : List Char) : Nat :=
  let sign := charAt value 0
  if sign ≠ '-' ∧ sign ≠ '+' then 0
  else
    match leadingInt (value.drop 1) with
    | (x, rem, err) =>
      if err ≠ none ∨ value.drop 1 = rem then 0
      else if x > 23 then 0
      else value.length - rem.length

/-- Function `parseGMT`: the length of `GMT` with its optional hour offset; the
value is known to start with `GMT`. -/
def parseGMT (value : List Char) : Nat :=
  let value' := value.drop 3
  if value'.length = 0 then 3 else 3 + parseSignedOffset value'

/-- The number of leading upper-case letters of the value, counted up to
six. -/
def countUpper : Nat → List Char → Nat
  | 0, _ => 0
  | _ + 1, [] => 0
  | k + 1, c :: s =>
    if c.toNat < 'A'.toNat ∨ 'Z'.toNat < c.toNat then 0 else 1 + countUpper k s

/-- Function `parseTimeZone`: the length of the time-zone abbreviation at the
front of the value, and whether there is one. -/
def parseTimeZone (value : List Char) : Nat × Bool :=
  if value.length < 3 then (0, false)
  else if 4 ≤ value.length ∧ (value.take 4 = "ChST".data ∨ value.take 4 = "MeST".data) then
    (4, true)
  else if value.take 3 = "GMT".data then (parseGMT value, true)
  else if charAt value 0 = '+' ∨ charAt value 0 = '-' then
    (parseSignedOffset value, decide (0 < parseSignedOffset value))
  else
    let nUpper := countUpper 6 value
    if nUpper = 5 then
      if charAt value 4 = 'T' then (5, true) else (0, false)
    else if nUpper = 4 then
      if charAt value 3 = 'T' ∨ value.take 4 = "WITA".data then (4, true) else (0, false)
    else if nUpper = 3 then (3, true)
    else (0, false)

/-- A `*time.Location`, as far as parsing tells locations apart. -/
inductive Location where
  | UTC
  | Local
  | fixed (name : GoString) (offset : ℤ)
  deriving DecidableEq, Repr

/-- The variables of `parse` that describe the time being constructed, with
their initial values. -/
structure Fields where
  amSet : Bool := false
  pmSet : Bool := false
  year : ℤ := 0
  month : ℤ := -1
  day : ℤ := -1
  yday : ℤ := -1
  hour : ℤ := 0
  min : ℤ := 0
  sec : ℤ := 0
  nsec : ℤ := 0
  z : Option Location := none
  zoneOffset : ℤ := -1
  zoneName : List Char := []
  deriving DecidableEq, Repr

/-- The variables of `parse` after the `switch` of one iteration: the fields,
what is left of the value, and the two error variables. -/
structure Step where
  fields : Fields
  value : List Char
  rangeErrString : GoString := ""
  err : Option Err := none
  deriving DecidableEq, Repr

/-- Whether the layout continues with a fractional-second element (the test
the seconds case makes on `nextStdChunk(layout)`). -/
def nextIsFrac (layout : List Char) : Bool :=
  match (nextStdChunk layout).2.1 with
  | some (.stdFracSecond0 _ _) => true
  | some (.stdFracSecond9 _ _) => true
  | _ => false

/-- The pieces `sign, hour, min, seconds` and the rest of the value that an
offset element cuts from the value, or `none` where the value is too short or
lacks a colon. -/
def offsetPieces (std : Std) (value : List Char) :
    Option (List Char × List Char × List Char × List Char × List Char) :=
  if std = .stdISO8601ColonTZ ∨ std = .stdNumColonTZ then
    if value.length < 6 then none
    else if charAt value 3 ≠ ':' then none
    else some (value.take 1, (value.take 3).drop 1, (value.take 6).drop 4, "00".data,
      value.drop 6)
  else if std = .stdNumShortTZ ∨ std = .stdISO8601ShortTZ then
    if value.length < 3 then none
    else some (value.take 1, (value.take 3).drop 1, "00".data, "00".data, value.drop 3)
  else if std = .stdISO8601ColonSecondsTZ ∨ std = .stdNumColonSecondsTZ then
    if value.length < 9 then none
    else if charAt value 3 ≠ ':' ∨ charAt value 6 ≠ ':' then none
    else some (value.take 1, (value.take 3).drop 1, (value.take 6).drop 4,
      (value.take 9).drop 7, value.drop 9)
  else if std = .stdISO8601SecondsTZ ∨ std = .stdNumSecondsTz then
    if value.length < 7 then none
    else some (value.take 1, (value.take 3).drop 1, (value.take 5).drop 3,
      (value.take 7).drop 5, value.drop 7)
  else
    if value.length < 5 then none
    else some (value.take 1, (value.take 3).drop 1, (value.take 5).drop 3, "00".data,
      value.drop 5)

/-- The numeric offset cases of the `switch` of `parse`: the pieces are read
as two-digit numbers, and an hour above 24 or a minute or second above 60 is
out of range. -/
def switchNumOffset (std : Std) (f : Fields) (value : List Char) : Step :=
  match offsetPieces std value with
  | none => { fields := f, value := value, err := some .errBad }
  | some (sign, hour, min, seconds, value') =>
    let hr := getnum hour true
    let mm := if hr.2.2 = none then getnum min true else (0, min, hr.2.2)
    let ss := if mm.2.2 = none then getnum seconds true else (0, seconds, mm.2.2)
    let rangeErrString : GoString :=
      if ss.1 > 60 then "time zone offset second"
      else if mm.1 > 60 then "time zone offset minute"
      else if hr.1 > 24 then "time zone offset hour"
      else ""
    let zoneOffset := (hr.1 * 60 + mm.1) * 60 + ss.1
    if charAt sign 0 = '+' then
      { fields := { f with zoneOffset := zoneOffset }, value := value', err := ss.2.2,
        rangeErrString := rangeErrString }
    else if charAt sign 0 = '-' then
      { fields := { f with zoneOffset := -zoneOffset }, value := value', err := ss.2.2,
        rangeErrString := rangeErrString }
    else
      { fields := { f with zoneOffset := zoneOffset }, value := value', err := some .errBad,
        rangeErrString := rangeErrString }

/-- The ISO 8601 offset cases of the `switch` of `parse`: a `Z`, or else a
numeric offset. -/
def switchOffset (std : Std) (f : Fields) (value : List Char) : Step :=
  if 1 ≤ value.length ∧ charAt value 0 = 'Z' then
    { fields := { f with z := some .UTC }, value := value.drop 1 }
  else switchNumOffset std f value

/-- The `switch` of one iteration of `parse`: read the layout element `std`
from the front of `value`.  `layout` is the layout after the element. -/
def switchStd (std : Std) (layout : List Char) (f : Fields) (value : List Char) : Step :=
  match std with
  | .stdYear =>
    if value.length < 2 then { fields := f, value := value, err := some .errBad }
    else
      match atoi (value.take 2) with
      | (year, err) =>
        if err ≠ none then { fields := { f with year := year }, value := value.drop 2, err := err }
        else
          { fields := { f with year := if year ≥ 69 then year + 1900 else year + 2000 },
            value := value.drop 2 }
  | .stdLongYear =>
    if value.length < 4 ∨ !isDigit value 0 then
      { fields := f, value := value, err := some .errBad }
    else
      match atoi (value.take 4) with
      | (year, err) => { fields := { f with year := year }, value := value.drop 4, err := err }
  | .stdMonth =>
    match lookup shortMonthNames value with
    | (month, value', err) =>
      { fields := { f with month := month + 1 }, value := value', err := err }
  | .stdLongMonth =>
    match lookup longMonthNames value with
    | (month, value', err) =>
      { fields := { f with month := month + 1 }, value := value', err := err }
  | .stdNumMonth | .stdZeroMonth =>
    match getnum value (std = .stdZeroMonth) with
    | (month, value', err) =>
      { fields := { f with month := month }, value := value', err := err,
        rangeErrString := if err = none ∧ (month ≤ 0 ∨ 12 < month) then "month" else "" }
  | .stdWeekDay =>
    match lookup shortDayNames value with
    | (_, value', err) => { fields := f, value := value', err := err }
  | .stdLongWeekDay =>
    match lookup longDayNames value with
    | (_, value', err) => { fields := f, value := value', err := err }
  | .stdDay | .stdUnderDay | .stdZeroDay =>
    let value₁ :=
      if std = .stdUnderDay ∧ 0 < value.length ∧ charAt value 0 = ' ' then value.drop 1
      else value
    match getnum value₁ (std = .stdZeroDay) with
    | (day, value', err) => { fields := { f with day := day }, value := value', err := err }
  | .stdUnderYearDay | .stdZeroYearDay =>
    let value₁ :=
      if std = .stdUnderYearDay ∧ 0 < value.length ∧ charAt value 0 = ' ' then value.drop 1
      else value
    let value₂ :=
      if std = .stdUnderYearDay ∧ 0 < value₁.length ∧ charAt value₁ 0 = ' ' then value₁.drop 1
      else value₁
    match getnum3 value₂ (std = .stdZeroYearDay) with
    | (yday, value', err) => { fields := { f with yday := yday }, value := value', err := err }
  | .stdHour =>
    match getnum value false with
    | (hour, value', err) =>
      { fields := { f with hour := hour }, value := value', err := err,
        rangeErrString := if hour < 0 ∨ 24 ≤ hour then "hour" else "" }
  | .stdHour12 | .stdZeroHour12 =>
    match getnum value (std = .stdZeroHour12) with
    | (hour, value', err) =>
      { fields := { f with hour := hour }, value := value', err := err,
        rangeErrString := if hour < 0 ∨ 12 < hour then "hour" else "" }
  | .stdMinute | .stdZeroMinute =>
    match getnum value (std = .stdZeroMinute) with
    | (min, value', err) =>
      { fields := { f with min := min }, value := value', err := err,
        rangeErrString := if min < 0 ∨ 60 ≤ min then "minute" else "" }
  | .stdSecond | .stdZeroSecond =>
    match getnum value (std = .stdZeroSecond) with
    | (sec, value', err) =>
      if err ≠ none then { fields := { f with sec := sec }, value := value', err := err }
      else if sec < 0 ∨ 60 ≤ sec then
        { fields := { f with sec := sec }, value := value', rangeErrString := "second" }
      else if 2 ≤ value'.length ∧ commaOrPeriod (charAt value' 0) = true ∧
          isDigit value' 1 = true then
        if nextIsFrac layout then { fields := { f with sec := sec }, value := value' }
        else
          match parseNanoseconds value' (fracLen value') with
          | (nsec, rangeErrString, err') =>
            { fields := { f with sec := sec, nsec := nsec },
              value := value'.drop (fracLen value'), err := err',
              rangeErrString := rangeErrString }
      else { fields := { f with sec := sec }, value := value' }
  | .stdPM =>
    if value.length < 2 then { fields := f, value := value, err := some .errBad }
    else if value.take 2 = "PM".data then
      { fields := { f with pmSet := true }, value := value.drop 2 }
    else if value.take 2 = "AM".data then
      { fields := { f with amSet := true }, value := value.drop 2 }
    else { fields := f, value := value.drop 2, err := some .errBad }
  | .stdpm =>
    if value.length < 2 then { fields := f, value := value, err := some .errBad }
    else if value.take 2 = "pm".data then
      { fields := { f with pmSet := true }, value := value.drop 2 }
    else if value.take 2 = "am".data then
      { fields := { f with amSet := true }, value := value.drop 2 }
    else { fields := f, value := value.drop 2, err := some .errBad }
  | .stdISO8601TZ | .stdISO8601ShortTZ | .stdISO8601ColonTZ | .stdISO8601SecondsTZ
  | .stdISO8601ColonSecondsTZ => switchOffset std f value
  | .stdNumTZ | .stdNumShortTZ | .stdNumColonTZ | .stdNumSecondsTz
  | .stdNumColonSecondsTZ => switchNumOffset std f value
  | .stdTZ =>
    if 3 ≤ value.length ∧ value.take 3 = "UTC".data then
      { fields := { f with z := some .UTC }, value := value.drop 3 }
    else
      match parseTimeZone value with
      | (n, ok) =>
        if !ok then { fields := f, value := value, err := some .errBad }
        else { fields := { f with zoneName := value.take n }, value := value.drop n }
  | .stdFracSecond0 digits _ =>
    let ndigit := 1 + digits
    if value.length < ndigit then { fields := f, value := value, err := some .errBad }
    else
      match parseNanoseconds value ndigit with
      | (nsec, rangeErrString, err) =>
        { fields := { f with nsec := nsec }, value := value.drop ndigit, err := err,
          rangeErrString := rangeErrString }
  | .stdFracSecond9 _ _ =>
    if value.length < 2 ∨ !commaOrPeriod (charAt value 0) ∨ !isDigitChar (charAt value 1) then
      { fields := f, value := value }
    else
      let i := ((value.drop 1).takeWhile isDigitChar).length
      match parseNanoseconds value (1 + i) with
      | (nsec, rangeErrString, err) =>
        { fields := { f with nsec := nsec }, value := value.drop (1 + i), err := err,
          rangeErrString := rangeErrString }

/-- Type `ParseError`.  `Layout` and `Value` are the two arguments of `Parse`;
`LayoutElem` and `ValueElem` are pieces cut out of them, kept as their
bytes. -/
structure ParseError where
  Layout : GoString
  Value : GoString
  LayoutElem : List Char
  ValueElem : List Char
  Message : GoString
  deriving DecidableEq, Repr

/-- The hexadecimal digit of a number below 16 (`lowerhex`). -/
def lowerhex (n : Nat) : Char := "0123456789abcdef".data.getD n '0'

/-- Function `decoderune` of the runtime, which a `range` over a string calls
at a byte that is not ASCII: the rune that the bytes at the front of `s`
encode, and how many they are; `U+FFFD` and one byte where they encode
none. -/
def decoderune (s : List Char) : Nat × Nat :=
  let b₀ := (charAt s 0).toNat
  let b₁ := (charAt s 1).toNat
  let b₂ := (charAt s 2).toNat
  let b₃ := (charAt s 3).toNat
  if 0xC0 ≤ b₀ ∧ b₀ < 0xE0 then
    if 1 < s.length ∧ (0x80 ≤ b₁ ∧ b₁ ≤ 0xBF) then
      let r := b₀ % 32 * 64 + b₁ % 64
      if 0x7F < r then (r, 2) else (0xFFFD, 1)
    else (0xFFFD, 1)
  else if 0xE0 ≤ b₀ ∧ b₀ < 0xF0 then
    if 2 < s.length ∧ (0x80 ≤ b₁ ∧ b₁ ≤ 0xBF) ∧ (0x80 ≤ b₂ ∧ b₂ ≤ 0xBF) then
      let r := b₀ % 16 * 4096 + b₁ % 64 * 64 + b₂ % 64
      if 0x7FF < r ∧ ¬ (0xD800 ≤ r ∧ r ≤ 0xDFFF) then (r, 3) else (0xFFFD, 1)
    else (0xFFFD, 1)
  else if 0xF0 ≤ b₀ ∧ b₀ < 0xF8 then
    if 3 < s.length ∧ (0x80 ≤ b₁ ∧ b₁ ≤ 0xBF) ∧ (0x80 ≤ b₂ ∧ b₂ ≤ 0xBF) ∧
        (0x80 ≤ b₃ ∧ b₃ ≤ 0xBF) then
      let r := b₀ % 8 * 262144 + b₁ % 64 * 4096 + b₂ % 64 * 64 + b₃ % 64
      if 0xFFFF < r ∧ r ≤ 0x10FFFF then (r, 4) else (0xFFFD, 1)
    else (0xFFFD, 1)
  else (0xFFFD, 1)

/-- One step of `for i, c := range s` at the bytes `s` that are left, which
are not empty: the rune `c` and the number of bytes that `i` advances by. -/
def rangeRune (s : List Char) : Nat × Nat :=
  if (charAt s 0).toNat < 0x80 then ((charAt s 0).toNat, 1) else decoderune s

/-- The length `len(string(c))` of the UTF-8 encoding of a rune; a rune that
is no Unicode scalar value is encoded as `U+FFFD`. -/
def runeLen (c : Nat) : Nat :=
  if c ≤ 0x7F then 1
  else if c ≤ 0x7FF then 2
  else if (0xD800 ≤ c ∧ c ≤ 0xDFFF) ∨ 0x10FFFF < c then 3
  else if c ≤ 0xFFFF then 3
  else 4

/-- The inner loop of `quote`, with `k` rounds left at the index `j`: the
bytes `s[j]`, `s[j+1]`, ... in hexadecimal, each after `\x`. -/
def quoteHex (s : List Char) : Nat → Nat → List Char
  | 0, _ => []
  | k + 1, j =>
    [Char.ofNat 92, 'x', lowerhex ((charAt s j).toNat / 16),
      lowerhex ((charAt s j).toNat % 16)] ++ quoteHex s k (j + 1)

/-- The bytes of the encoding of `U+FFFD`, `string(runeError)`. -/
def runeErrorBytes : List Char := [Char.ofNat 0xEF, Char.ofNat 0xBF, Char.ofNat 0xBD]

/-- The loop of `quote` over the runes of the bytes `s` that are left, at most
`fuel` rounds (a round takes at least one byte, so `s.length` rounds reach
the end): a rune that is not ASCII or is a control character is written as
its bytes in hexadecimal, a double quote or a backslash after a backslash. -/
def quoteLoop : Nat → List Char → List Char
  | 0, _ => []
  | fuel + 1, s =>
    if s.length = 0 then []
    else
      let c := (rangeRune s).1
      let out :=
        if 0x80 ≤ c ∨ c < 0x20 then
          let width :=
            if c = 0xFFFD then
              if 2 < s.length ∧ s.take 3 = runeErrorBytes then 3 else 1
            else runeLen c
          quoteHex s width 0
        else if c = '"'.toNat ∨ c = 92 then [Char.ofNat 92, charAt s 0]
        else [charAt s 0]
      out ++ quoteLoop fuel (s.drop (rangeRune s).2)

/-- Function `quote`: the text between double quotes. -/
def quote (s : List Char) : List Char := '"' :: quoteLoop s.length s ++ ['"']

/-- The text of the layout element that `nextStdChunk` found:
`layout[len(prefix) : len(layout)-len(suffix)]`. -/
def stdstrOf (layout pre suffix : List Char) : List Char :=
  (layout.take (layout.length - suffix.length)).drop pre.length

/-- The `for` loop of `parse`, at most `fuel` iterations (every iteration but
the last removes a layout element, so `layout.length + 1` iterations always
reach the `break` or a `return`; `none` stands for a loop cut short).  The
result is the error returned from inside the loop, or the fields and the rest
of the value at the `break`. -/
def parseLoop (alayout avalue : GoString) :
    Nat → List Char → Fields → List Char → Option (Except ParseError (Fields × List Char))
  | 0, _, _, _ => none
  | fuel + 1, layout, f, value =>
    match nextStdChunk layout with
    | (pre, std, suffix) =>
      match skip value pre with
      | (value₁, some _) =>
        some (.error ⟨alayout, avalue, pre, value₁, ""⟩)
      | (value₁, none) =>
        match std with
        | none =>
          if value₁.length ≠ 0 then
            some (.error ⟨alayout, avalue, [], value₁,
              ": extra text: " ++ String.mk (quote value₁)⟩)
          else some (.ok (f, value₁))
        | some std =>
          let s := switchStd std suffix f value₁
          if s.rangeErrString ≠ "" then
            some (.error ⟨alayout, avalue, stdstrOf layout pre suffix, s.value,
              ": " ++ s.rangeErrString ++ " out of range"⟩)
          else if s.err ≠ none then
            some (.error ⟨alayout, avalue, stdstrOf layout pre suffix, value₁, ""⟩)
          else parseLoop alayout avalue fuel suffix s.fields s.value

/-- Function `isLeap`. -/
def isLeap (year : ℤ) : Bool :=
  decide (year % 4 = 0) && (decide (year % 100 ≠ 0) || decide (year % 400 = 0))

/-- Table `daysBefore`: the days of a non-leap year before each month ends. -/
def daysBefore : List ℤ := [0, 31, 59, 90, 120, 151, 181, 212, 243, 273, 304, 334, 365]

/-- Function `daysIn`. -/
def daysIn (m : ℤ) (year : ℤ) : ℤ :=
  if m = 2 ∧ isLeap year = true then 29
  else daysBefore.getD m.toNat 0 - daysBefore.getD (m.toNat - 1) 0

/-- A parsed `Time`, kept as the calendar reading that `parse` hands to `Date`
together with the location it chooses.  (Which of the process's own zones
matches an offset or an abbreviation is not modelled; the predicates discard
the time.) -/
structure Time where
  year : ℤ
  month : ℤ
  day : ℤ
  hour : ℤ
  min : ℤ
  sec : ℤ
  nsec : ℤ
  loc : Location
  deriving DecidableEq, Repr

/-- The location `parse` gives the time: an explicit `UTC`, else a numeric
offset, else an abbreviation, else the default location. -/
def locationOf (f : Fields) (defaultLocation : Location) : Location :=
  match f.z with
  | some z => z
  | none =>
    if f.zoneOffset ≠ -1 then .fixed (String.mk f.zoneName) f.zoneOffset
    else if f.zoneName ≠ [] then
      .fixed (String.mk f.zoneName)
        (if 3 < f.zoneName.length ∧ f.zoneName.take 3 = "GMT".data then
          (atoi (f.zoneName.drop 3)).1 * 3600
        else 0)
    else defaultLocation

/-- The month and the day of the month that `parse` settles on after its loop:
those a day of the year stands for, which have to agree with a month and a day
read from the value, or else the month and the day read, `1` for one that was
not.  An error is the message of the `ParseError`. -/
def monthDay (year month day yday : ℤ) : Except GoString (ℤ × ℤ) :=
  if yday ≥ 0 then
    let feb29 := decide (isLeap year = true ∧ yday = 31 + 29)
    let yday₁ := if isLeap year = true ∧ yday ≠ 31 + 29 ∧ yday > 31 + 29 then yday - 1 else yday
    if yday₁ < 1 ∨ yday₁ > 365 then .error ": day-of-year out of range"
    else
      let m₀ := (yday₁ - 1) / 31 + 1
      let m₁ := if daysBefore.getD m₀.toNat 0 < yday₁ then m₀ + 1 else m₀
      let m := if feb29 then 2 else m₁
      let d := if feb29 then 29 else yday₁ - daysBefore.getD (m₁.toNat - 1) 0
      if month ≥ 0 ∧ month ≠ m then .error ": day-of-year does not match month"
      else if day ≥ 0 ∧ day ≠ d then .error ": day-of-year does not match day"
      else .ok (m, d)
  else .ok (if month < 0 then 1 else month, if day < 0 then 1 else day)

/-- Function `parse`: the loop, then the adjustment of the hour for `AM`/`PM`,
the conversion of a day of the year, and the validation of the day of the
month. -/
def parse (layout value : GoString) (defaultLocation : Location) : Except ParseError Time :=
  match parseLoop layout value ((bytesOf layout).length + 1) (bytesOf layout) {}
      (bytesOf value) with
  | none => .error ⟨layout, value, [], [], ""⟩
  | some (.error e) => .error e
  | some (.ok (f, rest)) =>
    let hour :=
      if f.pmSet ∧ f.hour < 12 then f.hour + 12
      else if f.amSet ∧ f.hour = 12 then 0
      else f.hour
    match monthDay f.year f.month f.day f.yday with
    | .error msg => .error ⟨layout, value, [], rest, msg⟩
    | .ok (month, day) =>
      if day < 1 ∨ day > daysIn month f.year then
        .error ⟨layout, value, [], rest, ": day out of range"⟩
      else .ok ⟨f.year, month, day, hour, f.min, f.sec, f.nsec, locationOf f defaultLocation⟩

/-- The loop of the closure `parseUint` of `parseRFC3339`: the digits as a
number, `none` at a byte that is no digit. -/
def parseUintLoop : ℤ → List Char → Option ℤ
  | x, [] => some x
  | x, c :: s =>
    if c.toNat < '0'.toNat ∨ '9'.toNat < c.toNat then none
    else parseUintLoop (x * 10 + digitVal c) s

/-- The closure `parseUint` of `parseRFC3339`: the text as a number between
`min` and `max`, and whether it is one; `min` when it is not. -/
def parseUint (s : List Char) (min max : ℤ) : ℤ × Bool :=
  match parseUintLoop 0 s with
  | none => (min, false)
  | some x => if x < min ∨ max < x then (min, false) else (x, true)

/-- Function `parseRFC3339`, the fast path of `Parse` for the layout
`RFC3339`: `none` where it reports `false`. -/
def parseRFC3339 (s : List Char) : Option Time :=
  if s.length < 19 then none
  else
    let year := parseUint (s.take 4) 0 9999
    let month := parseUint ((s.take 7).drop 5) 1 12
    let day := parseUint ((s.take 10).drop 8) 1 (daysIn month.1 year.1)
    let hour := parseUint ((s.take 13).drop 11) 0 23
    let min := parseUint ((s.take 16).drop 14) 0 59
    let sec := parseUint ((s.take 19).drop 17) 0 59
    let ok := year.2 && month.2 && day.2 && hour.2 && min.2 && sec.2
    if ok = false ∨ ¬ (charAt s 4 = '-' ∧ charAt s 7 = '-' ∧ charAt s 10 = 'T' ∧
        charAt s 13 = ':' ∧ charAt s 16 = ':') then none
    else
      let s₁ := s.drop 19
      let frac := decide (2 ≤ s₁.length ∧ charAt s₁ 0 = '.' ∧ isDigit s₁ 1 = true)
      let nsec := if frac then (parseNanoseconds s₁ (fracLen s₁)).1 else 0
      let s₂ := if frac then s₁.drop (fracLen s₁) else s₁
      if s₂.length ≠ 1 ∨ charAt s₂ 0 ≠ 'Z' then
        if s₂.length ≠ 6 then none
        else
          let hr := parseUint ((s₂.take 3).drop 1) 0 23
          let mm := parseUint ((s₂.take 6).drop 4) 0 59
          if (hr.2 && mm.2) = false ∨
              ¬ ((charAt s₂ 0 = '-' ∨ charAt s₂ 0 = '+') ∧ charAt s₂ 3 = ':') then none
          else
            let zoneOffset := (hr.1 * 60 + mm.1) * 60
            some ⟨year.1, month.1, day.1, hour.1, min.1, sec.1, nsec,
              .fixed "" (if charAt s₂ 0 = '-' then -zoneOffset else zoneOffset)⟩
      else some ⟨year.1, month.1, day.1, hour.1, min.1, sec.1, nsec, .UTC⟩

/-- Function `time.Parse`: for the layouts `RFC3339` and `RFC3339Nano` what
`parseRFC3339` reads, where it reads the value; else what `parse` reads. -/
def Parse (layout value : GoString) : Except ParseError Time :=
  if layout = RFC3339 ∨ layout = RFC3339Nano then
    match parseRFC3339 (bytesOf value) with
    | some t => .ok t
    | none => parse layout value .UTC
  else parse layout value .UTC

end time

/-! ## The predicates built on `time.Parse` -/

/-- Function `IsTime`: whether `time.Parse` returns no error. -/
def IsTime (str : GoString) (format : GoString) : Bool :=
  match time.Parse format str with
  | .ok _ => true
  | .error _ => false

/-- Function `IsRFC3339`. -/
def IsRFC3339 (fl : FieldLevel) : Bool := IsTime fl.Field.String time.RFC3339

/-- Function `IsRFC3339WithoutZone`. -/
def IsRFC3339WithoutZone (fl : FieldLevel) : Bool := IsTime fl.Field.String RF3339WithoutZone

/-- Function `IsDatetime`. -/
def IsDatetime (fl : FieldLevel) : Bool :=
  IsTime fl.Field.String time.RFC3339 || IsTime fl.Field.String RF3339WithoutZone

/-- The character of a decimal digit `d`. -/
def digitChar (d : Nat) : Char := Char.ofNat (48 + d)

/-- A number written with two digits, zero-padded. -/
def pad2 (n : Nat) : List Char := [digitChar (n / 10 % 10), digitChar (n % 10)]

/-- A number written with four digits, zero-padded. -/
def pad4 (n : Nat) : List Char :=
  [digitChar (n / 1000 % 10), digitChar (n / 100 % 10), digitChar (n / 10 % 10),
    digitChar (n % 10)]

/-- The text `YYYY-MM-DDTHH:MM:SS` of a timestamp. -/
def timestampText (year month day hour minute second : Nat) : List Char :=
  pad4 year ++ '-' :: pad2 month ++ '-' :: pad2 day ++ 'T' :: pad2 hour ++ ':' :: pad2 minute ++
    ':' :: pad2 second

/-- The number of days of a month of the calendar: 31, or 30 for April, June,
September and November, or for February 29 in a leap year (a year divisible
by 4, and not by 100 unless by 400) and 28 otherwise. -/
def calendarDays (year month : Nat) : Nat :=
  if month = 2 then
    if year % 4 = 0 ∧ (year % 100 ≠ 0 ∨ year % 400 = 0) then 29 else 28
  else if month = 4 ∨ month = 6 ∨ month = 9 ∨ month = 11 then 30
  else 31

/-- A timestamp with year 0000-9999, month 01-12, a day valid for that month
and year, hour 00-23, minute 00-59 and second 00-59. -/
def ValidTimestamp (year month day hour minute second : Nat) : Prop :=
  year ≤ 9999 ∧ 1 ≤ month ∧ month ≤ 12 ∧ 1 ≤ day ∧ day ≤ calendarDays year month ∧
    hour ≤ 23 ∧ minute ≤ 59 ∧ second ≤ 59

/-! ## Package `validator`: the registration interface of the engine

The part of `gopkg.in/go-playground/validator.v9` that `GetValidator` drives:
an instance holds a table from rule names to validation functions and a table
from types to custom type functions.  The table of rules that `New` installs
in every instance (`bakedInValidators`) is a parameter. -/

namespace validator

/-- Type `validator.Func`. -/
abbrev Func : Type := FieldLevel → Bool

/-- Type `validator.CustomTypeFunc`. -/
abbrev CustomTypeFunc : Type := Value → driver.Value

/-- A Go `map` with string keys, kept as an association list in which a key
occurs at most once when it is built by `mapSet`. -/
abbrev StringMap (β : Type) : Type := List (GoString × β)

/-- Reading `m[k]`: the value and whether the key is present. -/
def mapGet {β : Type} (m : StringMap β) (k : GoString) : Option β :=
  match m with
  | [] => none
  | (k', b) :: m' => if k' = k then some b else mapGet m' k

/-- Assignment `m[k] = b`: a binding of the key that is already there is
replaced. -/
def mapSet {β : Type} (m : StringMap β) (k : GoString) (b : β) : StringMap β :=
  (k, b) :: m.filter fun e => decide (e.1 ≠ k)

/-- Type `validator.Validate`: the rule table `validations`, the table
`customFuncs` keyed by the name of the type, and the flag `hasCustomFuncs`. -/
structure Validate where
  validations : StringMap Func
  customFuncs : StringMap CustomTypeFunc
  hasCustomFuncs : Bool

/-- A call made on the engine. -/
inductive Call where
  | New
  | RegisterValidation (tag : GoString)
  | RegisterCustomTypeFunc (types : List GoString)
  deriving DecidableEq, Repr

/-- The tags reserved by the engine (`restrictedTags`). -/
def restrictedTags : List GoString :=
  ["dive", "keys", "endkeys", "structonly", "omitempty", "-", "0x2C", "0x7C", "nostructlevel",
    "required", "isdefault"]

/-- The characters a tag may not contain (`restrictedTagChars`). -/
def restrictedTagChars : GoString := ".[],|=+()`~!@#$%^&*\\\"/?<>\x7b\x7d"

/-- A panic, by its message. -/
abbrev Panic : Type := GoString

end validator

/-- The state that `GetValidator` works on: the validator instances allocated
so far (`*validator.Validate` is an index into `heap`), the package variable
`validate` (`none` for `nil`), and, kept by the model only, the calls made on
the engine so far, in order. -/
structure World where
  heap : List validator.Validate
  validate : Option Nat
  trace : List validator.Call

/-- The state before anything has run: no instance, `validate` is `nil`. -/
def World.initial : World := ⟨[], none, []⟩

/-- The instance a pointer refers to. -/
def World.deref (w : World) (p : Nat) : Option validator.Validate := w.heap.get? p

namespace validator

/-- Function `validator.New`: a fresh instance holding the baked-in rules and
no custom type function. -/
def New (bakedInValidators : StringMap Func) (w : World) : Nat × World :=
  (w.heap.length,
    { w with
      heap := w.heap ++ [⟨bakedInValidators, [], false⟩]
      trace := w.trace ++ [.New] })

/-- Method `(*Validate).RegisterValidation`: an error for the empty tag, a
panic for a reserved tag or a tag containing a reserved character, and else
`v.validations[tag] = fn`.  The results are the error and the new state. -/
def RegisterValidation (v : Nat) (tag : GoString) (fn : Func) (w : World) :
    Except Panic (Option GoError × World) :=
  let w₁ : World := { w with trace := w.trace ++ [.RegisterValidation tag] }
  if tag.length = 0 then .ok (some "Function Key cannot be empty", w₁)
  else if tag ∈ restrictedTags ∨ tag.data.any (fun c => decide (c ∈ restrictedTagChars.data)) then
    .error ("Tag '" ++ tag ++ "' either contains restricted characters or is the same as a " ++
      "restricted tag needed for normal operation")
  else
    .ok (none,
      { w₁ with
        heap := w₁.heap.modify (fun i => { i with validations := mapSet i.validations tag fn }) v })

/-- Method `(*Validate).RegisterCustomTypeFunc`: `v.customFuncs[t] = fn` for
every type `t` named, and `v.hasCustomFuncs = true`. -/
def RegisterCustomTypeFunc (v : Nat) (fn : CustomTypeFunc) (types : List GoString) (w : World) :
    World :=
  { w with
    heap := w.heap.modify
      (fun i =>
        { i with
          customFuncs := types.foldl (fun m t => mapSet m t fn) i.customFuncs
          hasCustomFuncs := true }) v
    trace := w.trace ++ [.RegisterCustomTypeFunc types] }

end validator

/-! ## The singleton and its rules -/

/-- Function `ValidateValuer`. -/
def ValidateValuer (field : Value) : driver.Value :=
  match field with
  | .valuer _ val err =>
    if err = none then val else .nil
  | _ => .nil

/-- Function `NotNull`. -/
def NotNull (_fl : FieldLevel) : Bool := true

/-- Function `GetValidator`, on the state it reads and writes: the pointer it
returns and the state it leaves.  The errors that `RegisterValidation` returns
are dropped, as in the source; a panic of the engine would end the call. -/
def GetValidator (bakedInValidators : validator.StringMap validator.Func) (w : World) :
    Except validator.Panic (Nat × World) :=
  match w.validate with
  | some p => .ok (p, w)
  | none =>
    match validator.New bakedInValidators w with
    | (p, w) =>
      let w : World := { w with validate := some p }
      match validator.RegisterValidation p "notNull" NotNull w with
      | .error e => .error e
      | .ok (_, w) =>
      match validator.RegisterValidation p "int" IsInt w with
      | .error e => .error e
      | .ok (_, w) =>
      match validator.RegisterValidation p "float" IsFloat w with
      | .error e => .error e
      | .ok (_, w) =>
      match validator.RegisterValidation p "date" IsDate w with
      | .error e => .error e
      | .ok (_, w) =>
      match validator.RegisterValidation p "rfc3339" IsRFC3339 w with
      | .error e => .error e
      | .ok (_, w) =>
      match validator.RegisterValidation p "rfc3339WithoutZone" IsRFC3339WithoutZone w with
      | .error e => .error e
      | .ok (_, w) =>
      match validator.RegisterValidation p "datetime" IsDatetime w with
      | .error e => .error e
      | .ok (_, w) =>
      let w := validator.RegisterCustomTypeFunc p ValidateValuer
        ["sql.NullString", "sql.NullInt64", "sql.NullBool", "sql.NullFloat64"] w
      .ok (p, w)

/-- The text with its leading sign character removed, if it has one. -/
def dropSign (s : List Char) : List Char :=
  match s with
  | [] => []
  | c :: t => if c = '+' ∨ c = '-' then t else c :: t

/-- The mantissa of a float text: the part before any `e` or `E`. -/
def mantissa (s : List Char) : List Char :=
  s.takeWhile fun c => !(decide (c = 'e') || decide (c = 'E'))

/-- `n` calls of `GetValidator` in a row: the pointers they return, in order,
and the state they leave. -/
def GetValidatorTimes (bakedInValidators : validator.StringMap validator.Func) :
    Nat → World → Except validator.Panic (List Nat × World)
  | 0, w => .ok ([], w)
  | n + 1, w =>
    match GetValidator bakedInValidators w with
    | .error e => .error e
    | .ok (p, w₁) =>
      match GetValidatorTimes bakedInValidators n w₁ with
      | .error e => .error e
      | .ok (ps, w₂) => .ok (p :: ps, w₂)

/-! ## Faults at run time

Go stops a function short of its `return` when an index or a slice expression
is out of range, and when the code calls `panic`, as `regexp.MustCompile` does
on a pattern that does not parse.  The definitions above cannot tell: they
read a text with `charAt`, `List.take` and `List.drop`, which always return,
they give a loop a number of rounds, and they start from the syntax trees of
the patterns.  The definitions of this section, under `Run`, read the same
source again and keep every index expression, every slice expression, every
loop given a number of rounds and the compilation of the patterns as steps
that may stop the function. -/

/-- What keeps a Go function from returning. -/
inductive Fault where
  /-- The run-time panic of an index expression out of range. -/
  | indexOutOfRange
  /-- The run-time panic of a slice expression out of range. -/
  | sliceBoundsOutOfRange
  /-- A call of `panic`, with its message. -/
  | panicked (message : GoString)
  /-- A loop that is still running after the rounds it was given. -/
  | stillRunning
  deriving DecidableEq, Repr

/-- The outcome of running a Go function: the value it returns, or the fault
that stops it. -/
abbrev Run (α : Type) : Type := Except Fault α

/-- The index expression `s[i]`. -/
def Run.index {α : Type} (s : List α) (i : Nat) : Run α :=
  match s.get? i with
  | some c => .ok c
  | none => .error .indexOutOfRange

/-- The index expression `s[i]` for an `int` that may be negative. -/
def Run.indexInt {α : Type} (s : List α) (i : ℤ) : Run α :=
  if i < 0 then .error .indexOutOfRange else Run.index s i.toNat

/-- The slice expression `s[i:j]`. -/
def Run.slice {α : Type} (s : List α) (i j : Nat) : Run (List α) :=
  if i ≤ j ∧ j ≤ s.length then .ok ((s.take j).drop i) else .error .sliceBoundsOutOfRange

/-- The slice expression `s[i:]`. -/
def Run.sliceFrom {α : Type} (s : List α) (i : Nat) : Run (List α) :=
  if i ≤ s.length then .ok (s.drop i) else .error .sliceBoundsOutOfRange

/-- The operator `&&`: the right operand is not evaluated when the left one is
false. -/
def Run.and (a b : Run Bool) : Run Bool := do
  if (← a) then b else pure false

/-- The operator `||`: the right operand is not evaluated when the left one is
true. -/
def Run.or (a b : Run Bool) : Run Bool := do
  if (← a) then pure true else b

/-- Whether the character `s[i]` satisfies `p`. -/
def Run.test (s : List Char) (i : Nat) (p : Char → Bool) : Run Bool := do
  let c ← Run.index s i
  pure (p c)

/-- Function `isDigit`. -/
def Run.time.isDigit (s : List Char) (i : Nat) : Run Bool :=
  if s.length ≤ i then pure false
  else Run.test s i isDigitChar

/-- Function `startsWithLowerCase`. -/
def Run.time.startsWithLowerCase (str : List Char) : Run Bool :=
  if str.length = 0 then pure false
  else Run.test str 0 fun c => decide ('a'.toNat ≤ c.toNat) && decide (c.toNat ≤ 'z'.toNat)

/-- The test `len(layout) >= i+k && layout[i:i+k] == lit` of `nextStdChunk`,
at the position where the layout still reads `layout`. -/
def Run.time.hasPrefix (lit : GoString) (layout : List Char) : Run Bool :=
  Run.and (pure (decide (lit.data.length ≤ layout.length))) do
    let head ← Run.slice layout 0 lit.data.length
    pure (decide (head = lit.data))

/-- Table `std0x`, at index `i`. -/
def Run.time.std0x (i : Nat) : Run time.Std :=
  Run.index [.stdZeroMonth, .stdZeroDay, .stdZeroHour12, .stdZeroMinute, .stdZeroSecond, .stdYear]
    i

/-- The results `layout[0:i], std, layout[i+k:]` of `nextStdChunk` for an
element written with `k` characters. -/
def Run.time.chunk (std : time.Std) (k : Nat) (layout : List Char) :
    Run (Option (List Char × time.Std × List Char)) := do
  let suffix ← Run.sliceFrom layout k
  pure (some ([], std, suffix))

/-- Case `'J'` of `nextStdChunk`. -/
def Run.time.stdAtJ (layout : List Char) : Run (Option (List Char × time.Std × List Char)) := do
  if (← Run.time.hasPrefix "Jan" layout) then
    if (← Run.time.hasPrefix "January" layout) then Run.time.chunk .stdLongMonth 7 layout
    else if !(← Run.time.startsWithLowerCase (← Run.sliceFrom layout 3)) then
      Run.time.chunk .stdMonth 3 layout
    else pure none
  else pure none

/-- Case `'M'` of `nextStdChunk`. -/
def Run.time.stdAtM (layout : List Char) : Run (Option (List Char × time.Std × List Char)) := do
  if 3 ≤ layout.length then
    if (← Run.and (Run.time.hasPrefix "Mon" layout) (Run.time.hasPrefix "Monday" layout)) then
      Run.time.chunk .stdLongWeekDay 6 layout
    else if (← Run.and (Run.time.hasPrefix "Mon" layout) do
        pure (!(← Run.time.startsWithLowerCase (← Run.sliceFrom layout 3)))) then
      Run.time.chunk .stdWeekDay 3 layout
    else if (← Run.time.hasPrefix "MST" layout) then Run.time.chunk .stdTZ 3 layout
    else pure none
  else pure none

/-- Case `'0'` of `nextStdChunk`. -/
def Run.time.stdAt0 (layout : List Char) : Run (Option (List Char × time.Std × List Char)) := do
  if (← Run.and (pure (decide (2 ≤ layout.length)))
      (Run.test layout 1 fun c => decide ('1'.toNat ≤ c.toNat ∧ c.toNat ≤ '6'.toNat))) then
    let c ← Run.index layout 1
    let std ← Run.time.std0x (c.toNat - '1'.toNat)
    Run.time.chunk std 2 layout
  else if (← Run.and (pure (decide (3 ≤ layout.length)))
      (Run.and (Run.test layout 1 fun c => decide (c = '0'))
        (Run.test layout 2 fun c => decide (c = '2')))) then
    Run.time.chunk .stdZeroYearDay 3 layout
  else pure none

/-- Case `'_'` of `nextStdChunk`. -/
def Run.time.stdAtUnderscore (layout : List Char) :
    Run (Option (List Char × time.Std × List Char)) := do
  if (← Run.and (pure (decide (2 ≤ layout.length)))
      (Run.test layout 1 fun c => decide (c = '2'))) then
    if (← Run.time.hasPrefix "_2006" layout) then
      pure (some (← Run.slice layout 0 1, .stdLongYear, ← Run.sliceFrom layout 5))
    else Run.time.chunk .stdUnderDay 2 layout
  else if (← Run.and (pure (decide (3 ≤ layout.length)))
      (Run.and (Run.test layout 1 fun c => decide (c = '_'))
        (Run.test layout 2 fun c => decide (c = '2')))) then
    Run.time.chunk .stdUnderYearDay 3 layout
  else pure none

/-- Case `'-'` of `nextStdChunk`. -/
def Run.time.stdAtMinus (layout : List Char) :
    Run (Option (List Char × time.Std × List Char)) := do
  if (← Run.time.hasPrefix "-070000" layout) then Run.time.chunk .stdNumSecondsTz 7 layout
  else if (← Run.time.hasPrefix "-07:00:00" layout) then
    Run.time.chunk .stdNumColonSecondsTZ 9 layout
  else if (← Run.time.hasPrefix "-0700" layout) then Run.time.chunk .stdNumTZ 5 layout
  else if (← Run.time.hasPrefix "-07:00" layout) then Run.time.chunk .stdNumColonTZ 6 layout
  else if (← Run.time.hasPrefix "-07" layout) then Run.time.chunk .stdNumShortTZ 3 layout
  else pure none

/-- Case `'Z'` of `nextStdChunk`. -/
def Run.time.stdAtZ (layout : List Char) : Run (Option (List Char × time.Std × List Char)) := do
  if (← Run.time.hasPrefix "Z070000" layout) then Run.time.chunk .stdISO8601SecondsTZ 7 layout
  else if (← Run.time.hasPrefix "Z07:00:00" layout) then
    Run.time.chunk .stdISO8601ColonSecondsTZ 9 layout
  else if (← Run.time.hasPrefix "Z0700" layout) then Run.time.chunk .stdISO8601TZ 5 layout
  else if (← Run.time.hasPrefix "Z07:00" layout) then Run.time.chunk .stdISO8601ColonTZ 6 layout
  else if (← Run.time.hasPrefix "Z07" layout) then Run.time.chunk .stdISO8601ShortTZ 3 layout
  else pure none

/-- The loop `for j < len(layout) && layout[j] == ch` of `nextStdChunk`, from
index `j` on, at most `k` rounds: the index it stops at. -/
def Run.time.runEnd (layout : List Char) (ch : Char) : Nat → Nat → Run Nat
  | 0, _ => .error .stillRunning
  | k + 1, j => do
    if (← Run.and (pure (decide (j < layout.length))) (Run.test layout j fun c => decide (c = ch)))
    then Run.time.runEnd layout ch k (j + 1)
    else pure j

/-- Case `'.', ','` of `nextStdChunk`. -/
def Run.time.stdAtFrac (c : Char) (layout : List Char) :
    Run (Option (List Char × time.Std × List Char)) := do
  if (← Run.and (pure (decide (1 < layout.length)))
      (Run.test layout 1 fun x => decide (x = '0') || decide (x = '9'))) then
    let ch ← Run.index layout 1
    let j ← Run.time.runEnd layout ch (layout.length + 1) 1
    if !(← Run.time.isDigit layout j) then
      pure (some ([], if ch = '9' then .stdFracSecond9 ((j - 1) % 4096) c
        else .stdFracSecond0 ((j - 1) % 4096) c,
        ← Run.sliceFrom layout j))
    else pure none
  else pure none

/-- One pass of the body of the scan in `nextStdChunk`. -/
def Run.time.stdAt (layout : List Char) : Run (Option (List Char × time.Std × List Char)) := do
  let c ← Run.index layout 0
  if c = 'J' then Run.time.stdAtJ layout
  else if c = 'M' then Run.time.stdAtM layout
  else if c = '0' then Run.time.stdAt0 layout
  else if c = '1' then
    if (← Run.time.hasPrefix "15" layout) then Run.time.chunk .stdHour 2 layout
    else Run.time.chunk .stdNumMonth 1 layout
  else if c = '2' then
    if (← Run.time.hasPrefix "2006" layout) then Run.time.chunk .stdLongYear 4 layout
    else Run.time.chunk .stdDay 1 layout
  else if c = '_' then Run.time.stdAtUnderscore layout
  else if c = '3' then Run.time.chunk .stdHour12 1 layout
  else if c = '4' then Run.time.chunk .stdMinute 1 layout
  else if c = '5' then Run.time.chunk .stdSecond 1 layout
  else if c = 'P' then
    if (← Run.time.hasPrefix "PM" layout) then Run.time.chunk .stdPM 2 layout else pure none
  else if c = 'p' then
    if (← Run.time.hasPrefix "pm" layout) then Run.time.chunk .stdpm 2 layout else pure none
  else if c = '-' then Run.time.stdAtMinus layout
  else if c = 'Z' then Run.time.stdAtZ layout
  else if c = '.' ∨ c = ',' then Run.time.stdAtFrac c layout
  else pure none

/-- Function `nextStdChunk`. -/
def Run.time.nextStdChunk : List Char → Run (List Char × Option time.Std × List Char)
  | [] => pure ([], none, [])
  | c :: rest => do
    match ← Run.time.stdAt (c :: rest) with
    | some (pre, std, suffix) => pure (pre, some std, suffix)
    | none =>
      let (pre, std, suffix) ← Run.time.nextStdChunk rest
      pure (c :: pre, std, suffix)


/-- Function `cutspace`, at most `k` rounds of its loop. -/
def Run.time.cutspaceN : Nat → List Char → Run (List Char)
  | 0, _ => .error .stillRunning
  | k + 1, s => do
    if (← Run.and (pure (decide (0 < s.length))) (Run.test s 0 fun c => decide (c = ' '))) then
      Run.time.cutspaceN k (← Run.sliceFrom s 1)
    else pure s

/-- Function `cutspace`. -/
def Run.time.cutspace (s : List Char) : Run (List Char) := Run.time.cutspaceN (s.length + 1) s

/-- Function `skip`, at most `k` rounds of its loop. -/
def Run.time.skipN : Nat → List Char → List Char → Run (List Char × Option time.Err)
  | 0, _, _ => .error .stillRunning
  | k + 1, value, pre => do
    if 0 < pre.length then
      if (← Run.test pre 0 fun c => decide (c = ' ')) then
        if (← Run.and (pure (decide (0 < value.length)))
            (Run.test value 0 fun c => decide (c ≠ ' '))) then
          pure (value, some .errBad)
        else
          let pre' ← Run.time.cutspace pre
          let value' ← Run.time.cutspace value
          Run.time.skipN k value' pre'
      else if (← Run.or (pure (decide (value.length = 0))) do
          let p ← Run.index pre 0
          Run.test value 0 fun c => decide (c ≠ p)) then
        pure (value, some .errBad)
      else
        let pre' ← Run.sliceFrom pre 1
        let value' ← Run.sliceFrom value 1
        Run.time.skipN k value' pre'
    else pure (value, none)

/-- Function `skip`. -/
def Run.time.skip (value pre : List Char) : Run (List Char × Option time.Err) :=
  Run.time.skipN (pre.length + 1) value pre

/-- The loop of `leadingInt` from index `i` on, with the digits read so far in
`x`, at most `k` rounds, and the `return` after it. -/
def Run.time.leadingIntFrom (s : List Char) :
    Nat → Nat → Nat → Run (Nat × List Char × Option time.Err)
  | 0, _, _ => .error .stillRunning
  | k + 1, i, x => do
    if i < s.length then
      let c ← Run.index s i
      if c.toNat < '0'.toNat ∨ c.toNat > '9'.toNat then pure (x, ← Run.sliceFrom s i, none)
      else if x > 2 ^ 63 / 10 then pure (0, [], some .errLeadingInt)
      else if x * 10 + (c.toNat - '0'.toNat) > 2 ^ 63 then pure (0, [], some .errLeadingInt)
      else Run.time.leadingIntFrom s k (i + 1) (x * 10 + (c.toNat - '0'.toNat))
    else pure (x, ← Run.sliceFrom s i, none)

/-- Function `leadingInt`. -/
def Run.time.leadingInt (s : List Char) : Run (Nat × List Char × Option time.Err) :=
  Run.time.leadingIntFrom s (s.length + 1) 0 0

/-- Function `atoi`. -/
def Run.time.atoi (s : List Char) : Run (ℤ × Option time.Err) := do
  let signed ← Run.and (pure (decide (0 < s.length)))
    (Run.test s 0 fun c => decide (c = '-') || decide (c = '+'))
  let neg ← if signed then Run.test s 0 fun c => decide (c = '-') else pure false
  let s' ← if signed then Run.sliceFrom s 1 else pure s
  let (q, rem, err) ← Run.time.leadingInt s'
  if err ≠ none ∨ 0 < rem.length then pure (0, some .errAtoi)
  else pure (if neg then time.negInt (time.toInt q) else time.toInt q, none)

/-- Function `getnum`. -/
def Run.time.getnum (s : List Char) (fixed : Bool) : Run (ℤ × List Char × Option time.Err) := do
  if !(← Run.time.isDigit s 0) then pure (0, s, some .errBad)
  else if !(← Run.time.isDigit s 1) then
    if fixed then pure (0, s, some .errBad)
    else pure (time.digitVal (← Run.index s 0), ← Run.sliceFrom s 1, none)
  else
    pure (time.digitVal (← Run.index s 0) * 10 + time.digitVal (← Run.index s 1),
      ← Run.sliceFrom s 2, none)

/-- The loop of `getnum3`, with `k` rounds left of its three. -/
def Run.time.getnum3Loop (s : List Char) : Nat → Nat → ℤ → Run (Nat × ℤ)
  | 0, i, n => pure (i, n)
  | k + 1, i, n => do
    if (← Run.time.isDigit s i) then
      Run.time.getnum3Loop s k (i + 1) (n * 10 + time.digitVal (← Run.index s i))
    else pure (i, n)

/-- Function `getnum3`. -/
def Run.time.getnum3 (s : List Char) (fixed : Bool) :
    Run (ℤ × List Char × Option time.Err) := do
  let (i, n) ← Run.time.getnum3Loop s 3 0 0
  if i = 0 ∨ (fixed = true ∧ i ≠ 3) then pure (0, s, some .errBad)
  else pure (n, ← Run.sliceFrom s i, none)

/-- Function `match`: the loop runs over `s1` and reads `s2` at the same
indices. -/
def Run.time.matchFold : List Char → List Char → Run Bool
  | [], _ => pure true
  | _ :: _, [] => .error .indexOutOfRange
  | c1 :: s1, c2 :: s2 =>
    if c1 ≠ c2 ∧ (c1.toNat ||| 32 ≠ c2.toNat ||| 32 ∨ c1.toNat ||| 32 < 97 ∨
        122 < c1.toNat ||| 32) then pure false
    else Run.time.matchFold s1 s2

/-- Function `lookup`, on the table entries from index `i` on. -/
def Run.time.lookupFrom (i : ℤ) :
    List GoString → List Char → Run (ℤ × List Char × Option time.Err)
  | [], val => pure (-1, val, some .errBad)
  | v :: tab, val => do
    if (← Run.and (pure (decide (v.data.length ≤ val.length))) do
        Run.time.matchFold (← Run.slice val 0 v.data.length) v.data) then
      pure (i, ← Run.sliceFrom val v.data.length, none)
    else Run.time.lookupFrom (i + 1) tab val

/-- Function `lookup`. -/
def Run.time.lookup (tab : List GoString) (val : List Char) :
    Run (ℤ × List Char × Option time.Err) :=
  Run.time.lookupFrom 0 tab val

/-- Function `parseNanoseconds`. -/
def Run.time.parseNanoseconds (value : List Char) (nbytes : Nat) :
    Run (ℤ × GoString × Option time.Err) := do
  if !time.commaOrPeriod (← Run.index value 0) then pure (0, "", some .errBad)
  else
    let value₁ ← if 10 < nbytes then Run.slice value 0 10 else pure value
    let nbytes₁ := if 10 < nbytes then 10 else nbytes
    let (ns, err) ← Run.time.atoi (← Run.slice value₁ 1 nbytes₁)
    if err ≠ none then pure (ns, "", err)
    else if ns < 0 then pure (ns, "fractional second", none)
    else pure (ns * 10 ^ (10 - nbytes₁), "", none)

/-- The loop `for ; n < len(value) && isDigit(value, n); n++`, from `n` on, at
most `k` rounds: the index it stops at. -/
def Run.time.digitsEnd (value : List Char) : Nat → Nat → Run Nat
  | 0, _ => .error .stillRunning
  | k + 1, n => do
    if (← Run.and (pure (decide (n < value.length))) (Run.time.isDigit value n)) then
      Run.time.digitsEnd value k (n + 1)
    else pure n

/-- The length of a fraction at the front of the value: the loop started at
`n := 2`. -/
def Run.time.fracLen (value : List Char) : Run Nat :=
  Run.time.digitsEnd value (value.length + 1) 2

/-- Function `parseSignedOffset`. -/
def Run.time.parseSignedOffset (value : List Char) : Run Nat := do
  let sign ← Run.index value 0
  if sign ≠ '-' ∧ sign ≠ '+' then pure 0
  else
    let (x, rem, err) ← Run.time.leadingInt (← Run.sliceFrom value 1)
    if err ≠ none ∨ (← Run.sliceFrom value 1) = rem then pure 0
    else if x > 23 then pure 0
    else pure (value.length - rem.length)

/-- Function `parseGMT`. -/
def Run.time.parseGMT (value : List Char) : Run Nat := do
  let value' ← Run.sliceFrom value 3
  if value'.length = 0 then pure 3 else pure (3 + (← Run.time.parseSignedOffset value'))

/-- The loop of `parseTimeZone` that counts upper-case letters, with `k` rounds
left of its six, `n` letters counted. -/
def Run.time.countUpper (value : List Char) : Nat → Nat → Run Nat
  | 0, n => pure n
  | k + 1, n => do
    if value.length ≤ n then pure n
    else
      let c ← Run.index value n
      if c.toNat < 'A'.toNat ∨ 'Z'.toNat < c.toNat then pure n
      else Run.time.countUpper value k (n + 1)

/-- Function `parseTimeZone`. -/
def Run.time.parseTimeZone (value : List Char) : Run (Nat × Bool) := do
  if value.length < 3 then pure (0, false)
  else if (← Run.and (pure (decide (4 ≤ value.length))) do
      let head ← Run.slice value 0 4
      pure (decide (head = "ChST".data) || decide (head = "MeST".data))) then
    pure (4, true)
  else if (← Run.slice value 0 3) = "GMT".data then pure (← Run.time.parseGMT value, true)
  else if (← Run.test value 0 fun c => decide (c = '+') || decide (c = '-')) then
    let length ← Run.time.parseSignedOffset value
    pure (length, decide (0 < length))
  else
    let nUpper ← Run.time.countUpper value 6 0
    if nUpper = 5 then
      if (← Run.test value 4 fun c => decide (c = 'T')) then pure (5, true) else pure (0, false)
    else if nUpper = 4 then
      if (← Run.or (Run.test value 3 fun c => decide (c = 'T')) do
          pure (decide ((← Run.slice value 0 4) = "WITA".data))) then
        pure (4, true)
      else pure (0, false)
    else if nUpper = 3 then pure (3, true)
    else pure (0, false)


/-- Whether the layout continues with a fractional-second element. -/
def Run.time.nextIsFrac (layout : List Char) : Run Bool := do
  match (← Run.time.nextStdChunk layout).2.1 with
  | some (.stdFracSecond0 _ _) => pure true
  | some (.stdFracSecond9 _ _) => pure true
  | _ => pure false

/-- The pieces `sign, hour, min, seconds` and the rest of the value that an
offset element cuts from the value. -/
def Run.time.offsetPieces (std : time.Std) (value : List Char) :
    Run (Option (List Char × List Char × List Char × List Char × List Char)) := do
  if std = .stdISO8601ColonTZ ∨ std = .stdNumColonTZ then
    if value.length < 6 then pure none
    else if (← Run.index value 3) ≠ ':' then pure none
    else
      pure (some (← Run.slice value 0 1, ← Run.slice value 1 3, ← Run.slice value 4 6,
        "00".data, ← Run.sliceFrom value 6))
  else if std = .stdNumShortTZ ∨ std = .stdISO8601ShortTZ then
    if value.length < 3 then pure none
    else
      pure (some (← Run.slice value 0 1, ← Run.slice value 1 3, "00".data, "00".data,
        ← Run.sliceFrom value 3))
  else if std = .stdISO8601ColonSecondsTZ ∨ std = .stdNumColonSecondsTZ then
    if value.length < 9 then pure none
    else if (← Run.or (Run.test value 3 fun c => decide (c ≠ ':'))
        (Run.test value 6 fun c => decide (c ≠ ':'))) then pure none
    else
      pure (some (← Run.slice value 0 1, ← Run.slice value 1 3, ← Run.slice value 4 6,
        ← Run.slice value 7 9, ← Run.sliceFrom value 9))
  else if std = .stdISO8601SecondsTZ ∨ std = .stdNumSecondsTz then
    if value.length < 7 then pure none
    else
      pure (some (← Run.slice value 0 1, ← Run.slice value 1 3, ← Run.slice value 3 5,
        ← Run.slice value 5 7, ← Run.sliceFrom value 7))
  else
    if value.length < 5 then pure none
    else
      pure (some (← Run.slice value 0 1, ← Run.slice value 1 3, ← Run.slice value 3 5,
        "00".data, ← Run.sliceFrom value 5))

/-- The numeric offset cases of the `switch` of `parse`. -/
def Run.time.switchNumOffset (std : time.Std) (f : time.Fields) (value : List Char) :
    Run time.Step := do
  match ← Run.time.offsetPieces std value with
  | none => pure { fields := f, value := value, err := some .errBad }
  | some (sign, hour, min, seconds, value') =>
    let hr ← Run.time.getnum hour true
    let mm ← if hr.2.2 = none then Run.time.getnum min true else pure (0, min, hr.2.2)
    let ss ← if mm.2.2 = none then Run.time.getnum seconds true else pure (0, seconds, mm.2.2)
    let rangeErrString : GoString :=
      if ss.1 > 60 then "time zone offset second"
      else if mm.1 > 60 then "time zone offset minute"
      else if hr.1 > 24 then "time zone offset hour"
      else ""
    let zoneOffset := (hr.1 * 60 + mm.1) * 60 + ss.1
    let c ← Run.index sign 0
    if c = '+' then
      pure { fields := { f with zoneOffset := zoneOffset }, value := value', err := ss.2.2,
             rangeErrString := rangeErrString }
    else if c = '-' then
      pure { fields := { f with zoneOffset := -zoneOffset }, value := value', err := ss.2.2,
             rangeErrString := rangeErrString }
    else
      pure { fields := { f with zoneOffset := zoneOffset }, value := value',
             err := some .errBad, rangeErrString := rangeErrString }

/-- The ISO 8601 offset cases of the `switch` of `parse`. -/
def Run.time.switchOffset (std : time.Std) (f : time.Fields) (value : List Char) :
    Run time.Step := do
  if (← Run.and (pure (decide (1 ≤ value.length))) (Run.test value 0 fun c => decide (c = 'Z')))
  then pure { fields := { f with z := some .UTC }, value := ← Run.sliceFrom value 1 }
  else Run.time.switchNumOffset std f value

/-- The cases `stdPM` and `stdpm` of the `switch` of `parse`. -/
def Run.time.switchPM (pm am : GoString) (f : time.Fields) (value : List Char) :
    Run time.Step := do
  if value.length < 2 then pure { fields := f, value := value, err := some .errBad }
  else
    let p ← Run.slice value 0 2
    let value' ← Run.sliceFrom value 2
    if p = pm.data then pure { fields := { f with pmSet := true }, value := value' }
    else if p = am.data then pure { fields := { f with amSet := true }, value := value' }
    else pure { fields := f, value := value', err := some .errBad }

/-- The step `if std == ... && len(value) > 0 && value[0] == ' ' { value =
value[1:] }` of the day cases. -/
def Run.time.dropSpace (under : Bool) (value : List Char) : Run (List Char) := do
  if (← Run.and (pure (under && decide (0 < value.length)))
      (Run.test value 0 fun c => decide (c = ' '))) then Run.sliceFrom value 1
  else pure value

/-- The cases `stdSecond` and `stdZeroSecond` of the `switch` of `parse`. -/
def Run.time.switchSecond (fixed : Bool) (layout : List Char) (f : time.Fields)
    (value : List Char) : Run time.Step := do
  let (sec, value', err) ← Run.time.getnum value fixed
  if err ≠ none then pure { fields := { f with sec := sec }, value := value', err := err }
  else if sec < 0 ∨ 60 ≤ sec then
    pure { fields := { f with sec := sec }, value := value', rangeErrString := "second" }
  else if (← Run.and (pure (decide (2 ≤ value'.length)))
      (Run.and (Run.test value' 0 time.commaOrPeriod) (Run.time.isDigit value' 1))) then
    if (← Run.time.nextIsFrac layout) then
      pure { fields := { f with sec := sec }, value := value' }
    else
      let n ← Run.time.fracLen value'
      let (nsec, rangeErrString, err') ← Run.time.parseNanoseconds value' n
      pure { fields := { f with sec := sec, nsec := nsec }, value := ← Run.sliceFrom value' n,
             err := err', rangeErrString := rangeErrString }
  else pure { fields := { f with sec := sec }, value := value' }

/-- The `switch` of one iteration of `parse`. -/
def Run.time.switchStd (std : time.Std) (layout : List Char) (f : time.Fields)
    (value : List Char) : Run time.Step := do
  match std with
  | .stdYear =>
    if value.length < 2 then pure { fields := f, value := value, err := some .errBad }
    else
      let p ← Run.slice value 0 2
      let value' ← Run.sliceFrom value 2
      let (year, err) ← Run.time.atoi p
      if err ≠ none then pure { fields := { f with year := year }, value := value', err := err }
      else
        pure { fields := { f with year := if year ≥ 69 then year + 1900 else year + 2000 },
               value := value' }
  | .stdLongYear =>
    if (← Run.or (pure (decide (value.length < 4))) do
        pure (!(← Run.time.isDigit value 0))) then
      pure { fields := f, value := value, err := some .errBad }
    else
      let p ← Run.slice value 0 4
      let value' ← Run.sliceFrom value 4
      let (year, err) ← Run.time.atoi p
      pure { fields := { f with year := year }, value := value', err := err }
  | .stdMonth =>
    let (month, value', err) ← Run.time.lookup time.shortMonthNames value
    pure { fields := { f with month := month + 1 }, value := value', err := err }
  | .stdLongMonth =>
    let (month, value', err) ← Run.time.lookup time.longMonthNames value
    pure { fields := { f with month := month + 1 }, value := value', err := err }
  | .stdNumMonth | .stdZeroMonth =>
    let (month, value', err) ← Run.time.getnum value (std = .stdZeroMonth)
    pure { fields := { f with month := month }, value := value', err := err,
           rangeErrString := if err = none ∧ (month ≤ 0 ∨ 12 < month) then "month" else "" }
  | .stdWeekDay =>
    let (_, value', err) ← Run.time.lookup time.shortDayNames value
    pure { fields := f, value := value', err := err }
  | .stdLongWeekDay =>
    let (_, value', err) ← Run.time.lookup time.longDayNames value
    pure { fields := f, value := value', err := err }
  | .stdDay | .stdUnderDay | .stdZeroDay =>
    let value₁ ← Run.time.dropSpace (std = .stdUnderDay) value
    let (day, value', err) ← Run.time.getnum value₁ (std = .stdZeroDay)
    pure { fields := { f with day := day }, value := value', err := err }
  | .stdUnderYearDay | .stdZeroYearDay =>
    let value₁ ← Run.time.dropSpace (std = .stdUnderYearDay) value
    let value₂ ← Run.time.dropSpace (std = .stdUnderYearDay) value₁
    let (yday, value', err) ← Run.time.getnum3 value₂ (std = .stdZeroYearDay)
    pure { fields := { f with yday := yday }, value := value', err := err }
  | .stdHour =>
    let (hour, value', err) ← Run.time.getnum value false
    pure { fields := { f with hour := hour }, value := value', err := err,
           rangeErrString := if hour < 0 ∨ 24 ≤ hour then "hour" else "" }
  | .stdHour12 | .stdZeroHour12 =>
    let (hour, value', err) ← Run.time.getnum value (std = .stdZeroHour12)
    pure { fields := { f with hour := hour }, value := value', err := err,
           rangeErrString := if hour < 0 ∨ 12 < hour then "hour" else "" }
  | .stdMinute | .stdZeroMinute =>
    let (min, value', err) ← Run.time.getnum value (std = .stdZeroMinute)
    pure { fields := { f with min := min }, value := value', err := err,
           rangeErrString := if min < 0 ∨ 60 ≤ min then "minute" else "" }
  | .stdSecond | .stdZeroSecond => Run.time.switchSecond (std = .stdZeroSecond) layout f value
  | .stdPM => Run.time.switchPM "PM" "AM" f value
  | .stdpm => Run.time.switchPM "pm" "am" f value
  | .stdISO8601TZ | .stdISO8601ShortTZ | .stdISO8601ColonTZ | .stdISO8601SecondsTZ
  | .stdISO8601ColonSecondsTZ => Run.time.switchOffset std f value
  | .stdNumTZ | .stdNumShortTZ | .stdNumColonTZ | .stdNumSecondsTz
  | .stdNumColonSecondsTZ => Run.time.switchNumOffset std f value
  | .stdTZ =>
    if (← Run.and (pure (decide (3 ≤ value.length))) do
        pure (decide ((← Run.slice value 0 3) = "UTC".data))) then
      pure { fields := { f with z := some .UTC }, value := ← Run.sliceFrom value 3 }
    else
      let (n, ok) ← Run.time.parseTimeZone value
      if !ok then pure { fields := f, value := value, err := some .errBad }
      else
        pure { fields := { f with zoneName := ← Run.slice value 0 n },
               value := ← Run.sliceFrom value n }
  | .stdFracSecond0 digits _ =>
    let ndigit := 1 + digits
    if value.length < ndigit then pure { fields := f, value := value, err := some .errBad }
    else
      let (nsec, rangeErrString, err) ← Run.time.parseNanoseconds value ndigit
      pure { fields := { f with nsec := nsec }, value := ← Run.sliceFrom value ndigit,
             err := err, rangeErrString := rangeErrString }
  | .stdFracSecond9 _ _ =>
    if (← Run.or (pure (decide (value.length < 2)))
        (Run.or (Run.test value 0 fun c => !time.commaOrPeriod c)
          (Run.test value 1 fun c => !isDigitChar c))) then
      pure { fields := f, value := value }
    else
      let j ← Run.time.digitsEnd value (value.length + 1) 1
      let (nsec, rangeErrString, err) ← Run.time.parseNanoseconds value j
      pure { fields := { f with nsec := nsec }, value := ← Run.sliceFrom value j, err := err,
             rangeErrString := rangeErrString }

/-- Table `lowerhex`, at index `n`. -/
def Run.time.lowerhex (n : Nat) : Run Char := Run.index "0123456789abcdef".data n

/-- Function `decoderune`. -/
def Run.time.decoderune (s : List Char) : Run (Nat × Nat) := do
  let b₀ := (← Run.index s 0).toNat
  if 0xC0 ≤ b₀ ∧ b₀ < 0xE0 then
    if (← Run.and (pure (decide (1 < s.length)))
        (Run.test s 1 fun c => decide (0x80 ≤ c.toNat ∧ c.toNat ≤ 0xBF))) then
      let r := b₀ % 32 * 64 + (← Run.index s 1).toNat % 64
      if 0x7F < r then pure (r, 2) else pure (0xFFFD, 1)
    else pure (0xFFFD, 1)
  else if 0xE0 ≤ b₀ ∧ b₀ < 0xF0 then
    if (← Run.and (pure (decide (2 < s.length)))
        (Run.and (Run.test s 1 fun c => decide (0x80 ≤ c.toNat ∧ c.toNat ≤ 0xBF))
          (Run.test s 2 fun c => decide (0x80 ≤ c.toNat ∧ c.toNat ≤ 0xBF)))) then
      let r := b₀ % 16 * 4096 + (← Run.index s 1).toNat % 64 * 64 + (← Run.index s 2).toNat % 64
      if 0x7FF < r ∧ ¬ (0xD800 ≤ r ∧ r ≤ 0xDFFF) then pure (r, 3) else pure (0xFFFD, 1)
    else pure (0xFFFD, 1)
  else if 0xF0 ≤ b₀ ∧ b₀ < 0xF8 then
    if (← Run.and (pure (decide (3 < s.length)))
        (Run.and (Run.test s 1 fun c => decide (0x80 ≤ c.toNat ∧ c.toNat ≤ 0xBF))
          (Run.and (Run.test s 2 fun c => decide (0x80 ≤ c.toNat ∧ c.toNat ≤ 0xBF))
            (Run.test s 3 fun c => decide (0x80 ≤ c.toNat ∧ c.toNat ≤ 0xBF))))) then
      let r := b₀ % 8 * 262144 + (← Run.index s 1).toNat % 64 * 4096 +
        (← Run.index s 2).toNat % 64 * 64 + (← Run.index s 3).toNat % 64
      if 0xFFFF < r ∧ r ≤ 0x10FFFF then pure (r, 4) else pure (0xFFFD, 1)
    else pure (0xFFFD, 1)
  else pure (0xFFFD, 1)

/-- One step of `for i, c := range s`. -/
def Run.time.rangeRune (s : List Char) : Run (Nat × Nat) := do
  let b₀ := (← Run.index s 0).toNat
  if b₀ < 0x80 then pure (b₀, 1) else Run.time.decoderune s

/-- The inner loop of `quote`.  A byte is below 256, so that its two halves
index the sixteen digits of `lowerhex`. -/
def Run.time.quoteHex (s : List Char) : Nat → Nat → Run (List Char)
  | 0, _ => pure []
  | k + 1, j => do
    let hi ← Run.time.lowerhex ((← Run.index s j).toNat / 16)
    let lo ← Run.time.lowerhex ((← Run.index s j).toNat % 16)
    pure ([Char.ofNat 92, 'x', hi, lo] ++ (← Run.time.quoteHex s k (j + 1)))

/-- The loop of `quote`. -/
def Run.time.quoteLoop : Nat → List Char → Run (List Char)
  | 0, s => if s.length = 0 then pure [] else .error .stillRunning
  | fuel + 1, s => do
    if s.length = 0 then pure []
    else
      let (c, w) ← Run.time.rangeRune s
      let out ←
        if 0x80 ≤ c ∨ c < 0x20 then do
          let width ←
            if c = 0xFFFD then do
              if (← Run.and (pure (decide (2 < s.length))) do
                  pure (decide ((← Run.slice s 0 3) = time.runeErrorBytes))) then pure 3
              else pure 1
            else pure (time.runeLen c)
          Run.time.quoteHex s width 0
        else if c = '"'.toNat ∨ c = 92 then do pure [Char.ofNat 92, ← Run.index s 0]
        else do pure [← Run.index s 0]
      pure (out ++ (← Run.time.quoteLoop fuel (← Run.sliceFrom s w)))

/-- Function `quote`. -/
def Run.time.quote (s : List Char) : Run (List Char) := do
  pure ('"' :: (← Run.time.quoteLoop s.length s) ++ ['"'])

/-- The `for` loop of `parse`, at most `fuel` iterations. -/
def Run.time.parseLoop (alayout avalue : GoString) :
    Nat → List Char → time.Fields → List Char →
      Run (Except time.ParseError (time.Fields × List Char))
  | 0, _, _, _ => .error .stillRunning
  | fuel + 1, layout, f, value => do
    let (pre, std, suffix) ← Run.time.nextStdChunk layout
    let stdstr ←
      if layout.length < suffix.length then .error .sliceBoundsOutOfRange
      else Run.slice layout pre.length (layout.length - suffix.length)
    let (value₁, err) ← Run.time.skip value pre
    if err ≠ none then
      pure (.error ⟨alayout, avalue, pre, value₁, ""⟩)
    else
      match std with
      | none =>
        if value₁.length ≠ 0 then
          pure (.error ⟨alayout, avalue, [], value₁,
            ": extra text: " ++ String.mk (← Run.time.quote value₁)⟩)
        else pure (.ok (f, value₁))
      | some std =>
        let s ← Run.time.switchStd std suffix f value₁
        if s.rangeErrString ≠ "" then
          pure (.error ⟨alayout, avalue, stdstr, s.value,
            ": " ++ s.rangeErrString ++ " out of range"⟩)
        else if s.err ≠ none then
          pure (.error ⟨alayout, avalue, stdstr, value₁, ""⟩)
        else Run.time.parseLoop alayout avalue fuel suffix s.fields s.value

/-- Function `daysIn`. -/
def Run.time.daysIn (m : ℤ) (year : ℤ) : Run ℤ := do
  if m = 2 ∧ time.isLeap year = true then pure 29
  else pure ((← Run.indexInt time.daysBefore m) - (← Run.indexInt time.daysBefore (m - 1)))

/-- The location `parse` gives the time. -/
def Run.time.locationOf (f : time.Fields) (defaultLocation : time.Location) :
    Run time.Location := do
  match f.z with
  | some z => pure z
  | none =>
    if f.zoneOffset ≠ -1 then pure (.fixed (String.mk f.zoneName) f.zoneOffset)
    else if f.zoneName ≠ [] then
      if (← Run.and (pure (decide (3 < f.zoneName.length))) do
          pure (decide ((← Run.slice f.zoneName 0 3) = "GMT".data))) then
        pure (.fixed (String.mk f.zoneName)
          ((← Run.time.atoi (← Run.sliceFrom f.zoneName 3)).1 * 3600))
      else pure (.fixed (String.mk f.zoneName) 0)
    else pure defaultLocation

/-- The month and the day of the month that `parse` settles on after its
loop. -/
def Run.time.monthDay (year month day yday : ℤ) : Run (Except GoString (ℤ × ℤ)) := do
  if yday ≥ 0 then
    let feb29 := decide (time.isLeap year = true ∧ yday = 31 + 29)
    let yday₁ :=
      if time.isLeap year = true ∧ yday ≠ 31 + 29 ∧ yday > 31 + 29 then yday - 1 else yday
    if yday₁ < 1 ∨ yday₁ > 365 then pure (.error ": day-of-year out of range")
    else
      let md ←
        if feb29 then pure (2, 29)
        else
          let m₀ := (yday₁ - 1) / 31 + 1
          let m₁ := if (← Run.indexInt time.daysBefore m₀) < yday₁ then m₀ + 1 else m₀
          pure (m₁, yday₁ - (← Run.indexInt time.daysBefore (m₁ - 1)))
      if month ≥ 0 ∧ month ≠ md.1 then pure (.error ": day-of-year does not match month")
      else if day ≥ 0 ∧ day ≠ md.2 then pure (.error ": day-of-year does not match day")
      else pure (.ok md)
  else pure (.ok (if month < 0 then 1 else month, if day < 0 then 1 else day))

/-- Function `parse`. -/
def Run.time.parse (layout value : GoString) (defaultLocation : time.Location) :
    Run (Except time.ParseError time.Time) := do
  match ← Run.time.parseLoop layout value ((bytesOf layout).length + 1) (bytesOf layout) {}
      (bytesOf value) with
  | .error e => pure (.error e)
  | .ok (f, rest) =>
    let hour :=
      if f.pmSet ∧ f.hour < 12 then f.hour + 12
      else if f.amSet ∧ f.hour = 12 then 0
      else f.hour
    match ← Run.time.monthDay f.year f.month f.day f.yday with
    | .error msg => pure (.error ⟨layout, value, [], rest, msg⟩)
    | .ok (month, day) =>
      if (← Run.or (pure (decide (day < 1))) do
          pure (decide (day > (← Run.time.daysIn month f.year)))) then
        pure (.error ⟨layout, value, [], rest, ": day out of range"⟩)
      else
        pure (.ok ⟨f.year, month, day, hour, f.min, f.sec, f.nsec,
          ← Run.time.locationOf f defaultLocation⟩)

/-- The fractional second that `parseRFC3339` reads after the seconds: the
nanoseconds, and the text after them. -/
def Run.time.rfc3339Frac (s : List Char) : Run (ℤ × List Char) := do
  if (← Run.and (pure (decide (2 ≤ s.length)))
      (Run.and (Run.test s 0 fun c => decide (c = '.')) (Run.time.isDigit s 1))) then
    let n ← Run.time.fracLen s
    let nsec := (← Run.time.parseNanoseconds s n).1
    pure (nsec, ← Run.sliceFrom s n)
  else pure (0, s)

/-- The time zone that `parseRFC3339` reads at the end, and the time it
returns. -/
def Run.time.rfc3339Zone (year month day hour min sec nsec : ℤ) (s : List Char) :
    Run (Option time.Time) := do
  if (← Run.or (pure (decide (s.length ≠ 1))) (Run.test s 0 fun c => decide (c ≠ 'Z'))) then
    if s.length ≠ 6 then pure none
    else
      let hr := time.parseUint (← Run.slice s 1 3) 0 23
      let mm := time.parseUint (← Run.slice s 4 6) 0 59
      if (← Run.or (pure (!(hr.2 && mm.2))) do
          let c ← Run.index s 0
          pure (!((decide (c = '-') || decide (c = '+')) &&
            decide ((← Run.index s 3) = ':')))) then pure none
      else
        let zoneOffset := (hr.1 * 60 + mm.1) * 60
        pure (some ⟨year, month, day, hour, min, sec, nsec,
          .fixed "" (if (← Run.index s 0) = '-' then -zoneOffset else zoneOffset)⟩)
  else pure (some ⟨year, month, day, hour, min, sec, nsec, .UTC⟩)

/-- Function `parseRFC3339`. -/
def Run.time.parseRFC3339 (s : List Char) : Run (Option time.Time) := do
  if s.length < 19 then pure none
  else
    let year := time.parseUint (← Run.slice s 0 4) 0 9999
    let month := time.parseUint (← Run.slice s 5 7) 1 12
    let day := time.parseUint (← Run.slice s 8 10) 1 (← Run.time.daysIn month.1 year.1)
    let hour := time.parseUint (← Run.slice s 11 13) 0 23
    let min := time.parseUint (← Run.slice s 14 16) 0 59
    let sec := time.parseUint (← Run.slice s 17 19) 0 59
    let ok := year.2 && month.2 && day.2 && hour.2 && min.2 && sec.2
    if (← Run.or (pure (!ok)) do
        pure (!(decide ((← Run.index s 4) = '-') && decide ((← Run.index s 7) = '-') &&
          decide ((← Run.index s 10) = 'T') && decide ((← Run.index s 13) = ':') &&
          decide ((← Run.index s 16) = ':')))) then pure none
    else
      let (nsec, s₂) ← Run.time.rfc3339Frac (← Run.sliceFrom s 19)
      Run.time.rfc3339Zone year.1 month.1 day.1 hour.1 min.1 sec.1 nsec s₂

/-- Function `time.Parse`. -/
def Run.time.Parse (layout value : GoString) : Run (Except time.ParseError time.Time) := do
  if layout = time.RFC3339 ∨ layout = time.RFC3339Nano then
    match ← Run.time.parseRFC3339 (bytesOf value) with
    | some t => pure (.ok t)
    | none => Run.time.parse layout value .UTC
  else Run.time.parse layout value .UTC

/-- Function `IsTime`. -/
def Run.IsTime (str : GoString) (format : GoString) : Run Bool := do
  match ← Run.time.Parse format str with
  | .ok _ => pure true
  | .error _ => pure false

/-- Function `IsRFC3339`. -/
def Run.IsRFC3339 (fl : FieldLevel) : Run Bool := Run.IsTime fl.Field.String time.RFC3339

/-- Function `IsRFC3339WithoutZone`. -/
def Run.IsRFC3339WithoutZone (fl : FieldLevel) : Run Bool :=
  Run.IsTime fl.Field.String RF3339WithoutZone

/-- Function `IsDatetime`. -/
def Run.IsDatetime (fl : FieldLevel) : Run Bool :=
  Run.or (Run.IsTime fl.Field.String time.RFC3339) (Run.IsTime fl.Field.String RF3339WithoutZone)


/-! ### Compiling the patterns

The three patterns are compiled when the package is initialised, by
`regexp.MustCompile`, which panics on a pattern that does not parse.  The
parser below reads the fragment of the pattern language that `Regexp`
describes; a pattern outside the fragment is reported as an error. -/

/-- What the parser of a pattern is reading: an alternation `r|s`, a
concatenation `rs`, an atom with its repetition operator, or an atom. -/
inductive regexp.Level where
  | alternation
  | concatenation
  | repetition
  | atom
  deriving DecidableEq, Repr

/-- Whether a character has a special meaning outside a bracket expression. -/
def regexp.isMeta (c : Char) : Bool := "\\.+*?()|[]\x7b\x7d^$".data.contains c

/-- Whether a character after a backslash stands for itself: ASCII, and
neither a letter nor a digit. -/
def regexp.isPunct (c : Char) : Bool :=
  decide (c.toNat < 128) && !(isDigitChar c) &&
    !(decide ('a'.toNat ≤ c.toNat) && decide (c.toNat ≤ 'z'.toNat)) &&
    !(decide ('A'.toNat ≤ c.toNat) && decide (c.toNat ≤ 'Z'.toNat))

/-- The items of a bracket expression up to its closing bracket, and the
pattern after it; at most `k` items. -/
def regexp.parseClass : Nat → List Char → Option (List ClassItem × List Char)
  | 0, _ => none
  | _ + 1, [] => none
  | _ + 1, ']' :: rest => some ([], rest)
  | k + 1, '\\' :: c :: rest =>
    if regexp.isPunct c then
      (regexp.parseClass k rest).map fun r => (.escaped c :: r.1, r.2)
    else none
  | k + 1, lo :: '-' :: hi :: rest =>
    if hi = ']' then
      (regexp.parseClass k ('-' :: hi :: rest)).map fun r => (.single lo :: r.1, r.2)
    else if hi = '\\' ∨ hi.toNat < lo.toNat then none
    else (regexp.parseClass k rest).map fun r => (.range lo hi :: r.1, r.2)
  | k + 1, c :: rest => (regexp.parseClass k rest).map fun r => (.single c :: r.1, r.2)

/-- The count of a repetition `{n}`, with the digits read so far in `n`, up
to the closing brace, and the pattern after it. -/
def regexp.parseCount : Nat → List Char → Option (Nat × List Char)
  | _, [] => none
  | n, c :: rest =>
    if c = '\x7d' then some (n, rest)
    else if isDigitChar c then regexp.parseCount (n * 10 + (c.toNat - 48)) rest
    else none

/-- Whether the pattern continues with a repetition operator. -/
def regexp.startsWithOperator : List Char → Bool
  | c :: _ => decide (c = '*') || decide (c = '+') || decide (c = '?') || decide (c = '\x7b')
  | [] => false

/-- The parser: the syntax tree of the longest part of the pattern that reads
as `level`, and the pattern after it; the recursion is at most `fuel` levels
deep. -/
def regexp.parse : Nat → regexp.Level → List Char → Option (Regexp × List Char)
  | 0, _, _ => none
  | fuel + 1, .atom, s =>
    match s with
    | [] => none
    | '^' :: rest => some (.bol, rest)
    | '$' :: rest => some (.eol, rest)
    | '\\' :: 'd' :: rest => some (.digit, rest)
    | '\\' :: c :: rest => if regexp.isPunct c then some (.esc c, rest) else none
    | '[' :: rest =>
      match regexp.parseClass (rest.length + 1) rest with
      | some (item :: items, rest') => some (.cls (item :: items), rest')
      | _ => none
    | '(' :: '?' :: ':' :: rest =>
      match regexp.parse fuel .alternation rest with
      | some (r, ')' :: rest') => some (.group r, rest')
      | _ => none
    | c :: rest => if regexp.isMeta c then none else some (.lit c, rest)
  | fuel + 1, .repetition, s =>
    match regexp.parse fuel .atom s with
    | none => none
    | some (r, '*' :: rest) =>
      if regexp.startsWithOperator rest then none else some (.star r, rest)
    | some (r, '+' :: rest) =>
      if regexp.startsWithOperator rest then none else some (.plus r, rest)
    | some (r, '?' :: rest) =>
      if regexp.startsWithOperator rest then none else some (.quest r, rest)
    | some (r, '\x7b' :: c :: rest) =>
      if isDigitChar c then
        match regexp.parseCount 0 (c :: rest) with
        | some (n, rest') =>
          if regexp.startsWithOperator rest' then none else some (.rep r n, rest')
        | none => none
      else none
    | some (r, rest) => some (r, rest)
  | fuel + 1, .concatenation, s =>
    match regexp.parse fuel .repetition s with
    | none => none
    | some (r, []) => some (r, [])
    | some (r, c :: rest) =>
      if c = ')' ∨ c = '|' then some (r, c :: rest)
      else (regexp.parse fuel .concatenation (c :: rest)).map fun r' => (.cat r r'.1, r'.2)
  | fuel + 1, .alternation, s =>
    match regexp.parse fuel .concatenation s with
    | some (r, '|' :: rest) =>
      (regexp.parse fuel .alternation rest).map fun r' => (.alt r r'.1, r'.2)
    | other => other

/-- Function `regexp.Compile`: the syntax tree of a pattern, `none` where
`Compile` returns an error. -/
def regexp.Compile (expr : GoString) : Option Regexp :=
  match regexp.parse (4 * expr.data.length + 4) .alternation expr.data with
  | some (r, []) => some r
  | _ => none

/-- Function `regexp.MustCompile`: it panics where `Compile` returns an
error. -/
def Run.regexp.MustCompile (str : GoString) : Run Regexp :=
  match regexp.Compile str with
  | some re => pure re
  | none => .error (.panicked ("regexp: Compile(" ++ str ++ ")"))

/-- Package variable `rxInt`, as its initialiser leaves it. -/
def Run.rxInt : Run Regexp := Run.regexp.MustCompile Int

/-- Package variable `rxFloat`, as its initialiser leaves it. -/
def Run.rxFloat : Run Regexp := Run.regexp.MustCompile Float

/-- Package variable `rxDate`, as its initialiser leaves it. -/
def Run.rxDate : Run Regexp := Run.regexp.MustCompile DateExp

/-- Function `IsInt`, in a package whose initialisation has run. -/
def Run.IsInt (fl : FieldLevel) : Run Bool := do
  let rxInt ← Run.rxInt
  if IsNull fl.Field.String then pure false
  else pure (rxInt.MatchString fl.Field.String)

/-- Function `IsFloat`, in a package whose initialisation has run. -/
def Run.IsFloat (fl : FieldLevel) : Run Bool := do
  let rxFloat ← Run.rxFloat
  pure (fl.Field.String != "" && rxFloat.MatchString fl.Field.String)

/-- Function `IsDate`, in a package whose initialisation has run. -/
def Run.IsDate (fl : FieldLevel) : Run Bool := do
  let rxDate ← Run.rxDate
  if IsNull fl.Field.String then pure false
  else pure (rxDate.MatchString fl.Field.String)

/-- The month that `parse` holds is the initial `-1` or a month of the
calendar. -/
def time.MonthOk (month : ℤ) : Prop := month = -1 ∨ (1 ≤ month ∧ month ≤ 12)

instance (month : ℤ) : Decidable (time.MonthOk month) := by
  unfold time.MonthOk
  infer_instance

/-! # Theorems -/

/-! ## The matcher computes exactly the matches -/

theorem mem_oneChar {p : Char → Bool} {s t : List Char} :
    t ∈ oneChar p s ↔ ∃ c, s = c :: t ∧ p c = true := by
  cases s with
  | nil => simp [oneChar]
  | cons c u =>
    by_cases h : p c = true
    · simp only [oneChar, h, if_true, List.mem_singleton, List.cons.injEq]
      constructor
      · rintro rfl; exact ⟨c, ⟨rfl, rfl⟩, h⟩
      · rintro ⟨d, ⟨rfl, rfl⟩, _⟩; rfl
    · simp only [oneChar, h, List.cons.injEq]
      constructor
      · intro h'; simp at h'
      · rintro ⟨d, ⟨rfl, rfl⟩, hd⟩; exact absurd hd h

theorem oneChar_suffix {p : Char → Bool} {s t : List Char} (h : t ∈ oneChar p s) :
    t <:+ s := by
  obtain ⟨c, rfl, _⟩ := mem_oneChar.1 h
  exact List.suffix_cons c t

theorem starEnds_suffix {f : List Char → List (List Char)}
    (hf : ∀ s t, t ∈ f s → t <:+ s) :
    ∀ k s t, t ∈ starEnds f k s → t <:+ s := by
  intro k
  induction k with
  | zero =>
    intro s t h
    simp only [starEnds, List.mem_singleton] at h
    subst h
    exact List.suffix_refl _
  | succ k ih =>
    intro s t h
    simp only [starEnds, List.mem_cons, List.mem_flatMap, List.mem_filter] at h
    rcases h with rfl | ⟨u, ⟨hu, _⟩, ht⟩
    · exact List.suffix_refl _
    · exact (ih u t ht).trans (hf s u hu)

theorem repEnds_suffix {f : List Char → List (List Char)}
    (hf : ∀ s t, t ∈ f s → t <:+ s) :
    ∀ k s t, t ∈ repEnds f k s → t <:+ s := by
  intro k
  induction k with
  | zero =>
    intro s t h
    simp only [repEnds, List.mem_singleton] at h
    subst h
    exact List.suffix_refl _
  | succ k ih =>
    intro s t h
    simp only [repEnds, List.mem_flatMap] at h
    obtain ⟨u, hu, ht⟩ := h
    exact (ih u t ht).trans (hf s u hu)

/-- The matcher only ever moves forward in the text. -/
theorem Regexp.ends_suffix (n : Nat) :
    ∀ (r : Regexp) (s t : List Char), t ∈ r.ends n s → t <:+ s := by
  intro r
  induction r with
  | lit c => intro s t h; exact oneChar_suffix h
  | esc c => intro s t h; exact oneChar_suffix h
  | digit => intro s t h; exact oneChar_suffix h
  | cls items => intro s t h; exact oneChar_suffix h
  | bol =>
    intro s t h
    simp only [Regexp.ends] at h
    split at h
    · simp only [List.mem_singleton] at h; subst h; exact List.suffix_refl _
    · simp at h
  | eol =>
    intro s t h
    simp only [Regexp.ends] at h
    split at h
    · simp only [List.mem_singleton] at h; subst h; exact List.suffix_refl _
    · simp at h
  | group r ih => intro s t h; exact ih s t h
  | cat r r' ih ih' =>
    intro s t h
    simp only [Regexp.ends, List.mem_flatMap] at h
    obtain ⟨u, hu, ht⟩ := h
    exact (ih' u t ht).trans (ih s u hu)
  | alt r r' ih ih' =>
    intro s t h
    simp only [Regexp.ends, List.mem_append] at h
    rcases h with h | h
    · exact ih s t h
    · exact ih' s t h
  | star r ih => intro s t h; exact starEnds_suffix ih _ s t h
  | plus r ih =>
    intro s t h
    simp only [Regexp.ends, List.mem_flatMap] at h
    obtain ⟨u, hu, ht⟩ := h
    exact (starEnds_suffix ih _ u t ht).trans (ih s u hu)
  | quest r ih =>
    intro s t h
    simp only [Regexp.ends, List.mem_append, List.mem_singleton] at h
    rcases h with h | rfl
    · exact ih s t h
    · exact List.suffix_refl _
  | rep r k ih => intro s t h; exact repEnds_suffix ih k s t h

theorem starEnds_sound {n : Nat} {r : Regexp}
    (hr : ∀ s t, t ∈ r.ends n s → Regexp.Matches n r s t) :
    ∀ k s t, t ∈ starEnds (r.ends n) k s → Regexp.Matches n (.star r) s t := by
  intro k
  induction k with
  | zero =>
    intro s t h
    simp only [starEnds, List.mem_singleton] at h
    subst h
    exact .starNil r _
  | succ k ih =>
    intro s t h
    simp only [starEnds, List.mem_cons, List.mem_flatMap, List.mem_filter] at h
    rcases h with rfl | ⟨u, ⟨hu, _⟩, ht⟩
    · exact .starNil r _
    · exact .starCons (hr s u hu) (ih u t ht)

theorem repEnds_sound {n : Nat} {r : Regexp}
    (hr : ∀ s t, t ∈ r.ends n s → Regexp.Matches n r s t) :
    ∀ k s t, t ∈ repEnds (r.ends n) k s → Regexp.Matches n (.rep r k) s t := by
  intro k
  induction k with
  | zero =>
    intro s t h
    simp only [repEnds, List.mem_singleton] at h
    subst h
    exact .repZero r _
  | succ k ih =>
    intro s t h
    simp only [repEnds, List.mem_flatMap] at h
    obtain ⟨u, hu, ht⟩ := h
    exact .repSucc (hr s u hu) (ih u t ht)

/-- Soundness of the matcher: every end it reports is the end of a match. -/
theorem Regexp.ends_sound (n : Nat) :
    ∀ (r : Regexp) (s t : List Char), t ∈ r.ends n s → Regexp.Matches n r s t := by
  intro r
  induction r with
  | lit c =>
    intro s t h
    obtain ⟨d, rfl, hd⟩ := mem_oneChar.1 h
    have : d = c := by simpa using hd
    subst this
    exact .lit _ _
  | esc c =>
    intro s t h
    obtain ⟨d, rfl, hd⟩ := mem_oneChar.1 h
    have : d = c := by simpa using hd
    subst this
    exact .esc _ _
  | digit =>
    intro s t h
    obtain ⟨d, rfl, hd⟩ := mem_oneChar.1 h
    exact .digit _ _ hd
  | cls items =>
    intro s t h
    obtain ⟨d, rfl, hd⟩ := mem_oneChar.1 h
    exact .cls _ _ _ hd
  | bol =>
    intro s t h
    simp only [Regexp.ends] at h
    split at h
    · next hs => simp only [List.mem_singleton] at h; subst h; exact .bol _ hs
    · simp at h
  | eol =>
    intro s t h
    simp only [Regexp.ends] at h
    split at h
    · next hs =>
      simp only [List.mem_singleton] at h
      subst h
      have : t = [] := List.length_eq_zero.1 hs
      subst this
      exact .eol
    · simp at h
  | group r ih => intro s t h; exact .group (ih s t h)
  | cat r r' ih ih' =>
    intro s t h
    simp only [Regexp.ends, List.mem_flatMap] at h
    obtain ⟨u, hu, ht⟩ := h
    exact .cat (ih s u hu) (ih' u t ht)
  | alt r r' ih ih' =>
    intro s t h
    simp only [Regexp.ends, List.mem_append] at h
    rcases h with h | h
    · exact .altL (ih s t h)
    · exact .altR (ih' s t h)
  | star r ih => intro s t h; exact starEnds_sound ih _ s t h
  | plus r ih =>
    intro s t h
    simp only [Regexp.ends, List.mem_flatMap] at h
    obtain ⟨u, hu, ht⟩ := h
    exact .plus (ih s u hu) (starEnds_sound ih _ u t ht)
  | quest r ih =>
    intro s t h
    simp only [Regexp.ends, List.mem_append, List.mem_singleton] at h
    rcases h with h | rfl
    · exact .questSome (ih s t h)
    · exact .questNone _ _
  | rep r k ih => intro s t h; exact repEnds_sound ih k s t h

theorem Regexp.Matches.suffix {n : Nat} {r : Regexp} {s t : List Char}
    (h : Regexp.Matches n r s t) : t <:+ s := by
  induction h with
  | lit c t => exact List.suffix_cons c t
  | esc c t => exact List.suffix_cons c t
  | digit c t _ => exact List.suffix_cons c t
  | cls items c t _ => exact List.suffix_cons c t
  | bol s _ => exact List.suffix_refl _
  | eol => exact List.suffix_refl _
  | group _ ih => exact ih
  | cat _ _ ih ih' => exact ih'.trans ih
  | altL _ ih => exact ih
  | altR _ ih => exact ih
  | starNil r s => exact List.suffix_refl _
  | starCons _ _ ih ih' => exact ih'.trans ih
  | plus _ _ ih ih' => exact ih'.trans ih
  | questSome _ ih => exact ih
  | questNone r s => exact List.suffix_refl _
  | repZero r s => exact List.suffix_refl _
  | repSucc _ _ ih ih' => exact ih'.trans ih

/-- More rounds never lose an end. -/
theorem starEnds_mono {f : List Char → List (List Char)} :
    ∀ (j k : Nat), j ≤ k → ∀ s t, t ∈ starEnds f j s → t ∈ starEnds f k s := by
  intro j
  induction j with
  | zero =>
    intro k _ s t h
    simp only [starEnds, List.mem_singleton] at h
    subst h
    cases k <;> simp [starEnds]
  | succ j ih =>
    intro k hk s t h
    obtain ⟨k, rfl⟩ : ∃ k', k = k' + 1 := ⟨k - 1, by omega⟩
    simp only [starEnds, List.mem_cons, List.mem_flatMap, List.mem_filter] at h ⊢
    rcases h with rfl | ⟨u, hu, ht⟩
    · exact Or.inl rfl
    · exact Or.inr ⟨u, hu, ih k (by omega) u t ht⟩

/-- One more round in front of a star: the round bound `s.length` suffices. -/
theorem starEnds_step {f : List Char → List (List Char)} {s u t : List Char}
    (hus : u <:+ s) (hu : u ∈ f s) (ht : t ∈ starEnds f u.length u) :
    t ∈ starEnds f s.length s := by
  by_cases hlen : u.length < s.length
  · obtain ⟨k, hk⟩ : ∃ k, s.length = k + 1 := ⟨s.length - 1, by omega⟩
    rw [hk]
    simp only [starEnds, List.mem_cons, List.mem_flatMap, List.mem_filter]
    refine Or.inr ⟨u, ⟨hu, by simpa using hlen⟩, ?_⟩
    exact starEnds_mono u.length k (by omega) u t ht
  · have hle : u.length ≤ s.length := hus.length_le
    have : u = s := hus.eq_of_length (by omega)
    subst this
    exact ht

/-- Completeness of the matcher: the end of every match is reported. -/
theorem Regexp.ends_complete {n : Nat} {r : Regexp} {s t : List Char}
    (h : Regexp.Matches n r s t) : t ∈ r.ends n s := by
  induction h with
  | lit c t => simp [Regexp.ends, oneChar]
  | esc c t => simp [Regexp.ends, oneChar]
  | digit c t hc => simp [Regexp.ends, oneChar, hc]
  | cls items c t hc =>
    simp only [Regexp.ends]
    exact mem_oneChar.2 ⟨c, rfl, hc⟩
  | bol s hs => simp [Regexp.ends, hs]
  | eol => simp [Regexp.ends]
  | group _ ih => exact ih
  | cat _ _ ih ih' =>
    simp only [Regexp.ends, List.mem_flatMap]
    exact ⟨_, ih, ih'⟩
  | altL _ ih => simp only [Regexp.ends, List.mem_append]; exact Or.inl ih
  | altR _ ih => simp only [Regexp.ends, List.mem_append]; exact Or.inr ih
  | starNil r s =>
    simp only [Regexp.ends]
    cases s.length <;> simp [starEnds]
  | starCons h₁ _ ih ih' =>
    simp only [Regexp.ends] at ih' ⊢
    exact starEnds_step h₁.suffix ih ih'
  | plus _ _ ih ih' =>
    simp only [Regexp.ends, List.mem_flatMap] at ih' ⊢
    exact ⟨_, ih, ih'⟩
  | questSome _ ih =>
    simp only [Regexp.ends, List.mem_append, List.mem_singleton]; exact Or.inl ih
  | questNone r s => simp [Regexp.ends]
  | repZero r s => simp [Regexp.ends, repEnds]
  | repSucc _ _ ih ih' =>
    simp only [Regexp.ends, repEnds, List.mem_flatMap] at ih' ⊢
    exact ⟨_, ih, ih'⟩

/-- The matcher and the declarative meaning agree. -/
theorem Regexp.mem_ends_iff {n : Nat} {r : Regexp} {s t : List Char} :
    t ∈ r.ends n s ↔ Regexp.Matches n r s t :=
  ⟨Regexp.ends_sound n r s t, Regexp.ends_complete⟩

/-- `MatchString` holds exactly when some part of the text is a match. -/
theorem Regexp.MatchString_iff (re : Regexp) (s : GoString) :
    re.MatchString s = true ↔
      ∃ pre mid post, s.data = pre ++ mid ++ post ∧
        Regexp.Matches s.data.length re (mid ++ post) post := by
  simp only [Regexp.MatchString, List.any_eq_true, List.mem_tails, Bool.not_eq_true',
    List.isEmpty_eq_false]
  constructor
  · rintro ⟨t, ⟨pre, hpre⟩, hne⟩
    obtain ⟨post, hpost⟩ := List.exists_mem_of_ne_nil _ hne
    obtain ⟨mid, hmid⟩ := Regexp.ends_suffix _ _ _ _ hpost
    refine ⟨pre, mid, post, ?_, ?_⟩
    · rw [List.append_assoc, hmid, hpre]
    · rw [hmid]; exact Regexp.ends_sound _ _ _ _ hpost
  · rintro ⟨pre, mid, post, hs, hm⟩
    refine ⟨mid ++ post, ⟨pre, by rw [hs, List.append_assoc]⟩, ?_⟩
    exact List.ne_nil_of_mem (Regexp.ends_complete hm)

/-! ## The pieces the package's patterns are made of -/

theorem isDigitChar_iff (c : Char) : isDigitChar c = true ↔ AsciiDigit c := by
  simp only [isDigitChar, Bool.and_eq_true, decide_eq_true_eq]
  exact Iff.rfl

theorem mem_ends_ite {c : Prop} [Decidable c] {s t : List Char} :
    t ∈ (if c then [s] else []) ↔ c ∧ t = s := by
  split <;> simp [*]

theorem digits09_test (c : Char) :
    [ClassItem.range '0' '9'].any (ClassItem.test c) = true ↔ AsciiDigit c := by
  simp only [List.any_cons, List.any_nil, Bool.or_false, ClassItem.test, Bool.and_eq_true,
    decide_eq_true_eq]
  exact Iff.rfl

theorem Regexp.ends_bol (n : Nat) (s : List Char) :
    Regexp.bol.ends n s = if s.length = n then [s] else [] := rfl

theorem Regexp.ends_eol (n : Nat) (s : List Char) :
    Regexp.eol.ends n s = if s.length = 0 then [s] else [] := rfl

theorem Regexp.ends_group (n : Nat) (r : Regexp) (s : List Char) :
    (Regexp.group r).ends n s = r.ends n s := rfl

theorem Regexp.ends_cat (n : Nat) (r r' : Regexp) (s : List Char) :
    (Regexp.cat r r').ends n s = (r.ends n s).flatMap (r'.ends n) := rfl

theorem Regexp.ends_alt (n : Nat) (r r' : Regexp) (s : List Char) :
    (Regexp.alt r r').ends n s = r.ends n s ++ r'.ends n s := rfl

theorem Regexp.ends_star (n : Nat) (r : Regexp) (s : List Char) :
    (Regexp.star r).ends n s = starEnds (r.ends n) s.length s := rfl

theorem Regexp.ends_plus (n : Nat) (r : Regexp) (s : List Char) :
    (Regexp.plus r).ends n s =
      (r.ends n s).flatMap fun t => starEnds (r.ends n) t.length t := rfl

theorem Regexp.ends_quest (n : Nat) (r : Regexp) (s : List Char) :
    (Regexp.quest r).ends n s = r.ends n s ++ [s] := rfl

theorem Regexp.ends_rep (n : Nat) (r : Regexp) (k : Nat) (s : List Char) :
    (Regexp.rep r k).ends n s = repEnds (r.ends n) k s := rfl

theorem mem_ends_lit {n : Nat} {c : Char} {s t : List Char} :
    t ∈ (Regexp.lit c).ends n s ↔ s = c :: t := by
  show t ∈ oneChar (fun x => decide (x = c)) s ↔ _
  simp only [mem_oneChar, decide_eq_true_eq]
  constructor
  · rintro ⟨d, rfl, rfl⟩; rfl
  · rintro rfl; exact ⟨c, rfl, rfl⟩

theorem mem_ends_esc {n : Nat} {c : Char} {s t : List Char} :
    t ∈ (Regexp.esc c).ends n s ↔ s = c :: t := by
  show t ∈ oneChar (fun x => decide (x = c)) s ↔ _
  simp only [mem_oneChar, decide_eq_true_eq]
  constructor
  · rintro ⟨d, rfl, rfl⟩; rfl
  · rintro rfl; exact ⟨c, rfl, rfl⟩

theorem mem_ends_digit {n : Nat} {s t : List Char} :
    t ∈ Regexp.digit.ends n s ↔ ∃ c, s = c :: t ∧ AsciiDigit c := by
  show t ∈ oneChar isDigitChar s ↔ _
  simp only [mem_oneChar, isDigitChar_iff]

theorem mem_ends_cls {n : Nat} {items : List ClassItem} {s t : List Char} :
    t ∈ (Regexp.cls items).ends n s ↔
      ∃ c, s = c :: t ∧ items.any (ClassItem.test c) = true := by
  show t ∈ oneChar (fun x => items.any (ClassItem.test x)) s ↔ _
  simp only [mem_oneChar]

theorem mem_ends_digits09 {n : Nat} {s t : List Char} :
    t ∈ digits09.ends n s ↔ ∃ c, s = c :: t ∧ AsciiDigit c := by
  simp only [digits09, mem_ends_cls, digits09_test]

/-- Ends of `[0-9]*`: any run of digits may be consumed. -/
theorem mem_starEnds_digits09 {n : Nat} :
    ∀ (k : Nat) (s t : List Char), s.length ≤ k →
      (t ∈ starEnds (digits09.ends n) k s ↔ ∃ w, AllDigits w ∧ s = w ++ t) := by
  intro k
  induction k with
  | zero =>
    intro s t hk
    have hs : s = [] := List.length_eq_zero.1 (by omega)
    subst hs
    simp only [starEnds, List.mem_singleton]
    constructor
    · rintro rfl; exact ⟨[], by simp [AllDigits], rfl⟩
    · rintro ⟨w, _, hw⟩
      have := List.append_eq_nil.1 hw.symm
      exact this.2
  | succ k ih =>
    intro s t hk
    simp only [starEnds, List.mem_cons, List.mem_flatMap, List.mem_filter, mem_ends_digits09,
      decide_eq_true_eq]
    constructor
    · rintro (rfl | ⟨u, ⟨⟨c, rfl, hc⟩, _⟩, ht⟩)
      · exact ⟨[], by simp [AllDigits], rfl⟩
      · obtain ⟨w, hw, rfl⟩ := (ih u t (by simpa using Nat.le_of_succ_le_succ hk)).1 ht
        refine ⟨c :: w, ?_, rfl⟩
        intro d hd
        rcases List.mem_cons.1 hd with rfl | hd
        · exact hc
        · exact hw d hd
    · rintro ⟨w, hw, rfl⟩
      cases w with
      | nil => exact Or.inl rfl
      | cons c w =>
        refine Or.inr ⟨w ++ t, ⟨⟨c, rfl, hw c (List.mem_cons_self _ _)⟩, by simp⟩, ?_⟩
        refine (ih (w ++ t) t (by simpa using Nat.le_of_succ_le_succ hk)).2 ⟨w, ?_, rfl⟩
        intro d hd
        exact hw d (List.mem_cons_of_mem _ hd)

theorem mem_ends_digitStar {n : Nat} {s t : List Char} :
    t ∈ (Regexp.star digits09).ends n s ↔ ∃ w, AllDigits w ∧ s = w ++ t := by
  rw [Regexp.ends_star]
  exact mem_starEnds_digits09 _ s t le_rfl

theorem mem_ends_digitPlus {n : Nat} {s t : List Char} :
    t ∈ (Regexp.plus digits09).ends n s ↔ ∃ w, w ≠ [] ∧ AllDigits w ∧ s = w ++ t := by
  simp only [Regexp.ends_plus, List.mem_flatMap, mem_ends_digits09]
  constructor
  · rintro ⟨u, ⟨c, rfl, hc⟩, ht⟩
    obtain ⟨w, hw, rfl⟩ := (mem_starEnds_digits09 _ u t le_rfl).1 ht
    refine ⟨c :: w, by simp, ?_, rfl⟩
    intro d hd
    rcases List.mem_cons.1 hd with rfl | hd
    · exact hc
    · exact hw d hd
  · rintro ⟨w, hne, hw, rfl⟩
    cases w with
    | nil => exact absurd rfl hne
    | cons c w =>
      refine ⟨w ++ t, ⟨c, rfl, hw c (List.mem_cons_self _ _)⟩, ?_⟩
      exact (mem_starEnds_digits09 _ (w ++ t) t le_rfl).2
        ⟨w, fun d hd => hw d (List.mem_cons_of_mem _ hd), rfl⟩

theorem mem_ends_optSign {n : Nat} {s t : List Char} :
    t ∈ (Regexp.quest (.cls [.single '-', .single '+'])).ends n s ↔
      ∃ g, OptionalSign g ∧ s = g ++ t := by
  simp only [Regexp.ends_quest, List.mem_append, List.mem_singleton, mem_ends_cls, List.any_cons,
    List.any_nil, Bool.or_false, ClassItem.test, Bool.or_eq_true, decide_eq_true_eq]
  constructor
  · rintro (⟨c, rfl, rfl | rfl⟩ | rfl)
    · exact ⟨['-'], Or.inr (Or.inr rfl), rfl⟩
    · exact ⟨['+'], Or.inr (Or.inl rfl), rfl⟩
    · exact ⟨[], Or.inl rfl, rfl⟩
  · rintro ⟨g, rfl | rfl | rfl, rfl⟩
    · exact Or.inr rfl
    · exact Or.inl ⟨'+', rfl, Or.inr rfl⟩
    · exact Or.inl ⟨'-', rfl, Or.inl rfl⟩

/-- Ends of the `int` pattern: the unread text must be the whole text and an
integer text, and the match ends at the end of the text. -/
theorem mem_ends_rxInt {n : Nat} {s t : List Char} :
    t ∈ rxInt.ends n s ↔ s.length = n ∧ t = [] ∧ IntegerText s := by
  simp only [rxInt, Regexp.ends_cat, Regexp.ends_group, Regexp.ends_alt, Regexp.ends_bol,
    Regexp.ends_eol, List.mem_flatMap, List.mem_append, mem_ends_ite, mem_ends_optSign,
    mem_ends_digitStar, mem_ends_lit, mem_ends_cls, List.any_cons, List.any_nil, Bool.or_false,
    ClassItem.test, Bool.and_eq_true, decide_eq_true_eq]
  constructor
  · rintro ⟨u, ⟨hn, rfl⟩, v, ⟨w, ⟨g, hg, rfl⟩, hbody⟩, hv, rfl⟩
    have hv' : t = [] := List.length_eq_zero.1 hv
    subst hv'
    refine ⟨hn, rfl, g, w, rfl, hg, ?_⟩
    rcases hbody with rfl | ⟨x, ⟨c, rfl, hc⟩, ds, hds, rfl⟩
    · exact Or.inl rfl
    · exact Or.inr ⟨c, ds, by simp, hc, hds⟩
  · rintro ⟨hn, rfl, g, body, rfl, hg, hbody⟩
    refine ⟨g ++ body, ⟨hn, rfl⟩, [], ⟨body, ⟨g, hg, rfl⟩, ?_⟩, rfl, rfl⟩
    rcases hbody with rfl | ⟨d, ds, rfl, hd, hds⟩
    · exact Or.inl rfl
    · exact Or.inr ⟨ds, ⟨d, rfl, hd⟩, ds, hds, by simp⟩

/-! ## The `int` rule -/

theorem GoString.length_eq_zero_iff (s : GoString) : s.length = 0 ↔ s = "" := by
  rw [String.ext_iff]
  exact List.length_eq_zero

theorem IsNull_iff (s : GoString) : IsNull s = true ↔ s = "" := by
  simp only [IsNull, beq_iff_eq]
  exact GoString.length_eq_zero_iff s

theorem rxInt_MatchString_iff (s : GoString) :
    rxInt.MatchString s = true ↔ IntegerText s.data := by
  simp only [Regexp.MatchString, List.any_eq_true, List.mem_tails, Bool.not_eq_true',
    List.isEmpty_eq_false]
  constructor
  · rintro ⟨t, hsuf, hne⟩
    obtain ⟨e, he⟩ := List.exists_mem_of_ne_nil _ hne
    obtain ⟨hlen, -, hint⟩ := mem_ends_rxInt.1 he
    have : t = s.data := hsuf.eq_of_length hlen
    rw [← this]
    exact hint
  · intro h
    exact ⟨s.data, List.suffix_refl _, List.ne_nil_of_mem (mem_ends_rxInt.2 ⟨rfl, rfl, h⟩)⟩

theorem IsInt_stringField_iff (s : GoString) :
    IsInt (stringField s) = true ↔ s ≠ "" ∧ IntegerText s.data := by
  unfold IsInt
  simp only [stringField, FieldLevel.Field, Value.String]
  by_cases h : IsNull s = true
  · have hs := (IsNull_iff s).1 h
    rw [if_pos h]
    simp [hs]
  · have hs : s ≠ "" := fun e => h ((IsNull_iff s).2 e)
    rw [if_neg h, rxInt_MatchString_iff]
    exact ⟨fun hi => ⟨hs, hi⟩, fun hi => hi.2⟩

/-- C1: for every string `s`, `IsInt` on a field holding `s` is true exactly
when `s` is non-empty and the whole of `s` is an optional single sign followed
by either the single digit `0` or a digit `1`..`9` followed by zero or more
digits; `"0"`, `"-42"` and `"7"` are accepted. -/
theorem IsInt_iff_integer_text :
    (∀ s : GoString, IsInt (stringField s) = true ↔ s ≠ "" ∧ IntegerText s.data) ∧
      IsInt (stringField "0") = true ∧
      IsInt (stringField "-42") = true ∧
      IsInt (stringField "7") = true :=
  ⟨IsInt_stringField_iff, by decide, by decide, by decide⟩

/-- C2: on the empty string each of `IsInt`, `IsFloat` and `IsDate` returns
false. -/
theorem empty_string_rejected :
    IsInt (stringField "") = false ∧
      IsFloat (stringField "") = false ∧
      IsDate (stringField "") = false :=
  ⟨by decide, by decide, by decide⟩

/-- C3 against the code: the doc comment of `IsInt` says that the empty string
is valid, as the claim does, but on a field holding `""` the guard on `IsNull`
answers false before the pattern is consulted. -/
theorem IsInt_empty_invalid :
    IsNull (stringField "").Field.String = true ∧ IsInt (stringField "") = false :=
  ⟨by decide, by decide⟩

/-! ## The `float` rule -/

theorem mem_ends_escSign {n : Nat} {s t : List Char} :
    t ∈ (Regexp.quest (.cls [.escaped '+', .escaped '-'])).ends n s ↔
      ∃ g, OptionalSign g ∧ s = g ++ t := by
  simp only [Regexp.ends_quest, List.mem_append, List.mem_singleton, mem_ends_cls, List.any_cons,
    List.any_nil, Bool.or_false, ClassItem.test, Bool.or_eq_true, decide_eq_true_eq]
  constructor
  · rintro (⟨c, rfl, rfl | rfl⟩ | rfl)
    · exact ⟨['+'], Or.inr (Or.inl rfl), rfl⟩
    · exact ⟨['-'], Or.inr (Or.inr rfl), rfl⟩
    · exact ⟨[], Or.inl rfl, rfl⟩
  · rintro ⟨g, rfl | rfl | rfl, rfl⟩
    · exact Or.inr rfl
    · exact Or.inl ⟨'+', rfl, Or.inl rfl⟩
    · exact Or.inl ⟨'-', rfl, Or.inr rfl⟩

/-- Ends of the optional integer part `(?:[-+]?(?:[0-9]+))?`. -/
theorem mem_ends_floatInt {n : Nat} {s t : List Char} :
    t ∈ (Regexp.quest (.group (.cat (.quest (.cls [.single '-', .single '+']))
          (.group (.plus digits09))))).ends n s ↔
      ∃ i, (i = [] ∨ SignedDigitsText i) ∧ s = i ++ t := by
  rw [Regexp.ends_quest]
  simp only [Regexp.ends_group, Regexp.ends_cat, List.mem_append, List.mem_flatMap,
    List.mem_singleton, mem_ends_optSign, mem_ends_digitPlus]
  constructor
  · rintro (⟨u, ⟨g, hg, rfl⟩, w, hne, hw, rfl⟩ | rfl)
    · exact ⟨g ++ w, Or.inr ⟨g, w, rfl, hg, hne, hw⟩, by simp⟩
    · exact ⟨[], Or.inl rfl, rfl⟩
  · rintro ⟨i, rfl | ⟨g, w, rfl, hg, hne, hw⟩, rfl⟩
    · exact Or.inr rfl
    · exact Or.inl ⟨w ++ t, ⟨g, hg, by simp⟩, w, hne, hw, rfl⟩

/-- Ends of the optional fraction `(?:\.[0-9]*)?`. -/
theorem mem_ends_floatFrac {n : Nat} {s t : List Char} :
    t ∈ (Regexp.quest (.group (.cat (.esc '.') (.star digits09)))).ends n s ↔
      ∃ f, (f = [] ∨ FractionText f) ∧ s = f ++ t := by
  rw [Regexp.ends_quest]
  simp only [Regexp.ends_group, Regexp.ends_cat, List.mem_append, List.mem_flatMap,
    List.mem_singleton, mem_ends_esc, mem_ends_digitStar]
  constructor
  · rintro (⟨u, rfl, w, hw, rfl⟩ | rfl)
    · exact ⟨'.' :: w, Or.inr ⟨w, rfl, hw⟩, rfl⟩
    · exact ⟨[], Or.inl rfl, rfl⟩
  · rintro ⟨f, rfl | ⟨w, rfl, hw⟩, rfl⟩
    · exact Or.inr rfl
    · exact Or.inl ⟨w ++ t, rfl, w, hw, rfl⟩

/-- Ends of the optional exponent `(?:[eE][\+\-]?(?:[0-9]+))?`. -/
theorem mem_ends_floatExp {n : Nat} {s t : List Char} :
    t ∈ (Regexp.quest (.group (.cat (.cls [.single 'e', .single 'E'])
          (.cat (.quest (.cls [.escaped '+', .escaped '-']))
            (.group (.plus digits09)))))).ends n s ↔
      ∃ x, (x = [] ∨ ExponentText x) ∧ s = x ++ t := by
  rw [Regexp.ends_quest]
  simp only [Regexp.ends_group, Regexp.ends_cat, List.mem_append, List.mem_flatMap,
    List.mem_singleton, mem_ends_escSign, mem_ends_digitPlus, mem_ends_cls, List.any_cons,
    List.any_nil, Bool.or_false, ClassItem.test, Bool.or_eq_true, decide_eq_true_eq]
  constructor
  · rintro (⟨u, ⟨e, rfl, he⟩, v, ⟨g, hg, rfl⟩, w, hne, hw, rfl⟩ | rfl)
    · exact ⟨e :: (g ++ w), Or.inr ⟨e, g, w, rfl, he, hg, hne, hw⟩, by simp⟩
    · exact ⟨[], Or.inl rfl, rfl⟩
  · rintro ⟨x, rfl | ⟨e, g, w, rfl, he, hg, hne, hw⟩, rfl⟩
    · exact Or.inr rfl
    · exact Or.inl ⟨g ++ w ++ t, ⟨e, by simp, he⟩, w ++ t, ⟨g, hg, by simp⟩, w, hne, hw, rfl⟩

/-- Ends of the `float` pattern: the unread text must be the whole text and a
float text, and the match ends at the end of the text. -/
theorem mem_ends_rxFloat {n : Nat} {s t : List Char} :
    t ∈ rxFloat.ends n s ↔ s.length = n ∧ t = [] ∧ FloatText s := by
  unfold rxFloat
  rw [Regexp.ends_cat, List.mem_flatMap]
  simp only [Regexp.ends_bol, mem_ends_ite]
  simp only [Regexp.ends_cat, List.mem_flatMap, mem_ends_floatInt, mem_ends_floatFrac,
    mem_ends_floatExp, Regexp.ends_eol, mem_ends_ite]
  constructor
  · rintro ⟨u, ⟨hn, rfl⟩, v, ⟨i, hi, rfl⟩, w, ⟨f, hf, rfl⟩, y, ⟨x, hx, rfl⟩, hy, rfl⟩
    have hy' : t = [] := List.length_eq_zero.1 hy
    subst hy'
    exact ⟨hn, rfl, i, f, x, by simp, hi, hf, hx⟩
  · rintro ⟨hn, rfl, i, f, x, rfl, hi, hf, hx⟩
    exact ⟨_, ⟨hn, rfl⟩, f ++ x, ⟨i, hi, by simp⟩, x, ⟨f, hf, rfl⟩, [], ⟨x, hx, by simp⟩,
      rfl, rfl⟩

theorem rxFloat_MatchString_iff (s : GoString) :
    rxFloat.MatchString s = true ↔ FloatText s.data := by
  simp only [Regexp.MatchString, List.any_eq_true, List.mem_tails, Bool.not_eq_true',
    List.isEmpty_eq_false]
  constructor
  · rintro ⟨t, hsuf, hne⟩
    obtain ⟨e, he⟩ := List.exists_mem_of_ne_nil _ hne
    obtain ⟨hlen, -, hfl⟩ := mem_ends_rxFloat.1 he
    have : t = s.data := hsuf.eq_of_length hlen
    rw [← this]
    exact hfl
  · intro h
    exact ⟨s.data, List.suffix_refl _, List.ne_nil_of_mem (mem_ends_rxFloat.2 ⟨rfl, rfl, h⟩)⟩

/-- What `IsFloat` accepts, in words of the pattern `Float`. -/
theorem IsFloat_stringField_iff (s : GoString) :
    IsFloat (stringField s) = true ↔ s ≠ "" ∧ FloatText s.data := by
  unfold IsFloat
  simp only [stringField, FieldLevel.Field, Value.String, Bool.and_eq_true, bne_iff_ne, ne_eq,
    rxFloat_MatchString_iff]

theorem OptionalSign_alphabet {g : List Char} (hg : OptionalSign g) :
    ∀ c ∈ g, FloatAlphabet c := by
  intro c hc
  rcases hg with rfl | rfl | rfl
  · simp at hc
  · rw [List.mem_singleton] at hc; subst hc; exact Or.inr (Or.inl rfl)
  · rw [List.mem_singleton] at hc; subst hc; exact Or.inr (Or.inr (Or.inl rfl))

theorem AllDigits_alphabet {w : List Char} (hw : AllDigits w) :
    ∀ c ∈ w, FloatAlphabet c :=
  fun c hc => Or.inl (hw c hc)

theorem ExponentText_alphabet {x : List Char} (hx : ExponentText x) :
    ∀ c ∈ x, FloatAlphabet c := by
  obtain ⟨e, g, ds, rfl, he, hg, -, hds⟩ := hx
  intro c hc
  rcases List.mem_cons.1 hc with rfl | hc
  · rcases he with rfl | rfl
    · exact Or.inr (Or.inr (Or.inr (Or.inr (Or.inl rfl))))
    · exact Or.inr (Or.inr (Or.inr (Or.inr (Or.inr rfl))))
  · rcases List.mem_append.1 hc with hc | hc
    · exact OptionalSign_alphabet hg c hc
    · exact AllDigits_alphabet hds c hc

/-- A float text is written with the float alphabet only. -/
theorem FloatText_alphabet {s : List Char} (hs : FloatText s) :
    ∀ c ∈ s, FloatAlphabet c := by
  obtain ⟨i, f, x, rfl, hi, hf, hx⟩ := hs
  intro c hc
  rcases List.mem_append.1 hc with hc | hc
  · rcases List.mem_append.1 hc with hc | hc
    · rcases hi with rfl | ⟨g, ds, rfl, hg, -, hds⟩
      · simp at hc
      · rcases List.mem_append.1 hc with hc | hc
        · exact OptionalSign_alphabet hg c hc
        · exact AllDigits_alphabet hds c hc
    · rcases hf with rfl | ⟨ds, rfl, hds⟩
      · simp at hc
      · rcases List.mem_cons.1 hc with rfl | hc
        · exact Or.inr (Or.inr (Or.inr (Or.inl rfl)))
        · exact AllDigits_alphabet hds c hc
  · rcases hx with rfl | hx
    · simp at hc
    · exact ExponentText_alphabet hx c hc

/-- C4, as stated, fails: the lone sign `"+"` is non-empty and is a sign
followed by an absent integer part, an absent fraction and an absent exponent,
yet `IsFloat` rejects it. -/
theorem IsFloat_four_parts_fails :
    ¬ (IsFloat (stringField "+") = true ↔
        ("+" : GoString) ≠ "" ∧ FourOptionalParts ("+" : GoString).data) := by
  intro h
  have hacc : IsFloat (stringField "+") = true :=
    h.2 ⟨by decide, ['+'], [], [], [], rfl, Or.inr (Or.inl rfl), Or.inl rfl, Or.inl rfl,
      Or.inl rfl⟩
  exact absurd hacc (by decide)

/-- C4, amended: for every string `s`, `IsFloat` on a field holding `s` is true
exactly when `s` is non-empty and `s` is the concatenation, in this order, of
three parts each of which is independently optional: an optional sign followed
by one or more digits, a fraction (`.` followed by zero or more digits), and
an exponent (`e` or `E`, an optional sign, one or more digits). -/
theorem IsFloat_iff_float_text (s : GoString) :
    IsFloat (stringField s) = true ↔ s ≠ "" ∧ FloatText s.data :=
  IsFloat_stringField_iff s

/-- C5: `IsFloat` accepts every sign-digits-point-digits-exponent text (sign
and exponent optional, both digit runs non-empty) and rejects every string
containing a character outside digits, `+`, `-`, `.`, `e`, `E`; `"3.14"` and
`"-0.5e10"` are accepted and `"abc"` is rejected. -/
theorem IsFloat_decimal_and_alphabet :
    (∀ a b g x : List Char, a ≠ [] → AllDigits a → b ≠ [] → AllDigits b → OptionalSign g →
        (x = [] ∨ ExponentText x) →
        IsFloat (stringField (String.mk (g ++ a ++ ['.'] ++ b ++ x))) = true) ∧
      (∀ s : GoString, (∃ c ∈ s.data, ¬ FloatAlphabet c) → IsFloat (stringField s) = false) ∧
      IsFloat (stringField "3.14") = true ∧
      IsFloat (stringField "-0.5e10") = true ∧
      IsFloat (stringField "abc") = false := by
  refine ⟨?_, ?_, by decide, by decide, by decide⟩
  · intro a b g x ha hda _ hdb hg hx
    refine (IsFloat_stringField_iff _).2 ⟨?_, g ++ a, '.' :: b, x, by simp, ?_, ?_, hx⟩
    · intro h
      have hd := congrArg String.data h
      simp at hd
    · exact Or.inr ⟨g, a, rfl, hg, ha, hda⟩
    · exact Or.inr ⟨b, rfl, hdb⟩
  · rintro s ⟨c, hc, hnot⟩
    cases hacc : IsFloat (stringField s) with
    | false => rfl
    | true => exact absurd (FloatText_alphabet ((IsFloat_stringField_iff s).1 hacc).2 c hc) hnot

/-- C5 at concrete inputs: `"+12.50E-3"` is accepted through the first part and
`"1x"` is rejected through the second. -/
theorem IsFloat_decimal_and_alphabet_witness :
    IsFloat (stringField (String.mk (['+'] ++ ['1', '2'] ++ ['.'] ++ ['5', '0'] ++ ['E', '-', '3'])))
        = true ∧
      IsFloat (stringField "1x") = false :=
  ⟨IsFloat_decimal_and_alphabet.1 ['1', '2'] ['5', '0'] ['+'] ['E', '-', '3'] (by decide)
      (by unfold AllDigits AsciiDigit; decide) (by decide)
      (by unfold AllDigits AsciiDigit; decide) (Or.inr (Or.inl rfl))
      (Or.inr ⟨'E', ['-'], ['3'], rfl, Or.inr rfl, Or.inr (Or.inr rfl), by decide,
        by unfold AllDigits AsciiDigit; decide⟩),
    IsFloat_decimal_and_alphabet.2.1 "1x"
      ⟨'x', by decide, by unfold FloatAlphabet AsciiDigit; decide⟩⟩

/-! ## The `date` rule -/

theorem mem_ends_digit2 {n : Nat} {s t : List Char} :
    t ∈ (Regexp.rep .digit 2).ends n s ↔
      ∃ a b, s = a :: b :: t ∧ AsciiDigit a ∧ AsciiDigit b := by
  simp only [Regexp.ends_rep, repEnds, List.mem_flatMap, List.mem_singleton, mem_ends_digit]
  constructor
  · rintro ⟨u, ⟨a, rfl, ha⟩, v, ⟨b, rfl, hb⟩, rfl⟩
    exact ⟨a, b, rfl, ha, hb⟩
  · rintro ⟨a, b, rfl, ha, hb⟩
    exact ⟨b :: t, ⟨a, rfl, ha⟩, t, ⟨b, rfl, hb⟩, rfl⟩

theorem mem_ends_digit4 {n : Nat} {s t : List Char} :
    t ∈ (Regexp.rep .digit 4).ends n s ↔
      ∃ a b c d, s = a :: b :: c :: d :: t ∧
        AsciiDigit a ∧ AsciiDigit b ∧ AsciiDigit c ∧ AsciiDigit d := by
  simp only [Regexp.ends_rep, repEnds, List.mem_flatMap, List.mem_singleton, mem_ends_digit]
  constructor
  · rintro ⟨_, ⟨a, rfl, ha⟩, _, ⟨b, rfl, hb⟩, _, ⟨c, rfl, hc⟩, _, ⟨d, rfl, hd⟩, rfl⟩
    exact ⟨a, b, c, d, rfl, ha, hb, hc, hd⟩
  · rintro ⟨a, b, c, d, rfl, ha, hb, hc, hd⟩
    exact ⟨_, ⟨a, rfl, ha⟩, _, ⟨b, rfl, hb⟩, _, ⟨c, rfl, hc⟩, _, ⟨d, rfl, hd⟩, rfl⟩

/-- Ends of the `date` pattern: a date text is consumed, wherever the unread
text starts. -/
theorem mem_ends_rxDate {n : Nat} {s t : List Char} :
    t ∈ rxDate.ends n s ↔ ∃ mid, DateText mid ∧ s = mid ++ t := by
  unfold rxDate
  simp only [Regexp.ends_cat, List.mem_flatMap, mem_ends_digit2, mem_ends_digit4, mem_ends_lit]
  constructor
  · rintro ⟨_, ⟨y₁, y₂, y₃, y₄, rfl, h₁, h₂, h₃, h₄⟩, _, rfl, _, ⟨m₁, m₂, rfl, h₅, h₆⟩, _, rfl,
      d₁, d₂, rfl, h₇, h₈⟩
    exact ⟨_, ⟨y₁, y₂, y₃, y₄, m₁, m₂, d₁, d₂, rfl, h₁, h₂, h₃, h₄, h₅, h₆, h₇, h₈⟩, rfl⟩
  · rintro ⟨_, ⟨y₁, y₂, y₃, y₄, m₁, m₂, d₁, d₂, rfl, h₁, h₂, h₃, h₄, h₅, h₆, h₇, h₈⟩, rfl⟩
    exact ⟨_, ⟨y₁, y₂, y₃, y₄, rfl, h₁, h₂, h₃, h₄⟩, _, rfl, _, ⟨m₁, m₂, rfl, h₅, h₆⟩, _, rfl,
      d₁, d₂, rfl, h₇, h₈⟩

theorem rxDate_MatchString_iff (s : GoString) :
    rxDate.MatchString s = true ↔ ContainsDateText s.data := by
  simp only [Regexp.MatchString, List.any_eq_true, List.mem_tails, Bool.not_eq_true',
    List.isEmpty_eq_false]
  constructor
  · rintro ⟨t, ⟨pre, hpre⟩, hne⟩
    obtain ⟨post, hpost⟩ := List.exists_mem_of_ne_nil _ hne
    obtain ⟨mid, hmid, rfl⟩ := mem_ends_rxDate.1 hpost
    exact ⟨pre, mid, post, by rw [← hpre, List.append_assoc], hmid⟩
  · rintro ⟨pre, mid, post, hs, hmid⟩
    refine ⟨mid ++ post, ⟨pre, by rw [hs, List.append_assoc]⟩, ?_⟩
    exact List.ne_nil_of_mem (mem_ends_rxDate.2 ⟨mid, hmid, rfl⟩)

theorem IsDate_stringField_iff (s : GoString) :
    IsDate (stringField s) = true ↔ s ≠ "" ∧ ContainsDateText s.data := by
  unfold IsDate
  simp only [stringField, FieldLevel.Field, Value.String]
  by_cases h : IsNull s = true
  · have hs := (IsNull_iff s).1 h
    rw [if_pos h]
    simp [hs]
  · have hs : s ≠ "" := fun e => h ((IsNull_iff s).2 e)
    rw [if_neg h, rxDate_MatchString_iff]
    exact ⟨fun hi => ⟨hs, hi⟩, fun hi => hi.2⟩

/-- C6: for every string `s`, `IsDate` on a field holding `s` is true exactly
when `s` is non-empty and contains, at some position, a contiguous part of the
shape four digits, `-`, two digits, `-`, two digits; text before and after it
is allowed and no calendar range is checked (`"9999-99-99"` passes).
`"2024-01-15"` and `"xx2024-01-15xx"` are accepted, `"not-a-date"` is
rejected. -/
theorem IsDate_iff_contains_date_text :
    (∀ s : GoString, IsDate (stringField s) = true ↔ s ≠ "" ∧ ContainsDateText s.data) ∧
      IsDate (stringField "2024-01-15") = true ∧
      IsDate (stringField "xx2024-01-15xx") = true ∧
      IsDate (stringField "not-a-date") = false ∧
      IsDate (stringField "9999-99-99") = true :=
  ⟨IsDate_stringField_iff, by decide, by decide, by decide, by decide⟩

/-! ## The bytes of a string -/

/-- A byte of the UTF-8 encoding of a character is below 256. -/
theorem utf8Bytes_lt (c : Char) : ∀ b ∈ utf8Bytes c, b < 256 := by
  intro b hb
  have hc : c.toNat < 1114112 := by
    have := c.valid
    rcases this with h | h
    · exact lt_trans h (by decide)
    · exact h.2
  unfold utf8Bytes at hb
  simp only at hb
  split at hb
  · simp only [List.mem_singleton] at hb; omega
  · split at hb
    · simp only [List.mem_cons, List.mem_singleton, List.not_mem_nil, or_false] at hb
      omega
    · split at hb
      · simp only [List.mem_cons, List.mem_singleton, List.not_mem_nil, or_false] at hb
        omega
      · simp only [List.mem_cons, List.mem_singleton, List.not_mem_nil, or_false] at hb
        omega

/-- The bytes of a string are bytes. -/
theorem bytesOf_lt (s : GoString) : ∀ c ∈ bytesOf s, c.toNat < 256 := by
  intro c hc
  unfold bytesOf at hc
  simp only [List.mem_flatMap, List.mem_map] at hc
  obtain ⟨a, -, b, hb, rfl⟩ := hc
  have hb' := utf8Bytes_lt a b hb
  have hv : b.isValidChar := Or.inl (lt_trans hb' (by decide))
  rw [Char.ofNat, dif_pos hv]
  exact hb'

/-- The bytes of a text of ASCII characters are its characters. -/
theorem bytesOf_ascii {l : List Char} (h : ∀ c ∈ l, c.toNat < 128) :
    bytesOf (String.mk l) = l := by
  unfold bytesOf
  show List.flatMap l _ = l
  induction l with
  | nil => rfl
  | cons c l ih =>
    have hc : c.toNat < 128 := h c (List.mem_cons_self _ _)
    have hb : (utf8Bytes c).map Char.ofNat = [c] := by
      unfold utf8Bytes
      simp only [if_pos hc, List.map_cons, List.map_nil]
      rw [Char.ofNat_toNat]
    rw [List.flatMap_cons, hb, ih fun x hx => h x (List.mem_cons_of_mem _ hx)]
    rfl

/-! ## Package `time`: the loops end -/

namespace time

theorem chunk_suffix_lt {layout pre suffix : List Char} {std std' : Std} {k : Nat}
    (hk : 0 < k) (hl : layout ≠ [])
    (h : chunk std' k layout = some (pre, std, suffix)) : suffix.length < layout.length := by
  simp only [chunk, Option.some.injEq, Prod.mk.injEq] at h
  obtain ⟨-, -, rfl⟩ := h
  have : 0 < layout.length := List.length_pos.2 hl
  simp only [List.length_drop]
  omega

theorem stdAt_cons (c : Char) (rest : List Char) :
    stdAt (c :: rest) =
      if c = 'J' then stdAtJ (c :: rest)
      else if c = 'M' then stdAtM (c :: rest)
      else if c = '0' then stdAt0 (c :: rest)
      else if c = '1' then
        if hasPrefix "15" (c :: rest) then chunk .stdHour 2 (c :: rest)
        else chunk .stdNumMonth 1 (c :: rest)
      else if c = '2' then
        if hasPrefix "2006" (c :: rest) then chunk .stdLongYear 4 (c :: rest)
        else chunk .stdDay 1 (c :: rest)
      else if c = '_' then stdAtUnderscore (c :: rest)
      else if c = '3' then chunk .stdHour12 1 (c :: rest)
      else if c = '4' then chunk .stdMinute 1 (c :: rest)
      else if c = '5' then chunk .stdSecond 1 (c :: rest)
      else if c = 'P' then
        if hasPrefix "PM" (c :: rest) then chunk .stdPM 2 (c :: rest) else none
      else if c = 'p' then
        if hasPrefix "pm" (c :: rest) then chunk .stdpm 2 (c :: rest) else none
      else if c = '-' then stdAtMinus (c :: rest)
      else if c = 'Z' then stdAtZ (c :: rest)
      else if c = '.' ∨ c = ',' then stdAtFrac c (c :: rest)
      else none := rfl

theorem stdAtJ_suffix_lt {layout pre suffix : List Char} {std : Std} (hne : layout ≠ [])
    (h : stdAtJ layout = some (pre, std, suffix)) : suffix.length < layout.length := by
  unfold stdAtJ at h
  repeat' split at h
  all_goals first
    | exact chunk_suffix_lt (by decide) hne h
    | cases h

theorem stdAtM_suffix_lt {layout pre suffix : List Char} {std : Std} (hne : layout ≠ [])
    (h : stdAtM layout = some (pre, std, suffix)) : suffix.length < layout.length := by
  unfold stdAtM at h
  repeat' split at h
  all_goals first
    | exact chunk_suffix_lt (by decide) hne h
    | cases h

theorem stdAt0_suffix_lt {layout pre suffix : List Char} {std : Std} (hne : layout ≠ [])
    (h : stdAt0 layout = some (pre, std, suffix)) : suffix.length < layout.length := by
  unfold stdAt0 at h
  repeat' split at h
  all_goals first
    | exact chunk_suffix_lt (by decide) hne h
    | cases h

theorem stdAtUnderscore_suffix_lt {layout pre suffix : List Char} {std : Std}
    (hne : layout ≠ [])
    (h : stdAtUnderscore layout = some (pre, std, suffix)) :
    suffix.length < layout.length := by
  unfold stdAtUnderscore at h
  have hpos : 0 < layout.length := List.length_pos.2 hne
  repeat' split at h
  all_goals first
    | exact chunk_suffix_lt (by decide) hne h
    | (cases h; done)
    | (cases h; simp only [List.length_drop]; omega)

theorem stdAtMinus_suffix_lt {layout pre suffix : List Char} {std : Std} (hne : layout ≠ [])
    (h : stdAtMinus layout = some (pre, std, suffix)) : suffix.length < layout.length := by
  unfold stdAtMinus at h
  repeat' split at h
  all_goals first
    | exact chunk_suffix_lt (by decide) hne h
    | cases h

theorem stdAtZ_suffix_lt {layout pre suffix : List Char} {std : Std} (hne : layout ≠ [])
    (h : stdAtZ layout = some (pre, std, suffix)) : suffix.length < layout.length := by
  unfold stdAtZ at h
  repeat' split at h
  all_goals first
    | exact chunk_suffix_lt (by decide) hne h
    | cases h

theorem stdAtFrac_suffix_lt {layout pre suffix : List Char} {std : Std} {c : Char}
    (hne : layout ≠ [])
    (h : stdAtFrac c layout = some (pre, std, suffix)) : suffix.length < layout.length := by
  unfold stdAtFrac at h
  have hpos : 0 < layout.length := List.length_pos.2 hne
  simp only at h
  repeat' split at h
  all_goals first
    | (cases h; done)
    | (cases h
       have := (List.dropWhile_suffix (l := layout.drop 1)
         (fun x => decide (x = (layout.drop 1).getD 0 ' '))).length_le
       simp only [List.length_drop] at this
       omega)

/-- A layout element found by `stdAt` leaves a strictly shorter layout. -/
theorem stdAt_suffix_lt {layout pre suffix : List Char} {std : Std}
    (h : stdAt layout = some (pre, std, suffix)) : suffix.length < layout.length := by
  cases layout with
  | nil => cases h
  | cons c rest =>
    have hne : c :: rest ≠ [] := List.cons_ne_nil _ _
    rw [stdAt_cons] at h
    by_cases h₁ : c = 'J'
    · rw [if_pos h₁] at h; exact stdAtJ_suffix_lt hne h
    rw [if_neg h₁] at h
    by_cases h₂ : c = 'M'
    · rw [if_pos h₂] at h; exact stdAtM_suffix_lt hne h
    rw [if_neg h₂] at h
    by_cases h₃ : c = '0'
    · rw [if_pos h₃] at h; exact stdAt0_suffix_lt hne h
    rw [if_neg h₃] at h
    by_cases h₄ : c = '1'
    · rw [if_pos h₄] at h
      split at h <;> exact chunk_suffix_lt (by decide) hne h
    rw [if_neg h₄] at h
    by_cases h₅ : c = '2'
    · rw [if_pos h₅] at h
      split at h <;> exact chunk_suffix_lt (by decide) hne h
    rw [if_neg h₅] at h
    by_cases h₆ : c = '_'
    · rw [if_pos h₆] at h; exact stdAtUnderscore_suffix_lt hne h
    rw [if_neg h₆] at h
    by_cases h₇ : c = '3'
    · rw [if_pos h₇] at h; exact chunk_suffix_lt (by decide) hne h
    rw [if_neg h₇] at h
    by_cases h₈ : c = '4'
    · rw [if_pos h₈] at h; exact chunk_suffix_lt (by decide) hne h
    rw [if_neg h₈] at h
    by_cases h₉ : c = '5'
    · rw [if_pos h₉] at h; exact chunk_suffix_lt (by decide) hne h
    rw [if_neg h₉] at h
    by_cases h₁₀ : c = 'P'
    · rw [if_pos h₁₀] at h
      split at h
      · exact chunk_suffix_lt (by decide) hne h
      · cases h
    rw [if_neg h₁₀] at h
    by_cases h₁₁ : c = 'p'
    · rw [if_pos h₁₁] at h
      split at h
      · exact chunk_suffix_lt (by decide) hne h
      · cases h
    rw [if_neg h₁₁] at h
    by_cases h₁₂ : c = '-'
    · rw [if_pos h₁₂] at h; exact stdAtMinus_suffix_lt hne h
    rw [if_neg h₁₂] at h
    by_cases h₁₃ : c = 'Z'
    · rw [if_pos h₁₃] at h; exact stdAtZ_suffix_lt hne h
    rw [if_neg h₁₃] at h
    by_cases h₁₄ : c = '.' ∨ c = ','
    · rw [if_pos h₁₄] at h; exact stdAtFrac_suffix_lt hne h
    rw [if_neg h₁₄] at h
    cases h

/-- A layout element found by `nextStdChunk` leaves a strictly shorter
layout. -/
theorem nextStdChunk_suffix_lt :
    ∀ {layout pre suffix : List Char} {std : Std},
      nextStdChunk layout = (pre, some std, suffix) → suffix.length < layout.length := by
  intro layout
  induction layout with
  | nil => intro pre suffix std h; simp [nextStdChunk] at h
  | cons c rest ih =>
    intro pre suffix std h
    unfold nextStdChunk at h
    split at h
    · next p s suf hat =>
      simp only [Prod.mk.injEq, Option.some.injEq] at h
      obtain ⟨-, -, rfl⟩ := h
      exact stdAt_suffix_lt hat
    · split at h
      next p s suf hrec =>
      simp only [Prod.mk.injEq] at h
      obtain ⟨-, rfl, rfl⟩ := h
      have := ih hrec
      simp only [List.length_cons]
      omega

/-- The loop of `parse` is never cut short: with more rounds than the layout
has characters it ends by itself. -/
theorem parseLoop_isSome (alayout avalue : GoString) :
    ∀ (fuel : Nat) (layout : List Char) (f : Fields) (value : List Char),
      layout.length < fuel → (parseLoop alayout avalue fuel layout f value).isSome = true := by
  intro fuel
  induction fuel with
  | zero => intro layout f value h; omega
  | succ fuel ih =>
    intro layout f value h
    unfold parseLoop
    split
    next pre std suffix hc =>
    split
    · rfl
    · split
      · split <;> rfl
      · next std =>
        simp only
        split
        · rfl
        · split
          · rfl
          · exact ih _ _ _ (by have := nextStdChunk_suffix_lt hc; omega)

/-- More rounds than the prefix has characters do not change `skip`. -/
theorem skipN_fuel :
    ∀ (k : Nat) (value pre : List Char), pre.length ≤ k →
      skipN k value pre = skipN pre.length value pre := by
  intro k
  induction k using Nat.strong_induction_on with
  | _ k ih =>
    intro value pre h
    cases k with
    | zero =>
      have : pre = [] := List.length_eq_zero.1 (by omega)
      subst this
      rfl
    | succ k =>
      cases pre with
      | nil => rfl
      | cons p pre' =>
        simp only [List.length_cons] at h
        simp only [skipN, List.length_cons]
        split
        · next hp =>
          subst hp
          have hlt : (cutspace (' ' :: pre')).length ≤ pre'.length := by
            have : cutspace (' ' :: pre') = cutspace pre' := by simp [cutspace]
            rw [this]
            exact (List.dropWhile_suffix _).length_le
          split
          · rfl
          · rw [ih k (by omega) _ _ (by omega)]
            by_cases hk : pre'.length = k
            · rw [hk, ih k (by omega) _ _ (by omega)]
            · rw [ih pre'.length (by omega) _ _ hlt]
        · split
          · rfl
          · by_cases hk : pre'.length = k
            · rw [hk]
            · rw [ih k (by omega) _ _ (by omega)]

end time

/-! ## Package `time`: one iteration of the loop of `parse` -/

namespace time

/-- An iteration that reads a layout element without error hands over to the
next iteration. -/
theorem parseLoop_step (alayout avalue : GoString) (fuel : Nat)
    {layout pre suffix value v₁ v' : List Char} {std : Std} {f f' : Fields}
    (hc : nextStdChunk layout = (pre, some std, suffix))
    (hs : skip value pre = (v₁, none))
    (hsw : switchStd std suffix f v₁ = ⟨f', v', "", none⟩) :
    parseLoop alayout avalue (fuel + 1) layout f value =
      parseLoop alayout avalue fuel suffix f' v' := by
  simp only [parseLoop, hc, hs, hsw]
  simp

/-- An iteration whose layout element reports an error returns an error. -/
theorem parseLoop_step_err (alayout avalue : GoString) (fuel : Nat)
    {layout pre suffix value v₁ : List Char} {std : Std} {f : Fields}
    (hc : nextStdChunk layout = (pre, some std, suffix))
    (hs : skip value pre = (v₁, none))
    (hsw : (switchStd std suffix f v₁).err ≠ none) :
    ∃ e, parseLoop alayout avalue (fuel + 1) layout f value = some (.error e) := by
  simp only [parseLoop, hc, hs]
  split
  · exact ⟨_, rfl⟩
  · exact ⟨_, rfl⟩

/-- The last iteration, where the layout has no element left, succeeds when
the literal rest of the layout uses up the value. -/
theorem parseLoop_end (alayout avalue : GoString) (fuel : Nat)
    {layout pre suffix value : List Char} {f : Fields}
    (hc : nextStdChunk layout = (pre, none, suffix))
    (hs : skip value pre = ([], none)) :
    parseLoop alayout avalue (fuel + 1) layout f value = some (.ok (f, [])) := by
  simp only [parseLoop, hc, hs]
  simp

/-- A loop that ends well went through its first iteration without error. -/
theorem parseLoop_ok_step {alayout avalue : GoString} {fuel : Nat}
    {layout pre suffix value : List Char} {std : Std} {f : Fields} {r : Fields × List Char}
    (hc : nextStdChunk layout = (pre, some std, suffix))
    (h : parseLoop alayout avalue (fuel + 1) layout f value = some (.ok r)) :
    ∃ v₁ f' v', skip value pre = (v₁, none) ∧
      switchStd std suffix f v₁ = ⟨f', v', "", none⟩ ∧
      parseLoop alayout avalue fuel suffix f' v' = some (.ok r) := by
  simp only [parseLoop, hc] at h
  split at h
  · cases h
  · next v₁ hs =>
    split at h
    · cases h
    · split at h
      · cases h
      · next hr he =>
        refine ⟨v₁, (switchStd std suffix f v₁).fields, (switchStd std suffix f v₁).value,
          hs, ?_, h⟩
        have hr' : (switchStd std suffix f v₁).rangeErrString = "" := by
          by_contra hne; exact hr hne
        have he' : (switchStd std suffix f v₁).err = none := by
          by_contra hne; exact he hne
        cases hsw : switchStd std suffix f v₁ with
        | mk fields value rangeErrString err =>
          rw [hsw] at hr' he'
          simp only at hr' he'
          subst hr' he'
          rfl

/-- A loop that ends well in its last iteration has used up the value. -/
theorem parseLoop_ok_end {alayout avalue : GoString} (fuel : Nat)
    {layout pre suffix value : List Char} {f : Fields} {r : Fields × List Char}
    (hc : nextStdChunk layout = (pre, none, suffix))
    (h : parseLoop alayout avalue (fuel + 1) layout f value = some (.ok r)) :
    skip value pre = ([], none) ∧ r = (f, []) := by
  simp only [parseLoop, hc] at h
  split at h
  · cases h
  · next v₁ hs =>
    split at h
    · cases h
    · next hlen =>
      have hv : v₁ = [] := List.length_eq_zero.1 (by simpa using hlen)
      subst hv
      simp only [Option.some.injEq, Except.ok.injEq] at h
      exact ⟨hs, h.symm⟩

end time

namespace time

/-- What `parse` returns once its loop has ended well on a layout without a
day of the year: the time it read, provided the day exists in the month. -/
theorem parse_of_loop {layout value : GoString} {f : Fields} {rest : List Char}
    (defaultLocation : Location)
    (hl : parseLoop layout value ((bytesOf layout).length + 1) (bytesOf layout) {}
      (bytesOf value) =
      some (.ok (f, rest)))
    (hy : f.yday = -1) (hm : 0 ≤ f.month) (hd : 1 ≤ f.day)
    (hd' : f.day ≤ daysIn f.month f.year) :
    ∃ t, parse layout value defaultLocation = .ok t := by
  have hmd : monthDay f.year f.month f.day f.yday = .ok (f.month, f.day) := by
    unfold monthDay
    rw [hy, if_neg (by decide), if_neg (by omega), if_neg (by omega)]
  unfold parse
  rw [hl]
  simp only [hmd]
  rw [if_neg (by omega)]
  exact ⟨_, rfl⟩

/-- A `parse` that returns a time has a loop that ended well. -/
theorem loop_of_parse {layout value : GoString} {defaultLocation : Location} {t : Time}
    (h : parse layout value defaultLocation = .ok t) :
    ∃ f rest, parseLoop layout value ((bytesOf layout).length + 1) (bytesOf layout) {}
      (bytesOf value) =
      some (.ok (f, rest)) := by
  unfold parse at h
  split at h
  · cases h
  · cases h
  · next f rest hl => exact ⟨f, rest, hl⟩

/-- An error returned from inside the loop is what `parse` returns. -/
theorem parse_of_loop_error {layout value : GoString} (defaultLocation : Location)
    {e : ParseError}
    (h : parseLoop layout value ((bytesOf layout).length + 1) (bytesOf layout) {}
      (bytesOf value) =
      some (.error e)) :
    parse layout value defaultLocation = .error e := by
  unfold parse
  rw [h]

end time

/-- `IsTime` is true as soon as `parse` returns a time: for the layouts that
`parseRFC3339` is tried on, `parse` reads what it does not. -/
theorem IsTime_of_parse {str format : GoString} {t : time.Time}
    (h : time.parse format str .UTC = .ok t) : IsTime str format = true := by
  have hP : ∃ t', time.Parse format str = .ok t' := by
    unfold time.Parse
    split
    · split
      · exact ⟨_, rfl⟩
      · exact ⟨t, h⟩
    · exact ⟨t, h⟩
  obtain ⟨t', ht'⟩ := hP
  unfold IsTime
  rw [ht']

/-- For a layout other than the two that `parseRFC3339` is tried on, `IsTime`
is true only if `parse` returns a time. -/
theorem parse_of_IsTime {str format : GoString} (h₁ : format ≠ time.RFC3339)
    (h₂ : format ≠ time.RFC3339Nano) (h : IsTime str format = true) :
    ∃ t, time.parse format str .UTC = .ok t := by
  have hP : time.Parse format str = time.parse format str .UTC := by
    unfold time.Parse
    rw [if_neg (by simp [h₁, h₂])]
  unfold IsTime at h
  rw [hP] at h
  split at h
  · next t ht => exact ⟨t, ht⟩
  · cases h

/-- `IsTime` is false when neither `parseRFC3339` nor `parse` reads the
value. -/
theorem IsTime_eq_false {str format : GoString} {e : time.ParseError}
    (h₁ : time.parseRFC3339 (bytesOf str) = none) (h₂ : time.parse format str .UTC = .error e) :
    IsTime str format = false := by
  have hP : time.Parse format str = .error e := by
    unfold time.Parse
    split
    · rw [h₁]
      exact h₂
    · exact h₂
  unfold IsTime
  rw [hP]

/-! ## The two layouts of the package, element by element -/

namespace time

theorem chunk_year (tail : GoString) :
    nextStdChunk ("2006-01-02T15:04:05".data ++ tail.data) =
      ([], some .stdLongYear, "-01-02T15:04:05".data ++ tail.data) := rfl

theorem chunk_month (tail : GoString) :
    nextStdChunk ("-01-02T15:04:05".data ++ tail.data) =
      (['-'], some .stdZeroMonth, "-02T15:04:05".data ++ tail.data) := rfl

theorem chunk_day (tail : GoString) :
    nextStdChunk ("-02T15:04:05".data ++ tail.data) =
      (['-'], some .stdZeroDay, "T15:04:05".data ++ tail.data) := rfl

theorem chunk_hour (tail : GoString) :
    nextStdChunk ("T15:04:05".data ++ tail.data) =
      (['T'], some .stdHour, ":04:05".data ++ tail.data) := rfl

theorem chunk_minute (tail : GoString) :
    nextStdChunk (":04:05".data ++ tail.data) =
      ([':'], some .stdZeroMinute, ":05".data ++ tail.data) := rfl

theorem chunk_second (tail : GoString) :
    nextStdChunk (":05".data ++ tail.data) = ([':'], some .stdZeroSecond, tail.data) := by
  have h₁ : stdAt (':' :: '0' :: '5' :: tail.data) = none := rfl
  have h₂ : stdAt ('0' :: '5' :: tail.data) = some ([], .stdZeroSecond, tail.data) := by
    have h₀ : stdAt ('0' :: '5' :: tail.data) = stdAt0 ('0' :: '5' :: tail.data) := rfl
    rw [h₀]
    unfold stdAt0
    rw [if_pos ⟨by simp, by show 49 ≤ 53; omega, by show 53 ≤ 54; omega⟩]
    rfl
  show nextStdChunk (':' :: '0' :: '5' :: tail.data) = _
  rw [nextStdChunk, h₁]
  simp only
  rw [nextStdChunk, h₂]

theorem chunk_zone : nextStdChunk "Z07:00".data = ([], some .stdISO8601ColonTZ, []) := by
  decide

theorem chunk_none : nextStdChunk [] = ([], none, []) := rfl

theorem skip_nil (value : List Char) : skip value [] = (value, none) := rfl

/-- Apart from the seconds, no layout element looks at the layout that
follows it; the seconds only ask whether a fractional-second element
follows. -/
theorem switchStd_second_layout {l l' : List Char} (h : nextIsFrac l = nextIsFrac l')
    (f : Fields) (v : List Char) :
    switchStd .stdZeroSecond l f v = switchStd .stdZeroSecond l' f v := by
  simp only [switchStd, h]

theorem nextIsFrac_nil : nextIsFrac [] = false := rfl

theorem nextIsFrac_zone : nextIsFrac "Z07:00".data = false := by decide

/-- The six elements `2006-01-02T15:04:05` that both layouts start with: when
the loop ends well on a layout that continues with `tail`, the six elements
were read without error, and they are read the same way, leaving the same
fields and the same rest of the value, whatever text `tail'` the layout
continues with (as long as neither continuation starts with a fractional
second). -/
theorem parseLoop_common {alayout avalue : GoString} {n : Nat} {tail : GoString}
    {value : List Char} {r : Fields × List Char}
    (htail : nextIsFrac tail.data = false)
    (h : parseLoop alayout avalue (n + 6) ("2006-01-02T15:04:05".data ++ tail.data) {} value =
      some (.ok r)) :
    ∃ f₆ v₆, parseLoop alayout avalue n tail.data f₆ v₆ = some (.ok r) ∧
      ∀ (alayout' avalue' tail' : GoString) (m : Nat), nextIsFrac tail'.data = false →
        parseLoop alayout' avalue' (m + 6) ("2006-01-02T15:04:05".data ++ tail'.data) {} value =
          parseLoop alayout' avalue' m tail'.data f₆ v₆ := by
  obtain ⟨a₁, f₁, v₁, hs₁, hw₁, h⟩ := parseLoop_ok_step (chunk_year tail) h
  obtain ⟨a₂, f₂, v₂, hs₂, hw₂, h⟩ := parseLoop_ok_step (chunk_month tail) h
  obtain ⟨a₃, f₃, v₃, hs₃, hw₃, h⟩ := parseLoop_ok_step (chunk_day tail) h
  obtain ⟨a₄, f₄, v₄, hs₄, hw₄, h⟩ := parseLoop_ok_step (chunk_hour tail) h
  obtain ⟨a₅, f₅, v₅, hs₅, hw₅, h⟩ := parseLoop_ok_step (chunk_minute tail) h
  obtain ⟨a₆, f₆, v₆, hs₆, hw₆, h⟩ := parseLoop_ok_step (chunk_second tail) h
  refine ⟨f₆, v₆, h, ?_⟩
  intro alayout' avalue' tail' m htail'
  rw [parseLoop_step _ _ _ (chunk_year tail') hs₁ hw₁,
    parseLoop_step _ _ _ (chunk_month tail') hs₂ hw₂,
    parseLoop_step _ _ _ (chunk_day tail') hs₃ hw₃,
    parseLoop_step _ _ _ (chunk_hour tail') hs₄ hw₄,
    parseLoop_step _ _ _ (chunk_minute tail') hs₅ hw₅,
    parseLoop_step _ _ _ (chunk_second tail') hs₆
      ((switchStd_second_layout (htail'.trans htail.symm) f₅ a₆).trans hw₆)]

/-- With nothing left of the value, the offset element `Z07:00` reports an
error. -/
theorem switchStd_zone_nil (f : Fields) :
    (switchStd .stdISO8601ColonTZ [] f []).err ≠ none := by
  simp [switchStd, switchOffset, switchNumOffset, offsetPieces]

end time

/-! ## Reading a well-formed timestamp -/

theorem digitChar_toNat {d : Nat} (hd : d < 10) : (digitChar d).toNat = 48 + d := by
  interval_cases d <;> rfl

theorem isDigitChar_digitChar {d : Nat} (hd : d < 10) : isDigitChar (digitChar d) = true := by
  simp only [isDigitChar, digitChar_toNat hd, Bool.and_eq_true, decide_eq_true_eq]
  omega

namespace time

theorem digitVal_digitChar {d : Nat} (hd : d < 10) : digitVal (digitChar d) = (d : ℤ) := by
  simp only [digitVal, digitChar_toNat hd]
  push_cast
  ring

theorem digitChar_ne {d : Nat} (hd : d < 10) {c : Char} (hc : c.toNat < 48) :
    digitChar d ≠ c := by
  intro h
  have := digitChar_toNat hd
  rw [h] at this
  omega

theorem leadingIntFrom_digit {d : Nat} (hd : d < 10) {x : Nat} (hx : x < 100000)
    (s : List Char) :
    leadingIntFrom x (digitChar d :: s) = leadingIntFrom (x * 10 + d) s := by
  rw [leadingIntFrom]
  rw [if_neg (by simp [isDigitChar_digitChar hd])]
  rw [if_neg (by norm_num; omega)]
  rw [digitChar_toNat hd]
  rw [if_neg (by norm_num; omega)]
  congr 2
  omega

theorem atoi_pad4 {n : Nat} (hn : n ≤ 9999) : atoi (pad4 n) = ((n : ℤ), none) := by
  have h₁ : n / 1000 % 10 < 10 := Nat.mod_lt _ (by decide)
  have h₂ : n / 100 % 10 < 10 := Nat.mod_lt _ (by decide)
  have h₃ : n / 10 % 10 < 10 := Nat.mod_lt _ (by decide)
  have h₄ : n % 10 < 10 := Nat.mod_lt _ (by decide)
  have hm : digitChar (n / 1000 % 10) ≠ '-' := digitChar_ne h₁ (by decide)
  have hp : digitChar (n / 1000 % 10) ≠ '+' := digitChar_ne h₁ (by decide)
  have hl : leadingInt (pad4 n) = (n, [], none) := by
    simp only [leadingInt, pad4]
    rw [leadingIntFrom_digit h₁ (by omega),
      leadingIntFrom_digit h₂ (by omega),
      leadingIntFrom_digit h₃ (by omega),
      leadingIntFrom_digit h₄ (by omega)]
    simp only [leadingIntFrom, Prod.mk.injEq, and_true]
    omega
  have ht : toInt n = (n : ℤ) := by
    unfold toInt
    rw [if_pos (by norm_num; omega)]
  unfold atoi
  have hc : charAt (pad4 n) 0 = digitChar (n / 1000 % 10) := rfl
  simp only [hc, hm, hp, or_self, and_false, if_false, decide_False, hl, ht]
  simp

theorem getnum_pad2 {n : Nat} (hn : n ≤ 99) (rest : List Char) (fixed : Bool) :
    getnum (pad2 n ++ rest) fixed = ((n : ℤ), rest, none) := by
  have h₁ : n / 10 % 10 < 10 := Nat.mod_lt _ (by decide)
  have h₂ : n % 10 < 10 := Nat.mod_lt _ (by decide)
  have e₀ : isDigit (pad2 n ++ rest) 0 = true := isDigitChar_digitChar h₁
  have e₁ : isDigit (pad2 n ++ rest) 1 = true := isDigitChar_digitChar h₂
  have c₀ : charAt (pad2 n ++ rest) 0 = digitChar (n / 10 % 10) := rfl
  have c₁ : charAt (pad2 n ++ rest) 1 = digitChar (n % 10) := rfl
  have hd : (pad2 n ++ rest).drop 2 = rest := rfl
  unfold getnum
  simp only [e₀, e₁, c₀, c₁, hd, Bool.not_true, Bool.false_eq_true, if_false,
    digitVal_digitChar h₁, digitVal_digitChar h₂, Prod.mk.injEq, and_true]
  omega

end time


namespace time

theorem switchStd_longYear {n : Nat} (hn : n ≤ 9999) (l rest : List Char) (f : Fields) :
    switchStd .stdLongYear l f (pad4 n ++ rest) = ⟨{ f with year := n }, rest, "", none⟩ := by
  have h₁ : n / 1000 % 10 < 10 := Nat.mod_lt _ (by decide)
  have e₀ : isDigit (pad4 n ++ rest) 0 = true := isDigitChar_digitChar h₁
  have hlen : ¬ (pad4 n ++ rest).length < 4 := by simp [pad4]
  have ht : (pad4 n ++ rest).take 4 = pad4 n := by simp [pad4]
  have hd : (pad4 n ++ rest).drop 4 = rest := rfl
  simp only [switchStd, hlen, e₀, ht, hd, atoi_pad4 hn, Bool.not_true, Bool.false_eq_true,
    or_self, if_false]

theorem switchStd_zeroMonth {n : Nat} (h₁ : 1 ≤ n) (h₂ : n ≤ 12) (l rest : List Char)
    (f : Fields) :
    switchStd .stdZeroMonth l f (pad2 n ++ rest) = ⟨{ f with month := n }, rest, "", none⟩ := by
  have hr : ¬ ((n : ℤ) ≤ 0 ∨ 12 < (n : ℤ)) := by omega
  simp only [switchStd, getnum_pad2 (by omega : n ≤ 99), hr, and_false, if_false]

theorem switchStd_zeroDay {n : Nat} (h₂ : n ≤ 99) (l rest : List Char) (f : Fields) :
    switchStd .stdZeroDay l f (pad2 n ++ rest) = ⟨{ f with day := n }, rest, "", none⟩ := by
  simp only [switchStd, getnum_pad2 h₂, reduceCtorEq, false_and, if_false]

theorem switchStd_hour {n : Nat} (h₂ : n ≤ 23) (l rest : List Char) (f : Fields) :
    switchStd .stdHour l f (pad2 n ++ rest) = ⟨{ f with hour := n }, rest, "", none⟩ := by
  have hr : ¬ ((n : ℤ) < 0 ∨ 24 ≤ (n : ℤ)) := by omega
  simp only [switchStd, getnum_pad2 (by omega : n ≤ 99), hr, if_false]

theorem switchStd_zeroMinute {n : Nat} (h₂ : n ≤ 59) (l rest : List Char) (f : Fields) :
    switchStd .stdZeroMinute l f (pad2 n ++ rest) = ⟨{ f with min := n }, rest, "", none⟩ := by
  have hr : ¬ ((n : ℤ) < 0 ∨ 60 ≤ (n : ℤ)) := by omega
  simp only [switchStd, getnum_pad2 (by omega : n ≤ 99), hr, if_false]

/-- The seconds, followed by a rest that does not start a fraction. -/
theorem switchStd_zeroSecond {n : Nat} (h₂ : n ≤ 59) (l rest : List Char) (f : Fields)
    (hrest : ¬ (2 ≤ rest.length ∧ commaOrPeriod (charAt rest 0) = true ∧
      isDigit rest 1 = true)) :
    switchStd .stdZeroSecond l f (pad2 n ++ rest) = ⟨{ f with sec := n }, rest, "", none⟩ := by
  have hr : ¬ ((n : ℤ) < 0 ∨ 60 ≤ (n : ℤ)) := by omega
  simp only [switchStd, getnum_pad2 (by omega : n ≤ 99), hr, hrest, if_false, ne_eq,
    not_true_eq_false]

theorem switchStd_zone_Z (f : Fields) :
    switchStd .stdISO8601ColonTZ [] f ['Z'] = ⟨{ f with z := some .UTC }, [], "", none⟩ := by
  simp [switchStd, switchOffset, charAt]

theorem skip_one (c : Char) (hc : c ≠ ' ') (rest : List Char) :
    skip (c :: rest) [c] = (rest, none) := by
  simp [skip, skipN, hc, charAt]

/-- The first five of the six common elements read the date, the hour and the
minute of a well-formed timestamp into the fields, and leave the seconds. -/
theorem parseLoop_timestamp_minute (alayout avalue tail : GoString) (n : Nat)
    {year month day hour minute second : Nat}
    (hv : ValidTimestamp year month day hour minute second) (rest : List Char) :
    parseLoop alayout avalue (n + 5) ("2006-01-02T15:04:05".data ++ tail.data) {}
        (timestampText year month day hour minute second ++ rest) =
      parseLoop alayout avalue n (":05".data ++ tail.data)
        { year := year, month := month, day := day, hour := hour, min := minute }
        (':' :: (pad2 second ++ rest)) := by
  obtain ⟨hy, hm₁, hm₂, -, hd, hh, hmi, hs⟩ := hv
  have hd' : day ≤ 99 := by
    have : calendarDays year month ≤ 31 := by
      unfold calendarDays; split_ifs <;> omega
    omega
  have hval : timestampText year month day hour minute second ++ rest =
      pad4 year ++ '-' :: (pad2 month ++ '-' :: (pad2 day ++ 'T' :: (pad2 hour ++
        ':' :: (pad2 minute ++ ':' :: (pad2 second ++ rest))))) := by
    simp only [timestampText, List.append_assoc, List.cons_append]
  rw [hval]
  rw [parseLoop_step _ _ _ (chunk_year tail) (skip_nil _) (switchStd_longYear hy _ _ _),
    parseLoop_step _ _ _ (chunk_month tail) (skip_one '-' (by decide) _)
      (switchStd_zeroMonth hm₁ hm₂ _ _ _),
    parseLoop_step _ _ _ (chunk_day tail) (skip_one '-' (by decide) _)
      (switchStd_zeroDay hd' _ _ _),
    parseLoop_step _ _ _ (chunk_hour tail) (skip_one 'T' (by decide) _)
      (switchStd_hour hh _ _ _),
    parseLoop_step _ _ _ (chunk_minute tail) (skip_one ':' (by decide) _)
      (switchStd_zeroMinute hmi _ _ _)]

/-- The six common elements read a well-formed timestamp into the fields, and
leave the text that follows it. -/
theorem parseLoop_timestamp (alayout avalue tail : GoString) (n : Nat)
    {year month day hour minute second : Nat}
    (hv : ValidTimestamp year month day hour minute second) (rest : List Char)
    (hrest : ¬ (2 ≤ rest.length ∧ commaOrPeriod (charAt rest 0) = true ∧
      isDigit rest 1 = true)) :
    parseLoop alayout avalue (n + 6) ("2006-01-02T15:04:05".data ++ tail.data) {}
        (timestampText year month day hour minute second ++ rest) =
      parseLoop alayout avalue n tail.data
        { year := year, month := month, day := day, hour := hour, min := minute, sec := second }
        rest := by
  rw [parseLoop_timestamp_minute alayout avalue tail (n + 1) hv rest,
    parseLoop_step _ _ _ (chunk_second tail) (skip_one ':' (by decide) _)
      (switchStd_zeroSecond hv.2.2.2.2.2.2.2 _ _ _ hrest)]

/-- With no layout left, a value that is not used up is an error. -/
theorem parseLoop_nil_rest (alayout avalue : GoString) (fuel : Nat) (f : Fields)
    {value : List Char} (h : value ≠ []) :
    ∃ e, parseLoop alayout avalue (fuel + 1) [] f value = some (.error e) := by
  have hlen : value.length ≠ 0 := fun h0 => h (List.length_eq_zero.1 h0)
  simp only [parseLoop, chunk_none, skip_nil]
  rw [if_pos hlen]
  exact ⟨_, rfl⟩

/-- When the last layout element leaves some of the value, `parse` returns an
error. -/
theorem parseLoop_last_rest (alayout avalue : GoString) (fuel : Nat)
    {layout pre value v₁ : List Char} {std : Std} {f : Fields}
    (hc : nextStdChunk layout = (pre, some std, []))
    (hs : skip value pre = (v₁, none))
    (hv : (switchStd std [] f v₁).value ≠ []) :
    ∃ e, parseLoop alayout avalue (fuel + 2) layout f value = some (.error e) := by
  rw [parseLoop]
  simp only [hc, hs]
  split
  · exact ⟨_, rfl⟩
  · split
    · exact ⟨_, rfl⟩
    · exact parseLoop_nil_rest alayout avalue fuel _ hv

/-- What the seconds leave of the value at the end of the layout: the text
after them, less the fraction that it starts with, if it starts with one. -/
theorem switchStd_zeroSecond_value {n : Nat} (h₂ : n ≤ 59) (rest : List Char) (f : Fields) :
    (switchStd .stdZeroSecond [] f (pad2 n ++ rest)).value =
      if 2 ≤ rest.length ∧ commaOrPeriod (charAt rest 0) = true ∧ isDigit rest 1 = true then
        rest.drop (fracLen rest)
      else rest := by
  have hr : ¬ ((n : ℤ) < 0 ∨ 60 ≤ (n : ℤ)) := by omega
  simp only [switchStd, getnum_pad2 (by omega : n ≤ 99), hr, if_false, ne_eq,
    not_true_eq_false, nextIsFrac_nil, Bool.false_eq_true]
  split <;> rfl

/-- The layout without zone rejects a well-formed timestamp followed by a text
that is not just a fraction of a second. -/
theorem parseLoop_withoutZone_rest (alayout avalue : GoString)
    {year month day hour minute second : Nat}
    (hv : ValidTimestamp year month day hour minute second) (rest : List Char)
    (h₁ : (if 2 ≤ rest.length ∧ charAt rest 0 = '.' ∧ isDigit rest 1 = true then
        rest.drop (fracLen rest) else rest) ≠ [])
    (h₂ : charAt (if 2 ≤ rest.length ∧ charAt rest 0 = '.' ∧ isDigit rest 1 = true then
        rest.drop (fracLen rest) else rest) 0 ≠ ',') :
    ∃ e, parseLoop alayout avalue 20 "2006-01-02T15:04:05".data {}
      (timestampText year month day hour minute second ++ rest) = some (.error e) := by
  have hcomma : charAt rest 0 ≠ ',' := by
    intro hc
    rw [if_neg (by rw [hc]; simp)] at h₂
    exact h₂ hc
  have hcond : (2 ≤ rest.length ∧ commaOrPeriod (charAt rest 0) = true ∧
      isDigit rest 1 = true) ↔ (2 ≤ rest.length ∧ charAt rest 0 = '.' ∧ isDigit rest 1 = true) := by
    simp [commaOrPeriod, hcomma]
  have h : parseLoop alayout avalue (15 + 5) "2006-01-02T15:04:05".data {}
        (timestampText year month day hour minute second ++ rest) =
      parseLoop alayout avalue 15 ":05".data
        { year := year, month := month, day := day, hour := hour, min := minute }
        (':' :: (pad2 second ++ rest)) :=
    parseLoop_timestamp_minute alayout avalue "" 15 hv rest
  rw [show (20 : Nat) = 15 + 5 from rfl, h]
  have hc : nextStdChunk ":05".data = ([':'], some .stdZeroSecond, []) := chunk_second ""
  refine parseLoop_last_rest alayout avalue 13 hc (skip_one ':' (by decide) _) ?_
  rw [switchStd_zeroSecond_value hv.2.2.2.2.2.2.2]
  simp only [hcond]
  exact h₁

/-- The parser's table of month lengths is the calendar's. -/
theorem daysIn_eq_calendarDays {year month : Nat} (h₁ : 1 ≤ month) (h₂ : month ≤ 12) :
    daysIn month year = calendarDays year month := by
  have h4 : ((year : ℤ) % 4 = 0) ↔ year % 4 = 0 := by omega
  have h100 : ((year : ℤ) % 100 = 0) ↔ year % 100 = 0 := by omega
  have h400 : ((year : ℤ) % 400 = 0) ↔ year % 400 = 0 := by omega
  unfold daysIn calendarDays isLeap
  interval_cases month <;> simp [daysBefore, h4, h100, h400]

end time

/-- The parser counts bytes: a fraction element of eleven digits takes twelve
bytes of the value, of which it reads ten, and the two bytes of `é` are the
last two; with ten digits in the layout one of them is left over. -/
theorem IsTime_counts_bytes :
    IsTime ".123456789é" ".00000000000" = true ∧
      IsTime ".123456789é" ".0000000000" = false := by
  decide

/-- The bytes of the layout `RF3339WithoutZone` are its characters. -/
theorem bytesOf_RF3339WithoutZone : bytesOf RF3339WithoutZone = RF3339WithoutZone.data := by
  decide

/-- The bytes of the layout `RFC3339` are its characters. -/
theorem bytesOf_RFC3339 : bytesOf time.RFC3339 = time.RFC3339.data := by decide

theorem digitChar_ascii {d : Nat} (hd : d < 10) : (digitChar d).toNat < 128 := by
  rw [digitChar_toNat hd]
  omega

/-- The text of a timestamp is made of ASCII characters. -/
theorem timestampText_ascii (year month day hour minute second : Nat) :
    ∀ c ∈ timestampText year month day hour minute second, c.toNat < 128 := by
  intro c hc
  simp only [timestampText, pad4, pad2, List.cons_append, List.nil_append, List.mem_cons,
    List.mem_singleton, List.not_mem_nil, or_false] at hc
  repeat' (rcases hc with rfl | hc)
  all_goals first
    | exact digitChar_ascii (Nat.mod_lt _ (by decide))
    | decide
    | (rw [hc]; exact digitChar_ascii (Nat.mod_lt _ (by decide)))

theorem IsTime_withoutZone_timestamp {year month day hour minute second : Nat}
    (hv : ValidTimestamp year month day hour minute second) :
    IsTime (String.mk (timestampText year month day hour minute second)) RF3339WithoutZone =
      true := by
  have hl : time.parseLoop RF3339WithoutZone
      (String.mk (timestampText year month day hour minute second))
      ((bytesOf RF3339WithoutZone).length + 1) (bytesOf RF3339WithoutZone) {}
      (bytesOf (String.mk (timestampText year month day hour minute second))) =
        some (.ok
          ({ year := year, month := month, day := day, hour := hour, min := minute,
             sec := second }, [])) := by
    rw [bytesOf_RF3339WithoutZone, bytesOf_ascii (timestampText_ascii _ _ _ _ _ _)]
    have h := time.parseLoop_timestamp RF3339WithoutZone
      (String.mk (timestampText year month day hour minute second)) "" 14 hv [] (by simp)
    rw [List.append_nil] at h
    exact h.trans (time.parseLoop_end _ _ 13 time.chunk_none (time.skip_nil []))
  obtain ⟨t, ht⟩ := time.parse_of_loop .UTC hl rfl
    (by show (0 : ℤ) ≤ (month : ℤ); omega)
    (by have := hv.2.2.2.1; show (1 : ℤ) ≤ (day : ℤ); omega)
    (by show (day : ℤ) ≤ time.daysIn (month : ℤ) (year : ℤ)
        rw [time.daysIn_eq_calendarDays hv.2.1 hv.2.2.1]
        exact_mod_cast hv.2.2.2.2.1)
  exact IsTime_of_parse ht

theorem IsTime_RFC3339_timestamp_Z {year month day hour minute second : Nat}
    (hv : ValidTimestamp year month day hour minute second) :
    IsTime (String.mk (timestampText year month day hour minute second ++ ['Z'])) time.RFC3339 =
      true := by
  have hascii : ∀ c ∈ timestampText year month day hour minute second ++ ['Z'],
      c.toNat < 128 := by
    intro c hc
    rcases List.mem_append.1 hc with hc | hc
    · exact timestampText_ascii _ _ _ _ _ _ c hc
    · rw [List.mem_singleton.1 hc]
      decide
  have hl : time.parseLoop time.RFC3339
      (String.mk (timestampText year month day hour minute second ++ ['Z']))
      ((bytesOf time.RFC3339).length + 1) (bytesOf time.RFC3339) {}
      (bytesOf (String.mk (timestampText year month day hour minute second ++ ['Z']))) =
        some (.ok
          ({ year := year, month := month, day := day, hour := hour, min := minute,
             sec := second, z := some .UTC }, [])) := by
    rw [bytesOf_RFC3339, bytesOf_ascii hascii]
    have h := time.parseLoop_timestamp time.RFC3339
      (String.mk (timestampText year month day hour minute second ++ ['Z'])) "Z07:00" 20 hv ['Z']
      (by simp [time.commaOrPeriod, time.charAt])
    refine h.trans ?_
    rw [time.parseLoop_step _ _ 19 time.chunk_zone (time.skip_nil ['Z'])
      (time.switchStd_zone_Z _)]
    exact time.parseLoop_end _ _ 18 time.chunk_none (time.skip_nil [])
  obtain ⟨t, ht⟩ := time.parse_of_loop .UTC hl rfl
    (by show (0 : ℤ) ≤ (month : ℤ); omega)
    (by have := hv.2.2.2.1; show (1 : ℤ) ≤ (day : ℤ); omega)
    (by show (day : ℤ) ≤ time.daysIn (month : ℤ) (year : ℤ)
        rw [time.daysIn_eq_calendarDays hv.2.1 hv.2.2.1]
        exact_mod_cast hv.2.2.2.2.1)
  exact IsTime_of_parse ht

/-! ## The fast path of `time.Parse` -/

theorem digitChar_sub {c : Char} (h : isDigitChar c = true) : digitChar (c.toNat - 48) = c := by
  simp only [isDigitChar, Bool.and_eq_true, decide_eq_true_eq] at h
  unfold digitChar
  rw [show 48 + (c.toNat - 48) = c.toNat by omega]
  exact Char.ofNat_toNat c

namespace time

theorem parseUintLoop_step {x : ℤ} {c : Char} {s : List Char} {r : ℤ}
    (h : parseUintLoop x (c :: s) = some r) :
    isDigitChar c = true ∧ parseUintLoop (x * 10 + ((c.toNat - 48 : Nat) : ℤ)) s = some r := by
  rw [parseUintLoop] at h
  split at h
  · cases h
  · next hc =>
    have hc' : 48 ≤ c.toNat ∧ c.toNat ≤ 57 := by
      have h0 : '0'.toNat = 48 := rfl
      have h9 : '9'.toNat = 57 := rfl
      rw [h0, h9] at hc
      omega
    refine ⟨by simp [isDigitChar, hc'], ?_⟩
    have hv : digitVal c = ((c.toNat - 48 : Nat) : ℤ) := by
      unfold digitVal
      omega
    rw [← hv]
    exact h

/-- A two-character text that `parseUint` reads is a number written with two
digits, within the bounds. -/
theorem parseUint_two {a b : Char} {lo hi : ℤ} (h : (parseUint [a, b] lo hi).2 = true) :
    ∃ n : Nat, n ≤ 99 ∧ [a, b] = pad2 n ∧ (parseUint [a, b] lo hi).1 = n ∧ lo ≤ n ∧
      (n : ℤ) ≤ hi := by
  unfold parseUint at h ⊢
  split at h
  · cases h
  · next x hx =>
    obtain ⟨ha, hx⟩ := parseUintLoop_step hx
    obtain ⟨hb, hx⟩ := parseUintLoop_step hx
    simp only [parseUintLoop, Option.some.injEq] at hx
    have ha' := ha
    have hb' := hb
    simp only [isDigitChar, Bool.and_eq_true, decide_eq_true_eq] at ha' hb'
    split at h
    · cases h
    · next hr =>
      refine ⟨(a.toNat - 48) * 10 + (b.toNat - 48), by omega, ?_, ?_, ?_, ?_⟩
      · unfold pad2
        rw [show ((a.toNat - 48) * 10 + (b.toNat - 48)) / 10 % 10 = a.toNat - 48 by omega,
          show ((a.toNat - 48) * 10 + (b.toNat - 48)) % 10 = b.toNat - 48 by omega,
          digitChar_sub ha, digitChar_sub hb]
      · rw [if_neg hr]
        show x = _
        rw [← hx]; push_cast; ring
      · rw [← hx] at hr; push_cast at hr ⊢; omega
      · rw [← hx] at hr; push_cast at hr ⊢; omega

/-- A four-character text that `parseUint` reads is a number written with four
digits, within the bounds. -/
theorem parseUint_four {a b c d : Char} {lo hi : ℤ}
    (h : (parseUint [a, b, c, d] lo hi).2 = true) :
    ∃ n : Nat, n ≤ 9999 ∧ [a, b, c, d] = pad4 n ∧ (parseUint [a, b, c, d] lo hi).1 = n ∧
      lo ≤ n ∧ (n : ℤ) ≤ hi := by
  unfold parseUint at h ⊢
  split at h
  · cases h
  · next x hx =>
    obtain ⟨ha, hx⟩ := parseUintLoop_step hx
    obtain ⟨hb, hx⟩ := parseUintLoop_step hx
    obtain ⟨hc, hx⟩ := parseUintLoop_step hx
    obtain ⟨hd, hx⟩ := parseUintLoop_step hx
    simp only [parseUintLoop, Option.some.injEq] at hx
    have ha' := ha
    have hb' := hb
    have hc' := hc
    have hd' := hd
    simp only [isDigitChar, Bool.and_eq_true, decide_eq_true_eq] at ha' hb' hc' hd'
    split at h
    · cases h
    · next hr =>
      refine ⟨(a.toNat - 48) * 1000 + (b.toNat - 48) * 100 + (c.toNat - 48) * 10 +
        (d.toNat - 48), by omega, ?_, ?_, ?_, ?_⟩
      · unfold pad4
        rw [show ((a.toNat - 48) * 1000 + (b.toNat - 48) * 100 + (c.toNat - 48) * 10 +
              (d.toNat - 48)) / 1000 % 10 = a.toNat - 48 by omega,
          show ((a.toNat - 48) * 1000 + (b.toNat - 48) * 100 + (c.toNat - 48) * 10 +
              (d.toNat - 48)) / 100 % 10 = b.toNat - 48 by omega,
          show ((a.toNat - 48) * 1000 + (b.toNat - 48) * 100 + (c.toNat - 48) * 10 +
              (d.toNat - 48)) / 10 % 10 = c.toNat - 48 by omega,
          show ((a.toNat - 48) * 1000 + (b.toNat - 48) * 100 + (c.toNat - 48) * 10 +
              (d.toNat - 48)) % 10 = d.toNat - 48 by omega,
          digitChar_sub ha, digitChar_sub hb, digitChar_sub hc, digitChar_sub hd]
      · rw [if_neg hr]
        show x = _
        rw [← hx]; push_cast; ring
      · rw [← hx] at hr; push_cast at hr ⊢; omega
      · rw [← hx] at hr; push_cast at hr ⊢; omega

end time

namespace time

/-- A text of at least 19 characters, character by character. -/
theorem exists_nineteen {s : List Char} (h : ¬ s.length < 19) :
    ∃ (c0 c1 c2 c3 c4 c5 c6 c7 c8 c9 c10 c11 c12 c13 c14 c15 c16 c17 c18 : Char)
      (rest : List Char),
      s = c0 :: c1 :: c2 :: c3 :: c4 :: c5 :: c6 :: c7 :: c8 :: c9 :: c10 :: c11 :: c12 ::
        c13 :: c14 :: c15 :: c16 :: c17 :: c18 :: rest := by
  rcases s with _ | ⟨c0, s⟩
  · simp at h
  rcases s with _ | ⟨c1, s⟩
  · simp at h
  rcases s with _ | ⟨c2, s⟩
  · simp at h
  rcases s with _ | ⟨c3, s⟩
  · simp at h
  rcases s with _ | ⟨c4, s⟩
  · simp at h
  rcases s with _ | ⟨c5, s⟩
  · simp at h
  rcases s with _ | ⟨c6, s⟩
  · simp at h
  rcases s with _ | ⟨c7, s⟩
  · simp at h
  rcases s with _ | ⟨c8, s⟩
  · simp at h
  rcases s with _ | ⟨c9, s⟩
  · simp at h
  rcases s with _ | ⟨c10, s⟩
  · simp at h
  rcases s with _ | ⟨c11, s⟩
  · simp at h
  rcases s with _ | ⟨c12, s⟩
  · simp at h
  rcases s with _ | ⟨c13, s⟩
  · simp at h
  rcases s with _ | ⟨c14, s⟩
  · simp at h
  rcases s with _ | ⟨c15, s⟩
  · simp at h
  rcases s with _ | ⟨c16, s⟩
  · simp at h
  rcases s with _ | ⟨c17, s⟩
  · simp at h
  rcases s with _ | ⟨c18, s⟩
  · simp at h
  exact ⟨c0, c1, c2, c3, c4, c5, c6, c7, c8, c9, c10, c11, c12, c13, c14, c15, c16, c17, c18, s, rfl⟩

/-- What `parseRFC3339` reads starts with a well-formed timestamp, and what
follows the timestamp and its fraction, if a period starts one, is not empty
and does not start with a comma. -/
theorem parseRFC3339_some {s : List Char} {t : Time} (h : parseRFC3339 s = some t) :
    ∃ (year month day hour minute second : Nat) (rest : List Char),
      ValidTimestamp year month day hour minute second ∧
      s = timestampText year month day hour minute second ++ rest ∧
      (if 2 ≤ rest.length ∧ charAt rest 0 = '.' ∧ isDigit rest 1 = true then
        rest.drop (fracLen rest) else rest) ≠ [] ∧
      charAt (if 2 ≤ rest.length ∧ charAt rest 0 = '.' ∧ isDigit rest 1 = true then
        rest.drop (fracLen rest) else rest) 0 ≠ ',' := by
  unfold parseRFC3339 at h
  split at h
  · cases h
  next hlen =>
  obtain ⟨c0, c1, c2, c3, c4, c5, c6, c7, c8, c9, c10, c11, c12, c13, c14, c15, c16, c17, c18,
    rest, rfl⟩ := exists_nineteen hlen
  simp only [List.take_succ_cons, List.take_zero, List.drop_succ_cons, List.drop_zero, charAt,
    List.getD_cons_succ, List.getD_cons_zero] at h
  split at h
  · cases h
  next hok =>
  simp only [not_or, not_not, Bool.and_eq_true, Bool.not_eq_false] at hok
  obtain ⟨⟨⟨⟨⟨⟨hy, hm⟩, hd⟩, hh⟩, hmi⟩, hs⟩, rfl, rfl, rfl, rfl, rfl⟩ := hok
  obtain ⟨year, hy₁, hy₂, hy₃, -, -⟩ := parseUint_four hy
  obtain ⟨month, hm₁, hm₂, hm₃, hm₄, hm₅⟩ := parseUint_two hm
  obtain ⟨day, hd₁, hd₂, hd₃, hd₄, hd₅⟩ := parseUint_two hd
  obtain ⟨hour, hh₁, hh₂, hh₃, -, hh₅⟩ := parseUint_two hh
  obtain ⟨minute, hmi₁, hmi₂, hmi₃, -, hmi₅⟩ := parseUint_two hmi
  obtain ⟨second, hs₁, hs₂, hs₃, -, hs₅⟩ := parseUint_two hs
  rw [hm₃, hy₃] at hd₅
  have hm₆ : 1 ≤ month := by omega
  have hm₇ : month ≤ 12 := by omega
  rw [daysIn_eq_calendarDays hm₆ hm₇] at hd₅
  refine ⟨year, month, day, hour, minute, second, rest,
    ⟨hy₁, hm₆, hm₇, by omega, by exact_mod_cast hd₅, by omega, by omega, by omega⟩, ?_, ?_⟩
  · have e₁ : ∀ (a b c d : Char) (l : List Char), a :: b :: c :: d :: l = [a, b, c, d] ++ l :=
      fun _ _ _ _ _ => rfl
    have e₂ : ∀ (a b : Char) (l : List Char), a :: b :: l = [a, b] ++ l := fun _ _ _ => rfl
    unfold timestampText
    rw [← hy₂, ← hm₂, ← hd₂, ← hh₂, ← hmi₂, ← hs₂]
    rfl
  · simp only [decide_eq_true_eq] at h
    simp only [charAt]
    generalize (if 2 ≤ rest.length ∧ rest.getD 0 ' ' = '.' ∧ isDigit rest 1 = true then
      rest.drop (fracLen rest) else rest) = R at h ⊢
    have key : R.length = 6 ∧ (R.getD 0 ' ' = '-' ∨ R.getD 0 ' ' = '+') ∨
        R.length = 1 ∧ R.getD 0 ' ' = 'Z' := by
      split at h
      · split at h
        · cases h
        · next h6 =>
          split at h
          · cases h
          · next hc =>
            simp only [not_or, not_not] at hc h6
            exact Or.inl ⟨h6, hc.2.1⟩
      · next hz =>
        simp only [not_or, not_not, ne_eq] at hz
        exact Or.inr hz
    rcases key with ⟨hl, hc⟩ | ⟨hl, hc⟩
    · refine ⟨fun hnil => by simp [hnil] at hl, ?_⟩
      rcases hc with hc | hc <;> rw [hc] <;> decide
    · refine ⟨fun hnil => by simp [hnil] at hl, ?_⟩
      rw [hc]
      decide

end time

/-! ## The timestamp rules -/

/-- A value that the layout without zone accepts is rejected by the layout
`RFC3339`.  `parseRFC3339` does not read it: what it reads continues after the
seconds and their fraction, with a `Z` or an offset, which the layout without
zone does not accept.  Nor does `parse`: reading the six common elements uses
up the value, and the offset element finds nothing to read. -/
theorem IsTime_RFC3339_of_withoutZone (s : GoString)
    (h : IsTime s RF3339WithoutZone = true) : IsTime s time.RFC3339 = false := by
  obtain ⟨t, ht⟩ := parse_of_IsTime (by decide) (by decide) h
  obtain ⟨f, rest, hloop⟩ := time.loop_of_parse ht
  rw [bytesOf_RF3339WithoutZone] at hloop
  have hfast : time.parseRFC3339 (bytesOf s) = none := by
    cases hp : time.parseRFC3339 (bytesOf s) with
    | none => rfl
    | some t' =>
      obtain ⟨year, month, day, hour, minute, second, rest', hv, hs, h₁, h₂⟩ :=
        time.parseRFC3339_some hp
      obtain ⟨e, he⟩ := time.parseLoop_withoutZone_rest RF3339WithoutZone s hv rest' h₁ h₂
      rw [← hs] at he
      have hne : (some (.ok (f, rest)) : Option (Except time.ParseError _)) =
          some (.error e) := hloop.symm.trans he
      cases hne
  have hloop' : time.parseLoop RF3339WithoutZone s (14 + 6)
      ("2006-01-02T15:04:05".data ++ ("" : GoString).data) {} (bytesOf s) =
        some (.ok (f, rest)) :=
    hloop
  obtain ⟨f₆, v₆, hend, hsame⟩ := time.parseLoop_common time.nextIsFrac_nil hloop'
  have hv : v₆ = [] := by
    have := (time.parseLoop_ok_end 13 time.chunk_none hend).1
    rw [time.skip_nil] at this
    exact congrArg Prod.fst this
  subst hv
  have hrfc := hsame time.RFC3339 s "Z07:00" 20 time.nextIsFrac_zone
  obtain ⟨e, he⟩ := time.parseLoop_step_err time.RFC3339 s 19
    time.chunk_zone (time.skip_nil []) (time.switchStd_zone_nil f₆)
  have hfin : time.parseLoop time.RFC3339 s ((bytesOf time.RFC3339).length + 1)
      (bytesOf time.RFC3339) {} (bytesOf s) = some (.error e) := by
    rw [bytesOf_RFC3339]
    exact hrfc.trans he
  exact IsTime_eq_false hfast (time.parse_of_loop_error .UTC hfin)

/-- C7: for every string `s`, `IsDatetime` on a field holding `s` equals
`IsRFC3339` or `IsRFC3339WithoutZone` on it; `"garbage"`, which both reject, is
rejected. -/
theorem IsDatetime_eq_union :
    (∀ s : GoString,
        IsDatetime (stringField s) =
          (IsRFC3339 (stringField s) || IsRFC3339WithoutZone (stringField s))) ∧
      IsRFC3339 (stringField "garbage") = false ∧
      IsRFC3339WithoutZone (stringField "garbage") = false ∧
      IsDatetime (stringField "garbage") = false :=
  ⟨fun _ => rfl, by decide, by decide, by decide⟩

/-- C8: the text `YYYY-MM-DDTHH:MM:SS` of every timestamp with year 0000-9999,
month 01-12, a day valid for that month and year, hour 00-23, minute 00-59 and
second 00-59 is accepted by `IsRFC3339WithoutZone`, the text followed by `Z` is
accepted by `IsRFC3339`, and `IsDatetime` accepts both. -/
theorem valid_timestamp_accepted (year month day hour minute second : Nat)
    (hv : ValidTimestamp year month day hour minute second) :
    IsRFC3339WithoutZone
        (stringField (String.mk (timestampText year month day hour minute second))) = true ∧
      IsRFC3339
        (stringField (String.mk (timestampText year month day hour minute second ++ ['Z']))) =
          true ∧
      IsDatetime
        (stringField (String.mk (timestampText year month day hour minute second))) = true ∧
      IsDatetime
        (stringField (String.mk (timestampText year month day hour minute second ++ ['Z']))) =
          true := by
  have h₁ := IsTime_withoutZone_timestamp hv
  have h₂ := IsTime_RFC3339_timestamp_Z hv
  refine ⟨h₁, h₂, ?_, ?_⟩
  · show (IsTime (String.mk (timestampText year month day hour minute second)) time.RFC3339 ||
      IsTime (String.mk (timestampText year month day hour minute second)) RF3339WithoutZone) =
        true
    rw [h₁, Bool.or_true]
  · show (IsTime (String.mk (timestampText year month day hour minute second ++ ['Z']))
        time.RFC3339 ||
      IsTime (String.mk (timestampText year month day hour minute second ++ ['Z']))
        RF3339WithoutZone) = true
    rw [h₂, Bool.true_or]

/-- C8 at the timestamp 2024-01-15 10:30:00: `"2024-01-15T10:30:00"` and
`"2024-01-15T10:30:00Z"`. -/
theorem valid_timestamp_accepted_witness :
    IsRFC3339WithoutZone (stringField "2024-01-15T10:30:00") = true ∧
      IsRFC3339 (stringField "2024-01-15T10:30:00Z") = true ∧
      IsDatetime (stringField "2024-01-15T10:30:00") = true ∧
      IsDatetime (stringField "2024-01-15T10:30:00Z") = true :=
  valid_timestamp_accepted 2024 1 15 10 30 0 (by unfold ValidTimestamp calendarDays; decide)

/-- C9: every string that `IsRFC3339WithoutZone` accepts is rejected by
`IsRFC3339`. -/
theorem rfc3339_rejects_missing_zone (s : GoString)
    (h : IsRFC3339WithoutZone (stringField s) = true) : IsRFC3339 (stringField s) = false :=
  IsTime_RFC3339_of_withoutZone s h

/-- C9 at `"2024-01-15T10:30:00"`: accepted without zone, rejected by
`IsRFC3339`. -/
theorem rfc3339_rejects_missing_zone_witness :
    IsRFC3339WithoutZone (stringField "2024-01-15T10:30:00") = true ∧
      IsRFC3339 (stringField "2024-01-15T10:30:00") = false :=
  ⟨by decide, rfc3339_rejects_missing_zone "2024-01-15T10:30:00" (by decide)⟩

/-! ## No fault stops the predicates -/

namespace Run

theorem ok_bind {α β : Type} (a : α) (f : α → Run β) : (Except.ok a >>= f) = f a := rfl

theorem pure_eq_ok {α : Type} (a : α) : (pure a : Run α) = .ok a := rfl

theorem index_eq {α : Type} {s : List α} {i : Nat} (h : i < s.length) (d : α) :
    index s i = .ok (s.getD i d) := by
  unfold index
  rw [List.getD_eq_getElem?_getD, List.get?_eq_getElem?, List.getElem?_eq_getElem h]
  rfl

theorem sliceFrom_eq {α : Type} {s : List α} {i : Nat} (h : i ≤ s.length) :
    sliceFrom s i = .ok (s.drop i) := by
  unfold sliceFrom
  rw [if_pos h]

theorem slice_eq {α : Type} {s : List α} {i j : Nat} (h : i ≤ j) (h' : j ≤ s.length) :
    slice s i j = .ok ((s.take j).drop i) := by
  unfold slice
  rw [if_pos ⟨h, h'⟩]

theorem and_ok (a : Bool) (b : Run Bool) : Run.and (.ok a) b = if a = true then b else .ok false :=
  rfl

theorem or_ok (a : Bool) (b : Run Bool) : Run.or (.ok a) b = if a = true then .ok true else b :=
  rfl

/-- A conjunction whose right operand returns when the left one is true. -/
theorem and_eq {a c : Bool} {b : Run Bool} (h : a = true → b = .ok c) :
    Run.and (.ok a) b = .ok (a && c) := by
  rw [and_ok]
  cases a with
  | false => rfl
  | true => simpa using h rfl

/-- A disjunction whose right operand returns when the left one is false. -/
theorem or_eq {a c : Bool} {b : Run Bool} (h : a = false → b = .ok c) :
    Run.or (.ok a) b = .ok (a || c) := by
  rw [or_ok]
  cases a with
  | true => rfl
  | false => simpa using h rfl

theorem test_eq {s : List Char} {i : Nat} (h : i < s.length) (p : Char → Bool) :
    test s i p = .ok (p (s.getD i ' ')) := by
  unfold test
  rw [index_eq h ' ']
  rfl

end Run

theorem run_isDigit (s : List Char) (i : Nat) :
    Run.time.isDigit s i = .ok (time.isDigit s i) := by
  unfold Run.time.isDigit time.isDigit
  split
  · next h =>
    rw [List.get?_eq_none.2 h]
    rfl
  · next h =>
    rw [Run.test_eq (by omega), List.getD_eq_getElem?_getD, List.get?_eq_getElem?,
      List.getElem?_eq_getElem (by omega)]
    rfl

theorem time.isDigit_lt {s : List Char} {i : Nat} (h : time.isDigit s i = true) :
    i < s.length := by
  by_contra hn
  unfold time.isDigit at h
  rw [List.get?_eq_none.2 (by omega)] at h
  cases h

theorem run_startsWithLowerCase (str : List Char) :
    Run.time.startsWithLowerCase str = .ok (time.startsWithLowerCase str) := by
  unfold Run.time.startsWithLowerCase time.startsWithLowerCase
  cases str with
  | nil => rfl
  | cons c t => rfl

theorem time.hasPrefix_iff (lit : GoString) (layout : List Char) :
    time.hasPrefix lit layout = true ↔
      lit.data.length ≤ layout.length ∧ layout.take lit.data.length = lit.data := by
  unfold time.hasPrefix
  rw [List.isPrefixOf_iff_prefix, List.prefix_iff_eq_take]
  constructor
  · intro h
    refine ⟨?_, h.symm⟩
    have := congrArg List.length h
    rw [List.length_take] at this
    omega
  · intro h
    exact h.2.symm

theorem time.hasPrefix_le {lit : GoString} {layout : List Char}
    (h : time.hasPrefix lit layout = true) : lit.data.length ≤ layout.length :=
  ((time.hasPrefix_iff lit layout).1 h).1

theorem run_hasPrefix (lit : GoString) (layout : List Char) :
    Run.time.hasPrefix lit layout = .ok (time.hasPrefix lit layout) := by
  unfold Run.time.hasPrefix
  rw [Run.pure_eq_ok, Run.and_eq (c := decide (layout.take lit.data.length = lit.data))]
  · congr 1
    rw [Bool.eq_iff_iff]
    simp only [Bool.and_eq_true, decide_eq_true_eq]
    exact (time.hasPrefix_iff lit layout).symm
  · intro h
    rw [Run.slice_eq (Nat.zero_le _) (by simpa using h)]
    rfl

theorem run_chunk (std : time.Std) {k : Nat} {layout : List Char}
    (h : k ≤ layout.length) :
    Run.time.chunk std k layout = .ok (time.chunk std k layout) := by
  unfold Run.time.chunk
  rw [Run.sliceFrom_eq h]
  rfl

theorem run_stdAtJ (layout : List Char) :
    Run.time.stdAtJ layout = .ok (time.stdAtJ layout) := by
  unfold Run.time.stdAtJ time.stdAtJ
  simp only [run_hasPrefix, Run.ok_bind]
  split
  · next h =>
    have h3 : 3 ≤ layout.length := time.hasPrefix_le h
    split
    · next h' => exact run_chunk _ (time.hasPrefix_le h')
    · simp only [Run.sliceFrom_eq h3, run_startsWithLowerCase, Run.ok_bind]
      split
      · exact run_chunk _ h3
      · rfl
  · rfl

theorem run_stdAtM (layout : List Char) :
    Run.time.stdAtM layout = .ok (time.stdAtM layout) := by
  unfold Run.time.stdAtM time.stdAtM
  split
  · next h3 =>
    simp only [run_hasPrefix, Run.ok_bind, Run.sliceFrom_eq h3, run_startsWithLowerCase,
      Run.pure_eq_ok, Run.and_ok]
    by_cases hMon : time.hasPrefix "Mon" layout = true
    · simp only [hMon, if_true, Run.ok_bind, Bool.true_and]
      split
      · next h' => exact run_chunk _ (time.hasPrefix_le h')
      · split
        · exact run_chunk _ h3
        · split
          · exact run_chunk _ h3
          · rfl
    · simp only [hMon, if_false, Run.ok_bind, Bool.false_and, Bool.false_eq_true]
      split
      · exact run_chunk _ h3
      · rfl
  · rfl


/-- A test of `s[i]` behind a guard that puts `i` in range. -/
theorem Run.and_test {g : Bool} {s : List Char} {i : Nat} (p : Char → Bool)
    (h : g = true → i < s.length) :
    Run.and (pure g) (Run.test s i p) = .ok (g && p (s.getD i ' ')) :=
  Run.and_eq fun hg => Run.test_eq (h hg) p

/-- Two tests behind a guard that puts both indices in range. -/
theorem Run.and_test_test {g : Bool} {s : List Char} {i j : Nat} (p q : Char → Bool)
    (h : g = true → i < s.length ∧ j < s.length) :
    Run.and (pure g) (Run.and (Run.test s i p) (Run.test s j q)) =
      .ok (g && (p (s.getD i ' ') && q (s.getD j ' '))) :=
  Run.and_eq fun hg => by
    rw [Run.test_eq (h hg).1, Run.test_eq (h hg).2]
    exact Run.and_eq fun _ => rfl

theorem run_std0x {c : Char} (h₁ : '1'.toNat ≤ c.toNat) (h₂ : c.toNat ≤ '6'.toNat) :
    Run.time.std0x (c.toNat - '1'.toNat) = .ok (time.std0x c) := by
  have h1 : '1'.toNat = 49 := rfl
  have h6 : '6'.toNat = 54 := rfl
  rw [h1] at h₁ ⊢
  rw [h6] at h₂
  have hc : c = Char.ofNat c.toNat := (Char.ofNat_toNat c).symm
  have : c.toNat = 49 ∨ c.toNat = 50 ∨ c.toNat = 51 ∨ c.toNat = 52 ∨ c.toNat = 53 ∨
      c.toNat = 54 := by omega
  rcases this with h | h | h | h | h | h <;> rw [h] at hc <;> subst hc <;> rfl

theorem run_stdAt0 (layout : List Char) :
    Run.time.stdAt0 layout = .ok (time.stdAt0 layout) := by
  unfold Run.time.stdAt0 time.stdAt0
  rw [Run.and_test _ (fun h => by have := of_decide_eq_true h; omega),
    Run.and_test_test _ _ (fun h => by have := of_decide_eq_true h; omega)]
  simp only [Run.ok_bind, Bool.and_eq_true, decide_eq_true_eq]
  split
  · next h =>
    rw [Run.index_eq (by omega) ' ', Run.ok_bind, run_std0x h.2.1 h.2.2, Run.ok_bind]
    exact run_chunk _ h.1
  · split
    · next h => exact run_chunk _ h.1
    · rfl

theorem run_stdAtUnderscore (layout : List Char) :
    Run.time.stdAtUnderscore layout = .ok (time.stdAtUnderscore layout) := by
  unfold Run.time.stdAtUnderscore time.stdAtUnderscore
  rw [Run.and_test _ (fun h => by have := of_decide_eq_true h; omega),
    Run.and_test_test _ _ (fun h => by have := of_decide_eq_true h; omega)]
  simp only [Run.ok_bind, Bool.and_eq_true, decide_eq_true_eq, run_hasPrefix]
  split
  · next h =>
    split
    · next h' =>
      have h5 : 5 ≤ layout.length := time.hasPrefix_le h'
      have h0 : layout.take 1 = ['_'] := by
        have := ((time.hasPrefix_iff _ _).1 h').2
        have h1 := congrArg (List.take 1) this
        rw [List.take_take] at h1
        exact h1
      rw [Run.slice_eq (by omega) (by omega), Run.sliceFrom_eq h5]
      simp only [Run.ok_bind, List.drop_zero, h0]
      rfl
    · exact run_chunk _ h.1
  · split
    · next h => exact run_chunk _ h.1
    · rfl

theorem run_stdAtMinus (layout : List Char) :
    Run.time.stdAtMinus layout = .ok (time.stdAtMinus layout) := by
  unfold Run.time.stdAtMinus time.stdAtMinus
  simp only [run_hasPrefix, Run.ok_bind]
  repeat' split
  all_goals first
    | rfl
    | (next h => exact run_chunk _ (time.hasPrefix_le h))

theorem run_stdAtZ (layout : List Char) :
    Run.time.stdAtZ layout = .ok (time.stdAtZ layout) := by
  unfold Run.time.stdAtZ time.stdAtZ
  simp only [run_hasPrefix, Run.ok_bind]
  repeat' split
  all_goals first
    | rfl
    | (next h => exact run_chunk _ (time.hasPrefix_le h))


theorem run_runEnd (layout : List Char) (ch : Char) :
    ∀ (k j : Nat), layout.length - j < k → j ≤ layout.length →
      Run.time.runEnd layout ch k j =
        .ok (j + ((layout.drop j).takeWhile fun x => decide (x = ch)).length) := by
  intro k
  induction k with
  | zero => intro j h; omega
  | succ k ih =>
    intro j h hj
    unfold Run.time.runEnd
    rw [Run.and_test _ (fun h => of_decide_eq_true h)]
    simp only [Run.ok_bind, Bool.and_eq_true, decide_eq_true_eq]
    by_cases hlt : j < layout.length
    · rw [List.drop_eq_getElem_cons hlt, List.takeWhile_cons]
      have hg : layout.getD j ' ' = layout[j] := by
        rw [List.getD_eq_getElem?_getD, List.getElem?_eq_getElem hlt]
        rfl
      rw [hg]
      by_cases hc : layout[j] = ch
      · rw [if_pos ⟨hlt, hc⟩, ih (j + 1) (by omega) (by omega)]
        simp only [hc, decide_True, if_true, List.length_cons]
        congr 1
        omega
      · rw [if_neg (fun h => hc h.2)]
        simp [hc, Run.pure_eq_ok]
    · have hj' : j = layout.length := by omega
      rw [if_neg (fun h => hlt h.1)]
      subst hj'
      simp [Run.pure_eq_ok]

theorem dropWhile_eq_drop (p : Char → Bool) (l : List Char) :
    l.dropWhile p = l.drop (l.takeWhile p).length := by
  induction l with
  | nil => rfl
  | cons a t ih =>
    rw [List.dropWhile_cons, List.takeWhile_cons]
    split
    · rw [List.length_cons, List.drop_succ_cons]
      exact ih
    · rfl

theorem time.isDigit_drop (s : List Char) (j : Nat) :
    time.isDigit (s.drop j) 0 = time.isDigit s j := by
  unfold time.isDigit
  rw [List.get?_eq_getElem?, List.get?_eq_getElem?, List.getElem?_drop]
  rfl

theorem run_stdAtFrac (c : Char) (layout : List Char) :
    Run.time.stdAtFrac c layout = .ok (time.stdAtFrac c layout) := by
  unfold Run.time.stdAtFrac time.stdAtFrac
  rw [Run.and_test _ (fun h => of_decide_eq_true h)]
  have hg : (layout.drop 1).getD 0 ' ' = layout.getD 1 ' ' := by
    rw [List.getD_eq_getElem?_getD, List.getD_eq_getElem?_getD, List.getElem?_drop]
  simp only [Run.ok_bind, Bool.and_eq_true, Bool.or_eq_true, decide_eq_true_eq, hg,
    List.length_drop]
  by_cases h : 1 < layout.length ∧ (layout.getD 1 ' ' = '0' ∨ layout.getD 1 ' ' = '9')
  · rw [if_pos h, if_pos ⟨by omega, h.2⟩, Run.index_eq h.1 ' ', Run.ok_bind,
      run_runEnd layout _ _ 1 (by omega) (by omega), Run.ok_bind, run_isDigit, Run.ok_bind]
    have hdrop : (layout.drop 1).dropWhile (fun x => decide (x = layout.getD 1 ' ')) =
        layout.drop (1 + ((layout.drop 1).takeWhile
          fun x => decide (x = layout.getD 1 ' ')).length) := by
      rw [← List.drop_drop, dropWhile_eq_drop]
    rw [hdrop, time.isDigit_drop]
    split
    · rw [Run.sliceFrom_eq (by
        have := (List.takeWhile_prefix (fun x => decide (x = layout.getD 1 ' '))
          (l := layout.drop 1)).length_le
        rw [List.length_drop] at this
        omega)]
      simp only [Run.ok_bind, Run.pure_eq_ok, Nat.add_sub_cancel_left]
    · rfl
  · rw [if_neg h, if_neg (fun h' => h ⟨by omega, h'.2⟩)]
    rfl


theorem run_stdAt (c : Char) (rest : List Char) :
    Run.time.stdAt (c :: rest) = .ok (time.stdAt (c :: rest)) := by
  have hlen : ∀ k, k ≤ 1 → k ≤ (c :: rest).length := fun k hk => by
    simp only [List.length_cons]; omega
  rw [time.stdAt_cons]
  unfold Run.time.stdAt
  rw [Run.index_eq (hlen 1 (le_refl 1)) ' ', Run.ok_bind]
  simp only [List.getD_cons_zero]
  by_cases h₁ : c = 'J'
  · rw [if_pos h₁, if_pos h₁]; exact run_stdAtJ _
  rw [if_neg h₁, if_neg h₁]
  by_cases h₂ : c = 'M'
  · rw [if_pos h₂, if_pos h₂]; exact run_stdAtM _
  rw [if_neg h₂, if_neg h₂]
  by_cases h₃ : c = '0'
  · rw [if_pos h₃, if_pos h₃]; exact run_stdAt0 _
  rw [if_neg h₃, if_neg h₃]
  by_cases h₄ : c = '1'
  · rw [if_pos h₄, if_pos h₄, run_hasPrefix, Run.ok_bind]
    split
    · next h => exact run_chunk _ (time.hasPrefix_le h)
    · exact run_chunk _ (hlen 1 (le_refl 1))
  rw [if_neg h₄, if_neg h₄]
  by_cases h₅ : c = '2'
  · rw [if_pos h₅, if_pos h₅, run_hasPrefix, Run.ok_bind]
    split
    · next h => exact run_chunk _ (time.hasPrefix_le h)
    · exact run_chunk _ (hlen 1 (le_refl 1))
  rw [if_neg h₅, if_neg h₅]
  by_cases h₆ : c = '_'
  · rw [if_pos h₆, if_pos h₆]; exact run_stdAtUnderscore _
  rw [if_neg h₆, if_neg h₆]
  by_cases h₇ : c = '3'
  · rw [if_pos h₇, if_pos h₇]; exact run_chunk _ (hlen 1 (le_refl 1))
  rw [if_neg h₇, if_neg h₇]
  by_cases h₈ : c = '4'
  · rw [if_pos h₈, if_pos h₈]; exact run_chunk _ (hlen 1 (le_refl 1))
  rw [if_neg h₈, if_neg h₈]
  by_cases h₉ : c = '5'
  · rw [if_pos h₉, if_pos h₉]; exact run_chunk _ (hlen 1 (le_refl 1))
  rw [if_neg h₉, if_neg h₉]
  by_cases h₁₀ : c = 'P'
  · rw [if_pos h₁₀, if_pos h₁₀, run_hasPrefix, Run.ok_bind]
    split
    · next h => exact run_chunk _ (time.hasPrefix_le h)
    · rfl
  rw [if_neg h₁₀, if_neg h₁₀]
  by_cases h₁₁ : c = 'p'
  · rw [if_pos h₁₁, if_pos h₁₁, run_hasPrefix, Run.ok_bind]
    split
    · next h => exact run_chunk _ (time.hasPrefix_le h)
    · rfl
  rw [if_neg h₁₁, if_neg h₁₁]
  by_cases h₁₂ : c = '-'
  · rw [if_pos h₁₂, if_pos h₁₂]; exact run_stdAtMinus _
  rw [if_neg h₁₂, if_neg h₁₂]
  by_cases h₁₃ : c = 'Z'
  · rw [if_pos h₁₃, if_pos h₁₃]; exact run_stdAtZ _
  rw [if_neg h₁₃, if_neg h₁₃]
  by_cases h₁₄ : c = '.' ∨ c = ','
  · rw [if_pos h₁₄, if_pos h₁₄]; exact run_stdAtFrac _ _
  rw [if_neg h₁₄, if_neg h₁₄]
  rfl

theorem run_nextStdChunk (layout : List Char) :
    Run.time.nextStdChunk layout = .ok (time.nextStdChunk layout) := by
  induction layout with
  | nil => rfl
  | cons c rest ih =>
    unfold Run.time.nextStdChunk time.nextStdChunk
    rw [run_stdAt, Run.ok_bind]
    cases hat : time.stdAt (c :: rest) with
    | some r => rfl
    | none =>
      simp only []
      rw [ih, Run.ok_bind]
      rfl


/-! ## The checked readers of the value -/

theorem run_cutspaceN :
    ∀ (k : Nat) (s : List Char), s.length < k →
      Run.time.cutspaceN k s = .ok (time.cutspace s) := by
  intro k
  induction k with
  | zero => intro s h; omega
  | succ k ih =>
    intro s h
    unfold Run.time.cutspaceN
    rw [Run.and_test _ (fun h => of_decide_eq_true h)]
    cases s with
    | nil => rfl
    | cons c t =>
      simp only [Run.ok_bind, List.length_cons, Nat.zero_lt_succ, decide_True, Bool.true_and,
        List.getD_cons_zero, decide_eq_true_eq]
      unfold time.cutspace
      rw [List.dropWhile_cons]
      by_cases hc : c = ' '
      · rw [if_pos hc, Run.sliceFrom_eq (by simp), Run.ok_bind]
        simp only [hc, decide_True, if_true, List.drop_succ_cons, List.drop_zero]
        exact ih t (by simp only [List.length_cons] at h; omega)
      · rw [if_neg hc]
        simp [hc, Run.pure_eq_ok]

theorem run_cutspace (s : List Char) : Run.time.cutspace s = .ok (time.cutspace s) :=
  run_cutspaceN _ s (Nat.lt_succ_self _)

theorem run_skipN :
    ∀ (k : Nat) (value pre : List Char), pre.length < k →
      Run.time.skipN k value pre = .ok (time.skipN k value pre) := by
  intro k
  induction k with
  | zero => intro value pre h; omega
  | succ k ih =>
    intro value pre h
    cases pre with
    | nil => rfl
    | cons p pre' =>
      simp only [List.length_cons] at h
      unfold Run.time.skipN time.skipN
      simp only [List.length_cons, Nat.zero_lt_succ, if_true]
      rw [Run.test_eq (by simp), Run.ok_bind]
      simp only [List.getD_cons_zero, decide_eq_true_eq]
      by_cases hp : p = ' '
      · rw [if_pos hp, if_pos hp, Run.and_test _ (fun h => of_decide_eq_true h), Run.ok_bind]
        simp only [Bool.and_eq_true, decide_eq_true_eq, time.charAt]
        split
        · rfl
        · rw [run_cutspace, Run.ok_bind, run_cutspace, Run.ok_bind]
          refine ih _ _ ?_
          have : time.cutspace (p :: pre') = time.cutspace pre' := by
            subst hp; simp [time.cutspace]
          rw [this]
          have := (List.dropWhile_suffix (l := pre') fun c => decide (c = ' ')).length_le
          unfold time.cutspace
          omega
      · rw [if_neg hp, if_neg hp]
        have hor : Run.or (pure (decide (value.length = 0))) (do
            let p' ← Run.index (p :: pre') 0
            Run.test value 0 fun c => decide (c ≠ p')) =
            .ok (decide (value.length = 0) || decide (value.getD 0 ' ' ≠ p)) := by
          refine Run.or_eq fun h0 => ?_
          have hpos : 0 < value.length := by
            have := of_decide_eq_false h0
            omega
          rw [Run.index_eq (by simp) ' ', Run.ok_bind, Run.test_eq hpos]
          rfl
        rw [hor, Run.ok_bind]
        simp only [Bool.or_eq_true, decide_eq_true_eq, time.charAt]
        split
        · rfl
        · next hv =>
          have hpos : 1 ≤ value.length := by
            by_contra hc
            exact hv (Or.inl (by omega))
          rw [Run.sliceFrom_eq (by simp), Run.ok_bind, Run.sliceFrom_eq hpos, Run.ok_bind]
          exact ih _ _ (by simpa using h)

theorem run_skip (value pre : List Char) :
    Run.time.skip value pre = .ok (time.skip value pre) := by
  unfold Run.time.skip time.skip
  rw [run_skipN _ _ _ (Nat.lt_succ_self _), time.skipN_fuel _ _ _ (Nat.le_succ _)]


theorem getD_eq_getElem {s : List Char} {i : Nat} (h : i < s.length) :
    s.getD i ' ' = s[i] := by
  rw [List.getD_eq_getElem?_getD, List.getElem?_eq_getElem h]
  rfl

theorem run_leadingIntFrom (s : List Char) :
    ∀ (k i x : Nat), s.length - i < k → i ≤ s.length →
      Run.time.leadingIntFrom s k i x = .ok (time.leadingIntFrom x (s.drop i)) := by
  intro k
  induction k with
  | zero => intro i x h; omega
  | succ k ih =>
    intro i x h hi
    unfold Run.time.leadingIntFrom
    by_cases hlt : i < s.length
    · rw [if_pos hlt, Run.index_eq hlt ' ', Run.ok_bind, getD_eq_getElem hlt,
        List.drop_eq_getElem_cons hlt, time.leadingIntFrom]
      have h0 : '0'.toNat = 48 := rfl
      have h9 : '9'.toNat = 57 := rfl
      rw [h0, h9]
      by_cases hd : isDigitChar s[i] = true
      · have hd' := hd
        simp only [isDigitChar, Bool.and_eq_true, decide_eq_true_eq] at hd'
        rw [if_neg (show ¬ (s[i].toNat < 48 ∨ s[i].toNat > 57) by omega),
          if_neg (show ¬ ((!isDigitChar s[i]) = true) by simp [hd])]
        split
        · rfl
        · split
          · rfl
          · exact ih _ _ (by omega) (by omega)
      · have hd' := hd
        simp only [isDigitChar, Bool.and_eq_true, decide_eq_true_eq, not_and, not_le] at hd'
        rw [if_pos (show s[i].toNat < 48 ∨ s[i].toNat > 57 by omega),
          if_pos (show (!isDigitChar s[i]) = true by simp [hd]), Run.sliceFrom_eq hi,
          Run.ok_bind, List.drop_eq_getElem_cons hlt]
        rfl
    · have hi' : i = s.length := by omega
      rw [if_neg hlt, Run.sliceFrom_eq hi, Run.ok_bind]
      subst hi'
      rw [List.drop_length]
      rfl

theorem run_leadingInt (s : List Char) :
    Run.time.leadingInt s = .ok (time.leadingInt s) := by
  unfold Run.time.leadingInt time.leadingInt
  rw [run_leadingIntFrom s _ 0 0 (by omega) (Nat.zero_le _)]
  rfl

theorem run_atoi (s : List Char) : Run.time.atoi s = .ok (time.atoi s) := by
  unfold Run.time.atoi time.atoi
  rw [Run.and_test _ (fun h => of_decide_eq_true h), Run.ok_bind]
  cases s with
  | nil =>
    simp only [List.length_nil, lt_self_iff_false, decide_False, Bool.false_and,
      Bool.false_eq_true, if_false, Run.pure_eq_ok, Run.ok_bind, run_leadingInt, false_and]
    rfl
  | cons c t =>
    simp only [List.length_cons, Nat.zero_lt_succ, decide_True, Bool.true_and,
      List.getD_cons_zero, time.charAt, true_and, Bool.or_eq_true, decide_eq_true_eq]
    by_cases hs : c = '-' ∨ c = '+'
    · simp only [hs, if_true, Run.test_eq (show 0 < (c :: t).length by simp), Run.ok_bind,
        Run.sliceFrom_eq (show 1 ≤ (c :: t).length by simp), run_leadingInt,
        List.getD_cons_zero, decide_eq_true_eq]
      split <;> rfl
    · have hm : ¬ c = '-' := fun h => hs (Or.inl h)
      simp only [if_neg hs, Run.pure_eq_ok, Run.ok_bind, run_leadingInt, if_neg hm,
        Bool.false_eq_true, if_false]
      split <;> rfl

theorem run_getnum (s : List Char) (fixed : Bool) :
    Run.time.getnum s fixed = .ok (time.getnum s fixed) := by
  unfold Run.time.getnum time.getnum
  simp only [run_isDigit, Run.ok_bind]
  split
  · rfl
  · next h0 =>
    have h0' : 0 < s.length := time.isDigit_lt (by simpa using h0)
    split
    · split
      · rfl
      · rw [Run.index_eq h0' ' ', Run.ok_bind, Run.sliceFrom_eq (by omega)]
        rfl
    · next h1 =>
      have h1' : 1 < s.length := time.isDigit_lt (by simpa using h1)
      rw [Run.index_eq h0' ' ', Run.ok_bind, Run.index_eq h1' ' ', Run.ok_bind,
        Run.sliceFrom_eq (by omega)]
      rfl

theorem run_getnum3Loop (s : List Char) :
    ∀ (k i : Nat) (n : ℤ),
      Run.time.getnum3Loop s k i n = .ok (time.getnum3Loop s k i n) := by
  intro k
  induction k with
  | zero => intro i n; rfl
  | succ k ih =>
    intro i n
    unfold Run.time.getnum3Loop time.getnum3Loop
    rw [run_isDigit, Run.ok_bind]
    split
    · next h =>
      rw [Run.index_eq (time.isDigit_lt h) ' ', Run.ok_bind]
      exact ih _ _
    · rfl

theorem time.getnum3Loop_le (s : List Char) :
    ∀ (k i : Nat) (n : ℤ), i ≤ s.length → (time.getnum3Loop s k i n).1 ≤ s.length := by
  intro k
  induction k with
  | zero => intro i n h; exact h
  | succ k ih =>
    intro i n h
    unfold time.getnum3Loop
    split
    · next hd => exact ih _ _ (time.isDigit_lt hd)
    · exact h

theorem run_getnum3 (s : List Char) (fixed : Bool) :
    Run.time.getnum3 s fixed = .ok (time.getnum3 s fixed) := by
  unfold Run.time.getnum3 time.getnum3
  rw [run_getnum3Loop, Run.ok_bind]
  have hle := time.getnum3Loop_le s 3 0 0 (Nat.zero_le _)
  cases hl : time.getnum3Loop s 3 0 0 with
  | mk i n =>
    rw [hl] at hle
    simp only
    split
    · rfl
    · rw [Run.sliceFrom_eq hle]
      rfl

theorem run_matchFold :
    ∀ (s1 s2 : List Char), s1.length ≤ s2.length →
      Run.time.matchFold s1 s2 = .ok (time.matchFold s1 s2) := by
  intro s1
  induction s1 with
  | nil =>
    intro s2 _
    cases s2 <;> rfl
  | cons c1 t1 ih =>
    intro s2 h
    cases s2 with
    | nil => simp at h
    | cons c2 t2 =>
      unfold Run.time.matchFold time.matchFold
      simp only [List.length_cons, Nat.add_le_add_iff_right] at h
      by_cases hc : c1 = c2
      · rw [if_neg (fun h' => h'.1 hc), ih t2 h]
        simp [hc]
      · by_cases hf : c1.toNat ||| 32 ≠ c2.toNat ||| 32 ∨ c1.toNat ||| 32 < 97 ∨
            122 < c1.toNat ||| 32
        · rw [if_pos ⟨hc, hf⟩]
          have : (decide (c1 = c2) ||
              (decide (c1.toNat ||| 32 = c2.toNat ||| 32) &&
                decide (97 ≤ c1.toNat ||| 32) && decide (c1.toNat ||| 32 ≤ 122))) = false := by
            simp only [hc, decide_False, Bool.false_or, Bool.and_eq_false_imp,
              Bool.and_eq_true, decide_eq_true_eq, decide_eq_false_iff_not, not_le]
            rintro ⟨he, h97⟩
            rcases hf with hf | hf | hf
            · exact absurd he hf
            · omega
            · exact hf
          rw [this]
          rfl
        · rw [if_neg (fun h' => hf h'.2), ih t2 h]
          simp only [not_or, not_not, not_lt] at hf
          have e : (decide (c1 = c2) ||
              (decide (c1.toNat ||| 32 = c2.toNat ||| 32) &&
                decide (97 ≤ c1.toNat ||| 32) && decide (c1.toNat ||| 32 ≤ 122))) = true := by
            rw [decide_eq_true hf.1, decide_eq_true hf.2.1, decide_eq_true hf.2.2]
            simp
          rw [e, Bool.true_and]

theorem run_lookupFrom (tab : List GoString) :
    ∀ (i : ℤ) (val : List Char),
      Run.time.lookupFrom i tab val = .ok (time.lookupFrom i tab val) := by
  induction tab with
  | nil => intro i val; rfl
  | cons v tab ih =>
    intro i val
    unfold Run.time.lookupFrom time.lookupFrom
    have hand : Run.and (pure (decide (v.data.length ≤ val.length))) (do
        Run.time.matchFold (← Run.slice val 0 v.data.length) v.data) =
        .ok (decide (v.data.length ≤ val.length) &&
          time.matchFold (val.take v.data.length) v.data) := by
      refine Run.and_eq fun h => ?_
      have hle := of_decide_eq_true h
      rw [Run.slice_eq (Nat.zero_le _) hle, Run.ok_bind, List.drop_zero,
        run_matchFold _ _ (by rw [List.length_take]; omega)]
    rw [hand, Run.ok_bind]
    simp only [Bool.and_eq_true, decide_eq_true_eq]
    split
    · next h =>
      rw [Run.sliceFrom_eq h.1]
      rfl
    · exact ih _ _

theorem run_lookup (tab : List GoString) (val : List Char) :
    Run.time.lookup tab val = .ok (time.lookup tab val) :=
  run_lookupFrom tab 0 val


/-! ## The checked readers of fractions and zones -/

theorem run_parseNanoseconds {value : List Char} {nbytes : Nat} (h₁ : 1 ≤ nbytes)
    (h₂ : nbytes ≤ value.length) :
    Run.time.parseNanoseconds value nbytes = .ok (time.parseNanoseconds value nbytes) := by
  unfold Run.time.parseNanoseconds time.parseNanoseconds
  rw [Run.index_eq (by omega) ' ', Run.ok_bind]
  simp only [time.charAt]
  split
  · rfl
  · by_cases h10 : 10 < nbytes
    · simp only [if_pos h10, Run.slice_eq (Nat.zero_le 10) (show 10 ≤ value.length by omega),
        Run.ok_bind, List.drop_zero]
      rw [Run.slice_eq (by omega) (by rw [List.length_take]; omega), Run.ok_bind, run_atoi,
        Run.ok_bind]
      cases time.atoi (List.drop 1 (List.take 10 (List.take 10 value))) with
      | mk ns err =>
        simp only
        split
        · rfl
        · split <;> rfl
    · simp only [if_neg h10, Run.pure_eq_ok, Run.ok_bind]
      rw [Run.slice_eq h₁ h₂, Run.ok_bind, run_atoi, Run.ok_bind]
      cases time.atoi (List.drop 1 (List.take nbytes value)) with
      | mk ns err =>
        simp only
        split
        · rfl
        · split <;> rfl

theorem run_digitsEnd (value : List Char) :
    ∀ (k n : Nat), value.length - n < k →
      Run.time.digitsEnd value k n =
        .ok (n + ((value.drop n).takeWhile isDigitChar).length) := by
  intro k
  induction k with
  | zero => intro n h; omega
  | succ k ih =>
    intro n h
    unfold Run.time.digitsEnd
    rw [run_isDigit, Run.pure_eq_ok, Run.and_ok]
    by_cases hlt : n < value.length
    · have hd : time.isDigit value n = isDigitChar value[n] := by
        unfold time.isDigit
        rw [List.get?_eq_getElem?, List.getElem?_eq_getElem hlt]
      rw [if_pos (decide_eq_true hlt), Run.ok_bind, List.drop_eq_getElem_cons hlt,
        List.takeWhile_cons, hd]
      by_cases hc : isDigitChar value[n] = true
      · rw [if_pos hc, ih (n + 1) (by omega)]
        simp only [hc, if_true, List.length_cons]
        congr 1
        omega
      · rw [if_neg hc]
        simp [hc, Run.pure_eq_ok]
    · rw [if_neg (by simpa using hlt), Run.ok_bind, List.drop_eq_nil_of_le (by omega)]
      simp [Run.pure_eq_ok]

theorem run_fracLen (value : List Char) : Run.time.fracLen value = .ok (time.fracLen value) := by
  unfold Run.time.fracLen time.fracLen
  exact run_digitsEnd value _ 2 (by omega)

theorem time.fracLen_le {value : List Char} (h : 2 ≤ value.length) :
    time.fracLen value ≤ value.length := by
  unfold time.fracLen
  have := (List.takeWhile_prefix isDigitChar (l := value.drop 2)).length_le
  rw [List.length_drop] at this
  omega

theorem time.leadingIntFrom_rem_le :
    ∀ (s : List Char) (x : Nat), (time.leadingIntFrom x s).2.1.length ≤ s.length := by
  intro s
  induction s with
  | nil => intro x; simp [time.leadingIntFrom]
  | cons c t ih =>
    intro x
    unfold time.leadingIntFrom
    split
    · simp
    · split
      · simp
      · split
        · simp
        · have := ih (x * 10 + (c.toNat - 48))
          simp only [List.length_cons]
          omega

theorem run_parseSignedOffset {value : List Char} (h : 0 < value.length) :
    Run.time.parseSignedOffset value = .ok (time.parseSignedOffset value) := by
  unfold Run.time.parseSignedOffset time.parseSignedOffset
  rw [Run.index_eq h ' ', Run.ok_bind]
  simp only [time.charAt]
  split
  · rfl
  · simp only [Run.sliceFrom_eq (show 1 ≤ value.length by omega), Run.ok_bind, run_leadingInt]
    cases time.leadingInt (List.drop 1 value) with
    | mk x r =>
      cases r with
      | mk rem err =>
        simp only
        split
        · rfl
        · split <;> rfl

theorem time.parseSignedOffset_le (value : List Char) :
    time.parseSignedOffset value ≤ value.length := by
  unfold time.parseSignedOffset
  simp only
  split
  · omega
  · split
    · omega
    · split <;> omega

theorem run_parseGMT {value : List Char} (h : 3 ≤ value.length) :
    Run.time.parseGMT value = .ok (time.parseGMT value) := by
  unfold Run.time.parseGMT time.parseGMT
  rw [Run.sliceFrom_eq h, Run.ok_bind]
  simp only
  split
  · rfl
  · next hne =>
    rw [run_parseSignedOffset (by omega), Run.ok_bind]
    rfl

theorem time.parseGMT_le {value : List Char} (h : 3 ≤ value.length) :
    time.parseGMT value ≤ value.length := by
  unfold time.parseGMT
  simp only
  have := time.parseSignedOffset_le (value.drop 3)
  rw [List.length_drop] at this
  split <;> omega

theorem run_countUpper (value : List Char) :
    ∀ (k n : Nat), n ≤ value.length →
      Run.time.countUpper value k n = .ok (n + time.countUpper k (value.drop n)) := by
  intro k
  induction k with
  | zero => intro n _; rfl
  | succ k ih =>
    intro n hn
    unfold Run.time.countUpper
    by_cases hlt : n < value.length
    · rw [if_neg (by omega), Run.index_eq hlt ' ', Run.ok_bind, getD_eq_getElem hlt,
        List.drop_eq_getElem_cons hlt, time.countUpper]
      split
      · rfl
      · rw [ih (n + 1) (by omega)]
        congr 1
        omega
    · rw [if_pos (by omega), List.drop_eq_nil_of_le (by omega)]
      rfl

theorem time.countUpper_le : ∀ (k : Nat) (s : List Char), time.countUpper k s ≤ s.length := by
  intro k
  induction k with
  | zero => intro s; simp [time.countUpper]
  | succ k ih =>
    intro s
    cases s with
    | nil => simp [time.countUpper]
    | cons c t =>
      unfold time.countUpper
      have := ih t
      split
      · omega
      · simp only [List.length_cons]; omega


theorem run_parseTimeZone (value : List Char) :
    Run.time.parseTimeZone value = .ok (time.parseTimeZone value) := by
  unfold Run.time.parseTimeZone time.parseTimeZone
  split
  · rfl
  · next h3 =>
    have h3' : 3 ≤ value.length := by omega
    have hand : Run.and (pure (decide (4 ≤ value.length))) (do
        let head ← Run.slice value 0 4
        pure (decide (head = "ChST".data) || decide (head = "MeST".data))) =
        .ok (decide (4 ≤ value.length) &&
          (decide (value.take 4 = "ChST".data) || decide (value.take 4 = "MeST".data))) := by
      refine Run.and_eq fun h => ?_
      rw [Run.slice_eq (Nat.zero_le _) (of_decide_eq_true h), Run.ok_bind]
      rfl
    rw [hand, Run.ok_bind]
    simp only [Bool.and_eq_true, Bool.or_eq_true, decide_eq_true_eq]
    split
    · rfl
    · rw [Run.slice_eq (Nat.zero_le _) h3', Run.ok_bind]
      simp only [List.drop_zero]
      split
      · rw [run_parseGMT h3', Run.ok_bind]
        rfl
      · rw [Run.test_eq (by omega), Run.ok_bind]
        simp only [Bool.or_eq_true, decide_eq_true_eq, time.charAt]
        split
        · rw [run_parseSignedOffset (by omega), Run.ok_bind]
          rfl
        · rw [run_countUpper value 6 0 (Nat.zero_le _), Run.ok_bind]
          simp only [Nat.zero_add, List.drop_zero]
          have hle := time.countUpper_le 6 value
          split
          · next h5 =>
            rw [Run.test_eq (by omega), Run.ok_bind]
            simp only [decide_eq_true_eq]
            split <;> rfl
          · split
            · next h4 =>
              have hor : Run.or (Run.test value 3 fun c => decide (c = 'T')) (do
                  pure (decide ((← Run.slice value 0 4) = "WITA".data))) =
                  .ok (decide (value.getD 3 ' ' = 'T') ||
                    decide (value.take 4 = "WITA".data)) := by
                rw [Run.test_eq (by omega)]
                refine Run.or_eq fun _ => ?_
                rw [Run.slice_eq (Nat.zero_le _) (by omega), Run.ok_bind]
                rfl
              rw [hor, Run.ok_bind]
              simp only [Bool.or_eq_true, decide_eq_true_eq]
              split <;> rfl
            · split <;> rfl

theorem time.parseTimeZone_le (value : List Char) :
    (time.parseTimeZone value).1 ≤ value.length := by
  unfold time.parseTimeZone
  have hle := time.countUpper_le 6 value
  split
  · exact Nat.zero_le _
  · split
    · next h => exact h.1
    · split
      · exact time.parseGMT_le (by omega)
      · split
        · exact time.parseSignedOffset_le value
        · simp only
          split
          · split
            · show 5 ≤ _; omega
            · exact Nat.zero_le _
          · split
            · split
              · show 4 ≤ _; omega
              · exact Nat.zero_le _
            · split
              · show 3 ≤ _; omega
              · exact Nat.zero_le _

theorem run_nextIsFrac (layout : List Char) :
    Run.time.nextIsFrac layout = .ok (time.nextIsFrac layout) := by
  unfold Run.time.nextIsFrac time.nextIsFrac
  rw [run_nextStdChunk, Run.ok_bind]
  generalize (time.nextStdChunk layout).2.1 = o
  cases o with
  | none => rfl
  | some s => cases s <;> rfl

theorem run_offsetPieces (std : time.Std) (value : List Char) :
    Run.time.offsetPieces std value = .ok (time.offsetPieces std value) := by
  unfold Run.time.offsetPieces time.offsetPieces
  split
  · split
    · rfl
    · next h =>
      rw [Run.index_eq (by omega) ' ', Run.ok_bind]
      simp only [time.charAt]
      split
      · rfl
      · simp only [Run.slice_eq (show 0 ≤ 1 by omega) (show 1 ≤ value.length by omega),
          Run.slice_eq (show 1 ≤ 3 by omega) (show 3 ≤ value.length by omega),
          Run.slice_eq (show 4 ≤ 6 by omega) (show 6 ≤ value.length by omega),
          Run.sliceFrom_eq (show 6 ≤ value.length by omega), Run.ok_bind, List.drop_zero]
        rfl
  · split
    · split
      · rfl
      · next h =>
        simp only [Run.slice_eq (show 0 ≤ 1 by omega) (show 1 ≤ value.length by omega),
          Run.slice_eq (show 1 ≤ 3 by omega) (show 3 ≤ value.length by omega),
          Run.sliceFrom_eq (show 3 ≤ value.length by omega), Run.ok_bind, List.drop_zero]
        rfl
    · split
      · split
        · rfl
        · next h =>
          rw [Run.test_eq (by omega), Run.or_eq (fun _ => Run.test_eq (by omega) _),
            Run.ok_bind]
          simp only [Bool.or_eq_true, decide_eq_true_eq, time.charAt]
          split
          · rfl
          · simp only [Run.slice_eq (show 0 ≤ 1 by omega) (show 1 ≤ value.length by omega),
              Run.slice_eq (show 1 ≤ 3 by omega) (show 3 ≤ value.length by omega),
              Run.slice_eq (show 4 ≤ 6 by omega) (show 6 ≤ value.length by omega),
              Run.slice_eq (show 7 ≤ 9 by omega) (show 9 ≤ value.length by omega),
              Run.sliceFrom_eq (show 9 ≤ value.length by omega), Run.ok_bind, List.drop_zero]
            rfl
      · split
        · split
          · rfl
          · next h =>
            simp only [Run.slice_eq (show 0 ≤ 1 by omega) (show 1 ≤ value.length by omega),
              Run.slice_eq (show 1 ≤ 3 by omega) (show 3 ≤ value.length by omega),
              Run.slice_eq (show 3 ≤ 5 by omega) (show 5 ≤ value.length by omega),
              Run.slice_eq (show 5 ≤ 7 by omega) (show 7 ≤ value.length by omega),
              Run.sliceFrom_eq (show 7 ≤ value.length by omega), Run.ok_bind,
              List.drop_zero]
            rfl
        · split
          · rfl
          · next h =>
            simp only [Run.slice_eq (show 0 ≤ 1 by omega) (show 1 ≤ value.length by omega),
              Run.slice_eq (show 1 ≤ 3 by omega) (show 3 ≤ value.length by omega),
              Run.slice_eq (show 3 ≤ 5 by omega) (show 5 ≤ value.length by omega),
              Run.sliceFrom_eq (show 5 ≤ value.length by omega), Run.ok_bind,
              List.drop_zero]
            rfl

/-- The sign that an offset element cuts from the value is one character. -/
theorem time.offsetPieces_sign {std : time.Std} {value sign hour min seconds value' : List Char}
    (h : time.offsetPieces std value = some (sign, hour, min, seconds, value')) :
    0 < sign.length := by
  unfold time.offsetPieces at h
  have key : ∀ {v : List Char}, 1 ≤ v.length → 0 < (v.take 1).length := fun hv => by
    rw [List.length_take]; omega
  repeat' split at h
  all_goals first
    | (cases h; done)
    | (simp only [Option.some.injEq, Prod.mk.injEq] at h
       obtain ⟨rfl, -⟩ := h
       exact key (by omega))

theorem run_switchNumOffset (std : time.Std) (f : time.Fields) (value : List Char) :
    Run.time.switchNumOffset std f value = .ok (time.switchNumOffset std f value) := by
  unfold Run.time.switchNumOffset time.switchNumOffset
  rw [run_offsetPieces, Run.ok_bind]
  cases hp : time.offsetPieces std value with
  | none => rfl
  | some p =>
    obtain ⟨sign, hour, min, seconds, value'⟩ := p
    have hs := time.offsetPieces_sign hp
    simp only [run_getnum, Run.ok_bind, Run.pure_eq_ok, Run.index_eq hs ' ', time.charAt]
    by_cases h₁ : (time.getnum hour true).2.2 = none <;>
    by_cases h₂ : (time.getnum min true).2.2 = none <;>
    simp only [h₁, h₂, if_true, if_false] <;>
    (split
     · rfl
     · split <;> rfl)

theorem run_switchOffset (std : time.Std) (f : time.Fields) (value : List Char) :
    Run.time.switchOffset std f value = .ok (time.switchOffset std f value) := by
  unfold Run.time.switchOffset time.switchOffset
  rw [Run.and_test _ (fun h => by have := of_decide_eq_true h; omega), Run.ok_bind]
  simp only [Bool.and_eq_true, decide_eq_true_eq, time.charAt]
  split
  · next h =>
    rw [Run.sliceFrom_eq h.1]
    rfl
  · exact run_switchNumOffset _ _ _


/-! ## The checked `switch` of `parse` -/

theorem run_dropSpace (under : Bool) (value : List Char) :
    Run.time.dropSpace under value =
      .ok (if under = true ∧ 0 < value.length ∧ time.charAt value 0 = ' ' then value.drop 1
        else value) := by
  unfold Run.time.dropSpace
  rw [Run.and_test _ (fun h => by
    simp only [Bool.and_eq_true, decide_eq_true_eq] at h
    exact h.2), Run.ok_bind]
  simp only [Bool.and_eq_true, decide_eq_true_eq, time.charAt, and_assoc]
  split
  · next h => exact Run.sliceFrom_eq (by omega)
  · rfl

theorem run_switchStd_year (l : List Char) (f : time.Fields) (value : List Char) :
    Run.time.switchStd .stdYear l f value = .ok (time.switchStd .stdYear l f value) := by
  simp only [Run.time.switchStd, time.switchStd]
  split
  · rfl
  · next h =>
    rw [Run.slice_eq (Nat.zero_le _) (by omega), Run.ok_bind, Run.sliceFrom_eq (by omega),
      Run.ok_bind, run_atoi, Run.ok_bind, List.drop_zero]
    cases time.atoi (List.take 2 value) with
    | mk year err =>
      simp only
      split <;> rfl

theorem run_switchStd_longYear (l : List Char) (f : time.Fields) (value : List Char) :
    Run.time.switchStd .stdLongYear l f value = .ok (time.switchStd .stdLongYear l f value) := by
  simp only [Run.time.switchStd, time.switchStd]
  rw [run_isDigit, Run.ok_bind, Run.pure_eq_ok, Run.pure_eq_ok, Run.or_ok]
  by_cases h4 : value.length < 4
  · rw [if_pos (decide_eq_true h4), Run.ok_bind, if_pos rfl, if_pos (Or.inl h4)]
    rfl
  · rw [if_neg (by simpa using h4), Run.ok_bind]
    by_cases hd : (!time.isDigit value 0) = true
    · rw [if_pos hd, if_pos (Or.inr hd)]
      rfl
    · rw [if_neg hd, if_neg (by rintro (h | h); exact h4 h; exact hd h),
        Run.slice_eq (Nat.zero_le _) (by omega), Run.ok_bind, Run.sliceFrom_eq (by omega),
        Run.ok_bind, run_atoi, Run.ok_bind, List.drop_zero]
      rfl

theorem run_switchPM (pm am : GoString) (f : time.Fields) (value : List Char) :
    Run.time.switchPM pm am f value =
      .ok (if value.length < 2 then { fields := f, value := value, err := some .errBad }
        else if value.take 2 = pm.data then
          { fields := { f with pmSet := true }, value := value.drop 2 }
        else if value.take 2 = am.data then
          { fields := { f with amSet := true }, value := value.drop 2 }
        else { fields := f, value := value.drop 2, err := some .errBad }) := by
  unfold Run.time.switchPM
  split
  · rfl
  · next h =>
    rw [Run.slice_eq (Nat.zero_le _) (by omega), Run.ok_bind, Run.sliceFrom_eq (by omega),
      Run.ok_bind, List.drop_zero]
    split
    · rfl
    · split <;> rfl

theorem run_switchStd_TZ (l : List Char) (f : time.Fields) (value : List Char) :
    Run.time.switchStd .stdTZ l f value = .ok (time.switchStd .stdTZ l f value) := by
  simp only [Run.time.switchStd, time.switchStd]
  have hand : Run.and (pure (decide (3 ≤ value.length))) (do
      pure (decide ((← Run.slice value 0 3) = "UTC".data))) =
      .ok (decide (3 ≤ value.length) && decide (value.take 3 = "UTC".data)) := by
    refine Run.and_eq fun h => ?_
    rw [Run.slice_eq (Nat.zero_le _) (of_decide_eq_true h), Run.ok_bind]
    rfl
  rw [hand, Run.ok_bind]
  simp only [Bool.and_eq_true, decide_eq_true_eq]
  split
  · next h =>
    rw [Run.sliceFrom_eq h.1]
    rfl
  · rw [run_parseTimeZone, Run.ok_bind]
    have hle := time.parseTimeZone_le value
    cases hz : time.parseTimeZone value with
    | mk n ok =>
      rw [hz] at hle
      simp only
      split
      · rfl
      · rw [Run.slice_eq (Nat.zero_le _) hle, Run.ok_bind, Run.sliceFrom_eq hle, Run.ok_bind,
          List.drop_zero]
        rfl

theorem run_switchStd_frac0 (digits : Nat) (sep : Char) (l : List Char) (f : time.Fields)
    (value : List Char) :
    Run.time.switchStd (.stdFracSecond0 digits sep) l f value =
      .ok (time.switchStd (.stdFracSecond0 digits sep) l f value) := by
  simp only [Run.time.switchStd, time.switchStd]
  split
  · rfl
  · next h =>
    rw [run_parseNanoseconds (by omega) (by omega), Run.ok_bind]
    cases time.parseNanoseconds value (1 + digits) with
    | mk nsec r =>
      cases r with
      | mk rangeErrString err =>
        simp only
        rw [Run.sliceFrom_eq (by omega)]
        rfl

theorem run_switchStd_frac9 (digits : Nat) (sep : Char) (l : List Char) (f : time.Fields)
    (value : List Char) :
    Run.time.switchStd (.stdFracSecond9 digits sep) l f value =
      .ok (time.switchStd (.stdFracSecond9 digits sep) l f value) := by
  simp only [Run.time.switchStd, time.switchStd]
  have hor : Run.or (pure (decide (value.length < 2)))
      (Run.or (Run.test value 0 fun c => !time.commaOrPeriod c)
        (Run.test value 1 fun c => !isDigitChar c)) =
      .ok (decide (value.length < 2) ||
        (!time.commaOrPeriod (value.getD 0 ' ') || !isDigitChar (value.getD 1 ' '))) := by
    refine Run.or_eq fun h => ?_
    have h2 : ¬ value.length < 2 := of_decide_eq_false h
    rw [Run.test_eq (by omega), Run.test_eq (by omega)]
    exact Run.or_eq fun _ => rfl
  rw [hor, Run.ok_bind]
  simp only [Bool.or_eq_true, decide_eq_true_eq, time.charAt]
  split
  · rfl
  · next h =>
    have h2 : 2 ≤ value.length := by
      by_contra hc
      exact h (Or.inl (by omega))
    have hle : 1 + ((value.drop 1).takeWhile isDigitChar).length ≤ value.length := by
      have := (List.takeWhile_prefix isDigitChar (l := value.drop 1)).length_le
      rw [List.length_drop] at this
      omega
    rw [run_digitsEnd value _ 1 (by omega), Run.ok_bind,
      run_parseNanoseconds (by omega) hle, Run.ok_bind]
    cases time.parseNanoseconds value (1 + ((value.drop 1).takeWhile isDigitChar).length) with
    | mk nsec r =>
      cases r with
      | mk rangeErrString err =>
        simp only
        rw [Run.sliceFrom_eq hle]
        rfl

theorem run_switchStd_second (std : time.Std) (hstd : std = .stdSecond ∨ std = .stdZeroSecond)
    (l : List Char) (f : time.Fields) (value : List Char) :
    Run.time.switchStd std l f value = .ok (time.switchStd std l f value) := by
  rcases hstd with rfl | rfl <;>
  (simp only [Run.time.switchStd, Run.time.switchSecond, time.switchStd]
   rw [run_getnum, Run.ok_bind]
   generalize time.getnum value _ = g
   obtain ⟨sec, value', err⟩ := g
   simp only [Run.pure_eq_ok]
   split
   · rfl
   · split
     · rfl
     · rw [Run.and_eq (c := time.commaOrPeriod (value'.getD 0 ' ') && time.isDigit value' 1)
         (fun h => by
           rw [Run.test_eq (by have := of_decide_eq_true h; omega), run_isDigit]
           exact Run.and_eq fun _ => rfl), Run.ok_bind]
       simp only [Bool.and_eq_true, decide_eq_true_eq, time.charAt]
       split
       · next h =>
         rw [run_nextIsFrac, Run.ok_bind]
         split
         · rfl
         · have hle := time.fracLen_le h.1
           rw [run_fracLen, Run.ok_bind,
             run_parseNanoseconds (by unfold time.fracLen; omega) hle, Run.ok_bind]
           generalize time.parseNanoseconds value' (time.fracLen value') = r
           obtain ⟨nsec, rangeErrString, err'⟩ := r
           simp only
           rw [Run.sliceFrom_eq hle]
           rfl
       · rfl)


theorem run_switchStd (std : time.Std) (l : List Char) (f : time.Fields) (value : List Char) :
    Run.time.switchStd std l f value = .ok (time.switchStd std l f value) := by
  cases std
  case stdYear => exact run_switchStd_year _ _ _
  case stdLongYear => exact run_switchStd_longYear _ _ _
  case stdTZ => exact run_switchStd_TZ _ _ _
  case stdFracSecond0 => exact run_switchStd_frac0 _ _ _ _ _
  case stdFracSecond9 => exact run_switchStd_frac9 _ _ _ _ _
  case stdSecond => exact run_switchStd_second _ (Or.inl rfl) _ _ _
  case stdZeroSecond => exact run_switchStd_second _ (Or.inr rfl) _ _ _
  all_goals
    simp only [Run.time.switchStd, time.switchStd, run_lookup, run_getnum, run_getnum3,
      run_dropSpace, run_switchPM, run_switchOffset, run_switchNumOffset, Run.ok_bind,
      decide_eq_true_eq]
  all_goals rfl


/-! ## The checked `quote` -/

theorem run_lowerhex {n : Nat} (h : n < 16) :
    Run.time.lowerhex n = .ok (time.lowerhex n) := by
  unfold Run.time.lowerhex time.lowerhex
  exact Run.index_eq (by simpa using h) '0'

theorem run_decoderune {s : List Char} (h : 0 < s.length) :
    Run.time.decoderune s = .ok (time.decoderune s) := by
  unfold Run.time.decoderune time.decoderune
  rw [Run.index_eq h ' ', Run.ok_bind]
  simp only [time.charAt]
  split
  · rw [Run.and_test _ (fun h => of_decide_eq_true h), Run.ok_bind]
    simp only [Bool.and_eq_true, decide_eq_true_eq]
    split
    · next h₁ =>
      rw [Run.index_eq h₁.1 ' ', Run.ok_bind]
      split <;> rfl
    · rfl
  · split
    · rw [Run.and_test_test _ _ (fun h => by
        have := of_decide_eq_true h
        omega), Run.ok_bind]
      simp only [Bool.and_eq_true, decide_eq_true_eq]
      split
      · next h₁ =>
        rw [Run.index_eq (show 1 < s.length by omega) ' ', Run.ok_bind,
          Run.index_eq h₁.1 ' ', Run.ok_bind]
        split <;> rfl
      · rfl
    · split
      · have hand : Run.and (pure (decide (3 < s.length)))
            (Run.and (Run.test s 1 fun c => decide (0x80 ≤ c.toNat ∧ c.toNat ≤ 0xBF))
              (Run.and (Run.test s 2 fun c => decide (0x80 ≤ c.toNat ∧ c.toNat ≤ 0xBF))
                (Run.test s 3 fun c => decide (0x80 ≤ c.toNat ∧ c.toNat ≤ 0xBF)))) =
            .ok (decide (3 < s.length) &&
              (decide (0x80 ≤ (s.getD 1 ' ').toNat ∧ (s.getD 1 ' ').toNat ≤ 0xBF) &&
                (decide (0x80 ≤ (s.getD 2 ' ').toNat ∧ (s.getD 2 ' ').toNat ≤ 0xBF) &&
                  decide (0x80 ≤ (s.getD 3 ' ').toNat ∧ (s.getD 3 ' ').toNat ≤ 0xBF)))) := by
          refine Run.and_eq fun h => ?_
          have := of_decide_eq_true h
          rw [Run.test_eq (show 1 < s.length by omega), Run.test_eq (show 2 < s.length by omega),
            Run.test_eq (show 3 < s.length by omega)]
          exact Run.and_eq fun _ => Run.and_eq fun _ => rfl
        rw [hand, Run.ok_bind]
        simp only [Bool.and_eq_true, decide_eq_true_eq]
        split
        · next h₁ =>
          rw [Run.index_eq (show 1 < s.length by omega) ' ', Run.ok_bind,
            Run.index_eq (show 2 < s.length by omega) ' ', Run.ok_bind,
            Run.index_eq h₁.1 ' ', Run.ok_bind]
          split <;> rfl
        · rfl
      · rfl

theorem run_rangeRune {s : List Char} (h : 0 < s.length) :
    Run.time.rangeRune s = .ok (time.rangeRune s) := by
  unfold Run.time.rangeRune time.rangeRune
  rw [Run.index_eq h ' ', Run.ok_bind]
  simp only [time.charAt]
  split
  · rfl
  · exact run_decoderune h

namespace time

/-- A rune that `decoderune` reads takes as many bytes as its encoding, and
the bytes are there. -/
theorem decoderune_width (s : List Char) (h : 0 < s.length) :
    1 ≤ (decoderune s).2 ∧ (decoderune s).2 ≤ s.length ∧
      ((decoderune s).1 ≠ 0xFFFD → runeLen (decoderune s).1 = (decoderune s).2) := by
  unfold decoderune
  simp only
  generalize (charAt s 0).toNat = b₀
  generalize (charAt s 1).toNat = b₁
  generalize (charAt s 2).toNat = b₂
  generalize (charAt s 3).toNat = b₃
  have bad : 1 ≤ ((0xFFFD, 1) : Nat × Nat).2 ∧ ((0xFFFD, 1) : Nat × Nat).2 ≤ s.length ∧
      (((0xFFFD, 1) : Nat × Nat).1 ≠ 0xFFFD → runeLen ((0xFFFD, 1) : Nat × Nat).1 =
        ((0xFFFD, 1) : Nat × Nat).2) := ⟨le_refl _, h, fun hn => absurd rfl hn⟩
  split
  · split
    · split
      · next h₀ h₁ hr =>
        refine ⟨Nat.le_add_left 1 1, h₁.1, fun _ => ?_⟩
        show runeLen (b₀ % 32 * 64 + b₁ % 64) = 2
        unfold runeLen
        rw [if_neg (by omega), if_pos (by omega)]
      · exact bad
    · exact bad
  · split
    · split
      · split
        · next h₀ h₁ hr =>
          refine ⟨Nat.le_add_left 1 2, h₁.1, fun _ => ?_⟩
          show runeLen (b₀ % 16 * 4096 + b₁ % 64 * 64 + b₂ % 64) = 3
          unfold runeLen
          rw [if_neg (by omega), if_neg (by omega), if_neg (by omega), if_pos (by omega)]
        · exact bad
      · exact bad
    · split
      · split
        · split
          · next h₀ h₁ hr =>
            refine ⟨Nat.le_add_left 1 3, h₁.1, fun _ => ?_⟩
            show runeLen (b₀ % 8 * 262144 + b₁ % 64 * 4096 + b₂ % 64 * 64 + b₃ % 64) = 4
            unfold runeLen
            rw [if_neg (by omega), if_neg (by omega), if_neg (by omega), if_neg (by omega)]
          · exact bad
        · exact bad
      · exact bad

/-- One step of a `range` over a string takes at least one byte, and no more
than there are; the encoding of the rune it reads is no longer. -/
theorem rangeRune_width (s : List Char) (h : 0 < s.length) :
    1 ≤ (rangeRune s).2 ∧ (rangeRune s).2 ≤ s.length ∧
      ((rangeRune s).1 ≠ 0xFFFD → runeLen (rangeRune s).1 ≤ s.length) := by
  unfold rangeRune
  split
  · next hlt =>
    refine ⟨le_refl _, h, fun _ => ?_⟩
    unfold runeLen
    rw [if_pos (by show (charAt s 0).toNat ≤ 0x7F; omega)]
    exact h
  · obtain ⟨h₁, h₂, h₃⟩ := decoderune_width s h
    exact ⟨h₁, h₂, fun hn => by rw [h₃ hn]; exact h₂⟩

end time

theorem run_quoteHex {s : List Char} (hb : ∀ c ∈ s, c.toNat < 256) :
    ∀ (k j : Nat), j + k ≤ s.length →
      Run.time.quoteHex s k j = .ok (time.quoteHex s k j) := by
  intro k
  induction k with
  | zero => intro j _; rfl
  | succ k ih =>
    intro j hj
    have hlt : j < s.length := by omega
    have hc : (s.getD j ' ').toNat < 256 := by
      rw [getD_eq_getElem hlt]
      exact hb _ (List.getElem_mem _)
    unfold Run.time.quoteHex time.quoteHex
    rw [Run.index_eq hlt ' ', Run.ok_bind, run_lowerhex (by omega), Run.ok_bind, Run.ok_bind,
      run_lowerhex (Nat.mod_lt _ (by decide)), Run.ok_bind, ih (j + 1) (by omega), Run.ok_bind]
    rfl

theorem run_quoteLoop :
    ∀ (fuel : Nat) (s : List Char), (∀ c ∈ s, c.toNat < 256) → s.length ≤ fuel →
      Run.time.quoteLoop fuel s = .ok (time.quoteLoop fuel s) := by
  intro fuel
  induction fuel with
  | zero =>
    intro s _ hl
    unfold Run.time.quoteLoop time.quoteLoop
    rw [if_pos (by omega)]
    rfl
  | succ fuel ih =>
    intro s hb hl
    unfold Run.time.quoteLoop time.quoteLoop
    split
    · rfl
    · next hne =>
      have hpos : 0 < s.length := by omega
      obtain ⟨hw₁, hw₂, hw₃⟩ := time.rangeRune_width s hpos
      rw [run_rangeRune hpos, Run.ok_bind]
      have hrest : Run.time.quoteLoop fuel (s.drop (time.rangeRune s).2) =
          .ok (time.quoteLoop fuel (s.drop (time.rangeRune s).2)) :=
        ih _ (fun c hc => hb c (List.mem_of_mem_drop hc)) (by rw [List.length_drop]; omega)
      simp only [time.charAt]
      split
      · split
        · have hand : Run.and (pure (decide (2 < s.length))) (do
              pure (decide ((← Run.slice s 0 3) = time.runeErrorBytes))) =
              .ok (decide (2 < s.length) && decide (s.take 3 = time.runeErrorBytes)) := by
            refine Run.and_eq fun h => ?_
            have := of_decide_eq_true h
            rw [Run.slice_eq (by omega) (by omega), Run.ok_bind]
            rfl
          rw [hand, Run.ok_bind]
          simp only [Bool.and_eq_true, decide_eq_true_eq]
          split
          · next h₃ =>
            rw [Run.pure_eq_ok, Run.ok_bind, run_quoteHex hb 3 0 (by omega), Run.ok_bind,
              Run.sliceFrom_eq hw₂, Run.ok_bind, hrest, Run.ok_bind]
            rfl
          · rw [Run.pure_eq_ok, Run.ok_bind, run_quoteHex hb 1 0 (by omega), Run.ok_bind,
              Run.sliceFrom_eq hw₂, Run.ok_bind, hrest, Run.ok_bind]
            rfl
        · next hne' =>
          rw [Run.pure_eq_ok, Run.ok_bind, run_quoteHex hb _ 0 (by have := hw₃ hne'; omega),
            Run.ok_bind, Run.sliceFrom_eq hw₂, Run.ok_bind, hrest, Run.ok_bind]
          rfl
      · split
        · rw [Run.index_eq hpos ' ', Run.ok_bind, Run.pure_eq_ok, Run.ok_bind,
            Run.sliceFrom_eq hw₂, Run.ok_bind, hrest, Run.ok_bind]
          rfl
        · rw [Run.index_eq hpos ' ', Run.ok_bind, Run.pure_eq_ok, Run.ok_bind,
            Run.sliceFrom_eq hw₂, Run.ok_bind, hrest, Run.ok_bind]
          rfl

theorem run_quote {s : List Char} (hb : ∀ c ∈ s, c.toNat < 256) :
    Run.time.quote s = .ok (time.quote s) := by
  unfold Run.time.quote time.quote
  rw [run_quoteLoop _ _ hb (le_refl _), Run.ok_bind]
  rfl

/-! ## The value is read from the front -/

namespace time

theorem cutspace_suffix (s : List Char) : cutspace s <:+ s :=
  List.dropWhile_suffix _

theorem skipN_suffix :
    ∀ (k : Nat) (value pre : List Char), (skipN k value pre).1 <:+ value := by
  intro k
  induction k with
  | zero => intro value pre; exact List.suffix_refl _
  | succ k ih =>
    intro value pre
    unfold skipN
    split
    · exact List.suffix_refl _
    · split
      · split
        · exact List.suffix_refl _
        · exact (ih _ _).trans (cutspace_suffix _)
      · split
        · exact List.suffix_refl _
        · exact (ih _ _).trans (List.drop_suffix _ _)

theorem skip_suffix (value pre : List Char) : (skip value pre).1 <:+ value :=
  skipN_suffix _ _ _

theorem getnum_suffix (s : List Char) (fixed : Bool) : (getnum s fixed).2.1 <:+ s := by
  unfold getnum
  split
  · exact List.suffix_refl _
  · split
    · split
      · exact List.suffix_refl _
      · exact List.drop_suffix _ _
    · exact List.drop_suffix _ _

theorem getnum3_suffix (s : List Char) (fixed : Bool) : (getnum3 s fixed).2.1 <:+ s := by
  unfold getnum3
  split
  split
  · exact List.suffix_refl _
  · exact List.drop_suffix _ _

theorem lookupFrom_suffix (tab : List GoString) :
    ∀ (i : ℤ) (val : List Char), (lookupFrom i tab val).2.1 <:+ val := by
  induction tab with
  | nil => intro i val; exact List.suffix_refl _
  | cons v tab ih =>
    intro i val
    unfold lookupFrom
    split
    · exact List.drop_suffix _ _
    · exact ih _ _

theorem lookup_suffix (tab : List GoString) (val : List Char) : (lookup tab val).2.1 <:+ val :=
  lookupFrom_suffix tab 0 val

theorem offsetPieces_suffix {std : Std} {value sign hour min seconds value' : List Char}
    (h : offsetPieces std value = some (sign, hour, min, seconds, value')) : value' <:+ value := by
  unfold offsetPieces at h
  repeat' split at h
  all_goals first
    | (cases h; done)
    | (cases h; exact List.drop_suffix _ _)

theorem switchNumOffset_suffix (std : Std) (f : Fields) (value : List Char) :
    (switchNumOffset std f value).value <:+ value := by
  unfold switchNumOffset
  split
  · exact List.suffix_refl _
  · next sign hour min seconds value' h =>
    have := offsetPieces_suffix h
    simp only
    split
    · exact this
    · split <;> exact this

theorem switchOffset_suffix (std : Std) (f : Fields) (value : List Char) :
    (switchOffset std f value).value <:+ value := by
  unfold switchOffset
  split
  · exact List.drop_suffix _ _
  · exact switchNumOffset_suffix _ _ _

/-- What an element leaves of the value is an end of the value. -/
theorem switchStd_suffix (std : Std) (l : List Char) (f : Fields) (value : List Char) :
    (switchStd std l f value).value <:+ value := by
  have hd : ∀ (p : Prop) [Decidable p] (v : List Char), (if p then v.drop 1 else v) <:+ v := by
    intro p _ v
    split
    · exact List.drop_suffix _ _
    · exact List.suffix_refl _
  cases std
  case stdISO8601TZ => exact switchOffset_suffix _ _ _
  case stdISO8601SecondsTZ => exact switchOffset_suffix _ _ _
  case stdISO8601ShortTZ => exact switchOffset_suffix _ _ _
  case stdISO8601ColonTZ => exact switchOffset_suffix _ _ _
  case stdISO8601ColonSecondsTZ => exact switchOffset_suffix _ _ _
  case stdNumTZ => exact switchNumOffset_suffix _ _ _
  case stdNumSecondsTz => exact switchNumOffset_suffix _ _ _
  case stdNumShortTZ => exact switchNumOffset_suffix _ _ _
  case stdNumColonTZ => exact switchNumOffset_suffix _ _ _
  case stdNumColonSecondsTZ => exact switchNumOffset_suffix _ _ _
  case stdMonth => exact lookup_suffix shortMonthNames value
  case stdLongMonth => exact lookup_suffix longMonthNames value
  case stdWeekDay => exact lookup_suffix shortDayNames value
  case stdLongWeekDay => exact lookup_suffix longDayNames value
  case stdNumMonth => exact getnum_suffix _ _
  case stdZeroMonth => exact getnum_suffix _ _
  case stdHour => exact getnum_suffix _ _
  case stdHour12 => exact getnum_suffix _ _
  case stdZeroHour12 => exact getnum_suffix _ _
  case stdMinute => exact getnum_suffix _ _
  case stdZeroMinute => exact getnum_suffix _ _
  case stdDay => exact (getnum_suffix _ _).trans (hd _ _)
  case stdUnderDay => exact (getnum_suffix _ _).trans (hd _ _)
  case stdZeroDay => exact (getnum_suffix _ _).trans (hd _ _)
  case stdUnderYearDay => exact (getnum3_suffix _ _).trans ((hd _ _).trans (hd _ _))
  case stdZeroYearDay => exact (getnum3_suffix _ _).trans ((hd _ _).trans (hd _ _))
  case stdSecond =>
    simp only [switchStd]
    repeat' split
    all_goals first
      | exact getnum_suffix _ _
      | exact (List.drop_suffix _ _).trans (getnum_suffix _ _)
  case stdZeroSecond =>
    simp only [switchStd]
    repeat' split
    all_goals first
      | exact getnum_suffix _ _
      | exact (List.drop_suffix _ _).trans (getnum_suffix _ _)
  all_goals
    simp only [switchStd]
    repeat' split
    all_goals first
      | exact List.suffix_refl _
      | exact List.drop_suffix _ _

end time

/-! ## The checked loop of `parse` -/

namespace time

theorem chunk_pre {layout pre suffix : List Char} {std std' : Std} {k : Nat}
    (h : chunk std' k layout = some (pre, std, suffix)) : pre.length ≤ 1 := by
  simp only [chunk, Option.some.injEq, Prod.mk.injEq] at h
  obtain ⟨rfl, -, -⟩ := h
  exact Nat.zero_le _

/-- The literal text that `stdAt` puts in front of an element is at most one
character. -/
theorem stdAt_pre {layout pre suffix : List Char} {std : Std}
    (h : stdAt layout = some (pre, std, suffix)) : pre.length ≤ 1 := by
  cases layout with
  | nil => cases h
  | cons c rest =>
    rw [stdAt_cons] at h
    by_cases h₁ : c = 'J'
    · rw [if_pos h₁] at h
      unfold stdAtJ at h
      repeat' split at h
      all_goals first
        | exact chunk_pre h
        | cases h
    rw [if_neg h₁] at h
    by_cases h₂ : c = 'M'
    · rw [if_pos h₂] at h
      unfold stdAtM at h
      repeat' split at h
      all_goals first
        | exact chunk_pre h
        | cases h
    rw [if_neg h₂] at h
    by_cases h₃ : c = '0'
    · rw [if_pos h₃] at h
      unfold stdAt0 at h
      repeat' split at h
      all_goals first
        | exact chunk_pre h
        | cases h
    rw [if_neg h₃] at h
    by_cases h₄ : c = '1'
    · rw [if_pos h₄] at h
      split at h <;> exact chunk_pre h
    rw [if_neg h₄] at h
    by_cases h₅ : c = '2'
    · rw [if_pos h₅] at h
      split at h <;> exact chunk_pre h
    rw [if_neg h₅] at h
    by_cases h₆ : c = '_'
    · rw [if_pos h₆] at h
      unfold stdAtUnderscore at h
      repeat' split at h
      all_goals first
        | exact chunk_pre h
        | (cases h; done)
        | (cases h; exact le_refl _)
    rw [if_neg h₆] at h
    by_cases h₇ : c = '3'
    · rw [if_pos h₇] at h; exact chunk_pre h
    rw [if_neg h₇] at h
    by_cases h₈ : c = '4'
    · rw [if_pos h₈] at h; exact chunk_pre h
    rw [if_neg h₈] at h
    by_cases h₉ : c = '5'
    · rw [if_pos h₉] at h; exact chunk_pre h
    rw [if_neg h₉] at h
    by_cases h₁₀ : c = 'P'
    · rw [if_pos h₁₀] at h
      split at h
      · exact chunk_pre h
      · cases h
    rw [if_neg h₁₀] at h
    by_cases h₁₁ : c = 'p'
    · rw [if_pos h₁₁] at h
      split at h
      · exact chunk_pre h
      · cases h
    rw [if_neg h₁₁] at h
    by_cases h₁₂ : c = '-'
    · rw [if_pos h₁₂] at h
      unfold stdAtMinus at h
      repeat' split at h
      all_goals first
        | exact chunk_pre h
        | cases h
    rw [if_neg h₁₂] at h
    by_cases h₁₃ : c = 'Z'
    · rw [if_pos h₁₃] at h
      unfold stdAtZ at h
      repeat' split at h
      all_goals first
        | exact chunk_pre h
        | cases h
    rw [if_neg h₁₃] at h
    by_cases h₁₄ : c = '.' ∨ c = ','
    · rw [if_pos h₁₄] at h
      unfold stdAtFrac at h
      simp only at h
      repeat' split at h
      all_goals first
        | (cases h; done)
        | (cases h; exact Nat.zero_le _)
    rw [if_neg h₁₄] at h
    cases h

/-- The literal text and the rest of the layout that `nextStdChunk` returns
fit in the layout. -/
theorem nextStdChunk_length :
    ∀ {layout pre suffix : List Char} {std : Option Std},
      nextStdChunk layout = (pre, std, suffix) → pre.length + suffix.length ≤ layout.length := by
  intro layout
  induction layout with
  | nil =>
    intro pre suffix std h
    simp only [nextStdChunk, Prod.mk.injEq] at h
    obtain ⟨rfl, -, rfl⟩ := h
    exact le_refl _
  | cons c rest ih =>
    intro pre suffix std h
    unfold nextStdChunk at h
    split at h
    · next p s suf hat =>
      simp only [Prod.mk.injEq] at h
      obtain ⟨rfl, -, rfl⟩ := h
      have h₁ := stdAt_pre hat
      have h₂ := stdAt_suffix_lt hat
      omega
    · split at h
      next p s suf hrec =>
      simp only [Prod.mk.injEq] at h
      obtain ⟨rfl, -, rfl⟩ := h
      have := ih hrec
      simp only [List.length_cons]
      omega

end time

/-- The loop of `parse` under `Run` ends as the loop of `parse` does, with the
same result, and is cut short only where that one is. -/
theorem run_parseLoop (alayout avalue : GoString) :
    ∀ (fuel : Nat) (layout : List Char) (f : time.Fields) (value : List Char),
      (∀ c ∈ value, c.toNat < 256) →
      Run.time.parseLoop alayout avalue fuel layout f value =
        match time.parseLoop alayout avalue fuel layout f value with
        | some r => .ok r
        | none => .error .stillRunning := by
  intro fuel
  induction fuel with
  | zero => intro layout f value _; rfl
  | succ fuel ih =>
    intro layout f value hb
    unfold Run.time.parseLoop time.parseLoop
    rw [run_nextStdChunk, Run.ok_bind]
    cases hc : time.nextStdChunk layout with
    | mk pre r =>
      obtain ⟨std, suffix⟩ := r
      have hlen := time.nextStdChunk_length hc
      simp only
      rw [if_neg (by omega), Run.slice_eq (by omega) (by omega), Run.ok_bind, run_skip,
        Run.ok_bind]
      cases hs : time.skip value pre with
      | mk value₁ err =>
        have hb₁ : ∀ c ∈ value₁, c.toNat < 256 := fun c hc => by
          have hsuf := time.skip_suffix value pre
          rw [hs] at hsuf
          exact hb c (hsuf.subset hc)
        cases err with
        | some e => rfl
        | none =>
          simp only [ne_eq, not_true_eq_false, if_false]
          cases std with
          | none =>
            simp only
            split
            · rw [run_quote hb₁, Run.ok_bind]
              rfl
            · rfl
          | some std =>
            simp only
            rw [run_switchStd, Run.ok_bind]
            split
            · rfl
            · split
              · rfl
              · exact ih _ _ _ fun c hc =>
                  hb₁ c ((time.switchStd_suffix std suffix f value₁).subset hc)


/-! ## The month that `parse` holds -/

namespace time

theorem lookupFrom_range (tab : List GoString) :
    ∀ (i : ℤ) (val : List Char), (lookupFrom i tab val).2.2 = none →
      i ≤ (lookupFrom i tab val).1 ∧ (lookupFrom i tab val).1 < i + tab.length := by
  induction tab with
  | nil => intro i val h; simp [lookupFrom] at h
  | cons v tab ih =>
    intro i val h
    unfold lookupFrom at h ⊢
    split
    · simp only [List.length_cons]
      push_cast
      omega
    · next hn =>
      rw [if_neg hn] at h
      have := ih (i + 1) val h
      simp only [List.length_cons]
      push_cast
      omega

theorem switchNumOffset_month (std : Std) (f : Fields) (value : List Char) :
    (switchNumOffset std f value).fields.month = f.month := by
  unfold switchNumOffset
  split
  · rfl
  · simp only
    split
    · rfl
    · split <;> rfl

theorem switchOffset_month (std : Std) (f : Fields) (value : List Char) :
    (switchOffset std f value).fields.month = f.month := by
  unfold switchOffset
  split
  · rfl
  · exact switchNumOffset_month _ _ _

/-- An element read without error leaves a month of the calendar. -/
theorem switchStd_month (std : Std) (l : List Char) (f : Fields) (value : List Char)
    (hf : MonthOk f.month) (hr : (switchStd std l f value).rangeErrString = "")
    (he : (switchStd std l f value).err = none) :
    MonthOk (switchStd std l f value).fields.month := by
  have keep : (switchStd std l f value).fields.month = f.month →
      MonthOk (switchStd std l f value).fields.month := fun h => by rw [h]; exact hf
  cases std
  case stdMonth =>
    simp only [switchStd] at he ⊢
    have := lookupFrom_range shortMonthNames 0 value he
    right
    show 1 ≤ (lookup shortMonthNames value).1 + 1 ∧ (lookup shortMonthNames value).1 + 1 ≤ 12
    have hl : ((shortMonthNames.length : Nat) : ℤ) = 12 := rfl
    rw [hl] at this
    unfold lookup
    omega
  case stdLongMonth =>
    simp only [switchStd] at he ⊢
    have := lookupFrom_range longMonthNames 0 value he
    right
    show 1 ≤ (lookup longMonthNames value).1 + 1 ∧ (lookup longMonthNames value).1 + 1 ≤ 12
    have hl : ((longMonthNames.length : Nat) : ℤ) = 12 := rfl
    rw [hl] at this
    unfold lookup
    omega
  case stdNumMonth =>
    simp only [switchStd] at he hr ⊢
    right
    by_contra hc
    rw [if_pos ⟨he, by omega⟩] at hr
    exact absurd hr (by decide)
  case stdZeroMonth =>
    simp only [switchStd] at he hr ⊢
    right
    by_contra hc
    rw [if_pos ⟨he, by omega⟩] at hr
    exact absurd hr (by decide)
  case stdISO8601TZ => exact keep (switchOffset_month _ _ _)
  case stdISO8601SecondsTZ => exact keep (switchOffset_month _ _ _)
  case stdISO8601ShortTZ => exact keep (switchOffset_month _ _ _)
  case stdISO8601ColonTZ => exact keep (switchOffset_month _ _ _)
  case stdISO8601ColonSecondsTZ => exact keep (switchOffset_month _ _ _)
  case stdNumTZ => exact keep (switchNumOffset_month _ _ _)
  case stdNumSecondsTz => exact keep (switchNumOffset_month _ _ _)
  case stdNumShortTZ => exact keep (switchNumOffset_month _ _ _)
  case stdNumColonTZ => exact keep (switchNumOffset_month _ _ _)
  case stdNumColonSecondsTZ => exact keep (switchNumOffset_month _ _ _)
  all_goals
    apply keep
    simp only [switchStd]
    repeat' split
    all_goals rfl

/-- The loop of `parse` ends with a month of the calendar, or with none. -/
theorem parseLoop_month (alayout avalue : GoString) :
    ∀ (fuel : Nat) (layout : List Char) (f : Fields) (value : List Char)
      (r : Fields × List Char), MonthOk f.month →
      parseLoop alayout avalue fuel layout f value = some (.ok r) → MonthOk r.1.month := by
  intro fuel
  induction fuel with
  | zero => intro layout f value r _ h; cases h
  | succ fuel ih =>
    intro layout f value r hf h
    unfold parseLoop at h
    split at h
    next pre std suffix hc =>
    split at h
    · cases h
    · next v₁ hs =>
      split at h
      · split at h
        · cases h
        · simp only [Option.some.injEq, Except.ok.injEq] at h
          rw [← h]
          exact hf
      · next std =>
        simp only at h
        split at h
        · cases h
        · next hr =>
          split at h
          · cases h
          · next he =>
            exact ih _ _ _ r
              (switchStd_month std suffix f v₁ hf (by simpa using hr) (by simpa using he)) h

end time


/-! ## The checked `parse` and `Parse` -/

theorem Run.indexInt_eq {s : List ℤ} {i : ℤ} (h₀ : 0 ≤ i) (h : i.toNat < s.length) :
    Run.indexInt s i = .ok (s.getD i.toNat 0) := by
  unfold Run.indexInt
  rw [if_neg (by omega)]
  exact Run.index_eq h 0

theorem run_daysIn {m : ℤ} (year : ℤ) (h₁ : 1 ≤ m) (h₂ : m ≤ 12) :
    Run.time.daysIn m year = .ok (time.daysIn m year) := by
  unfold Run.time.daysIn time.daysIn
  split
  · rfl
  · have hl : time.daysBefore.length = 13 := rfl
    rw [Run.indexInt_eq (by omega) (by rw [hl]; omega), Run.ok_bind,
      Run.indexInt_eq (by omega) (by rw [hl]; omega), Run.ok_bind]
    have : (m - 1).toNat = m.toNat - 1 := by omega
    rw [this]
    rfl

theorem run_locationOf (f : time.Fields) (defaultLocation : time.Location) :
    Run.time.locationOf f defaultLocation = .ok (time.locationOf f defaultLocation) := by
  unfold Run.time.locationOf time.locationOf
  cases f.z with
  | some z => rfl
  | none =>
    simp only
    split
    · rfl
    · split
      · have hand : Run.and (pure (decide (3 < f.zoneName.length))) (do
            pure (decide ((← Run.slice f.zoneName 0 3) = "GMT".data))) =
            .ok (decide (3 < f.zoneName.length) && decide (f.zoneName.take 3 = "GMT".data)) := by
          refine Run.and_eq fun h => ?_
          have := of_decide_eq_true h
          rw [Run.slice_eq (Nat.zero_le _) (by omega), Run.ok_bind]
          rfl
        rw [hand, Run.ok_bind]
        simp only [Bool.and_eq_true, decide_eq_true_eq]
        split
        · next h =>
          rw [Run.sliceFrom_eq (by omega), Run.ok_bind, run_atoi, Run.ok_bind]
          rfl
        · rfl
      · rfl

/-- The day of the year that `monthDay` converts names a month of the
calendar. -/
theorem time.yday_month {y : ℤ} (h₁ : 1 ≤ y) (h₂ : y ≤ 365) :
    1 ≤ (y - 1) / 31 + 1 ∧ (y - 1) / 31 + 1 ≤ 12 ∧
      1 ≤ (if time.daysBefore.getD ((y - 1) / 31 + 1).toNat 0 < y then (y - 1) / 31 + 1 + 1
        else (y - 1) / 31 + 1) ∧
      (if time.daysBefore.getD ((y - 1) / 31 + 1).toNat 0 < y then (y - 1) / 31 + 1 + 1
        else (y - 1) / 31 + 1) ≤ 12 := by
  have hq : 0 ≤ (y - 1) / 31 ∧ (y - 1) / 31 ≤ 11 := by omega
  obtain ⟨q, hq'⟩ : ∃ q : ℤ, (y - 1) / 31 = q := ⟨_, rfl⟩
  rw [hq'] at hq ⊢
  refine ⟨by omega, by omega, ?_, ?_⟩
  · split <;> omega
  · have hq0 := hq.1
    have hq1 := hq.2
    interval_cases q
    all_goals first
      | (split <;> omega)
      | (rw [if_neg (by
           show ¬ ((365 : ℤ) < y)
           omega)]
         omega)

theorem run_monthDay (year month day yday : ℤ) :
    Run.time.monthDay year month day yday = .ok (time.monthDay year month day yday) := by
  unfold Run.time.monthDay time.monthDay
  split
  · simp only
    generalize (if time.isLeap year = true ∧ yday ≠ 31 + 29 ∧ yday > 31 + 29 then yday - 1
      else yday) = y
    split
    · rfl
    · next hy =>
      simp only [not_or, not_lt] at hy
      obtain ⟨hm₁, hm₂, hm₃, hm₄⟩ := time.yday_month hy.1 hy.2
      have hl : time.daysBefore.length = 13 := rfl
      by_cases hfeb : time.isLeap year = true ∧ yday = 31 + 29
      · simp only [hfeb, and_self, decide_True, if_true, Run.pure_eq_ok, Run.ok_bind]
        split
        · rfl
        · split <;> rfl
      · simp only [hfeb, decide_False, Bool.false_eq_true, if_false]
        rw [Run.indexInt_eq (by omega) (by rw [hl]; omega), Run.ok_bind]
        simp only [Run.pure_eq_ok]
        rw [Run.indexInt_eq (by omega) (by rw [hl]; omega), Run.ok_bind, Run.ok_bind]
        simp only
        have ht : ∀ m : ℤ, 1 ≤ m → (m - 1).toNat = m.toNat - 1 := fun m hm => by omega
        rw [ht _ hm₃]
        repeat' split
        all_goals rfl
  · rfl

/-- The month that `monthDay` settles on is a month of the calendar. -/
theorem time.monthDay_month {year month day yday m d : ℤ} (hm : time.MonthOk month)
    (h : time.monthDay year month day yday = .ok (m, d)) : 1 ≤ m ∧ m ≤ 12 := by
  have key : ∀ (c₁ c₂ : Prop) [Decidable c₁] [Decidable c₂] (a b : GoString) (x y : ℤ × ℤ),
      (if c₁ then (Except.error a : Except GoString (ℤ × ℤ)) else
        if c₂ then .error b else .ok x) = .ok y → x = y := by
    intro c₁ c₂ _ _ a b x y h
    by_cases h₁ : c₁
    · rw [if_pos h₁] at h
      cases h
    · rw [if_neg h₁] at h
      by_cases h₂ : c₂
      · rw [if_pos h₂] at h
        cases h
      · rw [if_neg h₂] at h
        cases h
        rfl
  unfold time.monthDay at h
  split at h
  · simp only at h
    generalize (if time.isLeap year = true ∧ yday ≠ 31 + 29 ∧ yday > 31 + 29 then yday - 1
      else yday) = y at h
    split at h
    · cases h
    · next hy =>
      simp only [not_or, not_lt] at hy
      obtain ⟨hm₁, hm₂, hm₃, hm₄⟩ := time.yday_month hy.1 hy.2
      have h' := key _ _ _ _ _ _ h
      simp only [Prod.mk.injEq] at h'
      obtain ⟨h', -⟩ := h'
      rw [← h']
      split
      · omega
      · exact ⟨hm₃, hm₄⟩
  · simp only [Except.ok.injEq, Prod.mk.injEq] at h
    obtain ⟨rfl, -⟩ := h
    rcases hm with hm | hm
    · rw [hm]; decide
    · rw [if_neg (by omega)]; exact hm

theorem run_parse (layout value : GoString) (defaultLocation : time.Location) :
    Run.time.parse layout value defaultLocation =
      .ok (time.parse layout value defaultLocation) := by
  unfold Run.time.parse time.parse
  rw [run_parseLoop _ _ _ _ _ _ (bytesOf_lt value)]
  have hsome := time.parseLoop_isSome layout value ((bytesOf layout).length + 1) (bytesOf layout)
    {} (bytesOf value) (Nat.lt_succ_self _)
  cases hl : time.parseLoop layout value ((bytesOf layout).length + 1) (bytesOf layout) {}
      (bytesOf value) with
  | none => rw [hl] at hsome; cases hsome
  | some r =>
    cases r with
    | error e => rfl
    | ok p =>
      obtain ⟨f, rest⟩ := p
      have hmonth := time.parseLoop_month layout value _ _ _ _ (f, rest) (Or.inl rfl) hl
      simp only [Run.ok_bind]
      rw [run_monthDay, Run.ok_bind]
      cases hmd : time.monthDay f.year f.month f.day f.yday with
      | error msg => rfl
      | ok md =>
        obtain ⟨m, d⟩ := md
        obtain ⟨hm₁, hm₂⟩ := time.monthDay_month hmonth hmd
        simp only [Run.pure_eq_ok]
        rw [Run.or_eq (c := decide (d > time.daysIn m f.year)) (fun _ => by
          rw [run_daysIn _ hm₁ hm₂, Run.ok_bind]), Run.ok_bind]
        simp only [Bool.or_eq_true, decide_eq_true_eq]
        split
        · rfl
        · rw [run_locationOf, Run.ok_bind]

/-- What `parseUint` returns lies between its bounds. -/
theorem time.parseUint_range (s : List Char) {min max : ℤ} (h : min ≤ max) :
    min ≤ (time.parseUint s min max).1 ∧ (time.parseUint s min max).1 ≤ max := by
  unfold time.parseUint
  cases time.parseUintLoop 0 s with
  | none => exact ⟨le_refl _, h⟩
  | some x =>
    simp only
    split
    · exact ⟨le_refl _, h⟩
    · next hx =>
      simp only [not_or, not_lt] at hx
      exact hx

theorem run_rfc3339Frac (s : List Char) :
    Run.time.rfc3339Frac s =
      .ok (if 2 ≤ s.length ∧ time.charAt s 0 = '.' ∧ time.isDigit s 1 = true then
        ((time.parseNanoseconds s (time.fracLen s)).1, s.drop (time.fracLen s)) else (0, s)) := by
  unfold Run.time.rfc3339Frac
  have hand : Run.and (pure (decide (2 ≤ s.length)))
      (Run.and (Run.test s 0 fun c => decide (c = '.')) (Run.time.isDigit s 1)) =
      .ok (decide (2 ≤ s.length) && (decide (time.charAt s 0 = '.') && time.isDigit s 1)) := by
    rw [run_isDigit]
    refine Run.and_eq fun h => ?_
    have := of_decide_eq_true h
    rw [Run.test_eq (by omega)]
    exact Run.and_eq fun _ => rfl
  rw [hand, Run.ok_bind]
  simp only [Bool.and_eq_true, decide_eq_true_eq]
  split
  · next h =>
    rw [run_fracLen, Run.ok_bind, run_parseNanoseconds (by unfold time.fracLen; omega)
      (time.fracLen_le h.1), Run.ok_bind]
    rw [Run.sliceFrom_eq (time.fracLen_le h.1), Run.ok_bind]
    rfl
  · rfl

theorem run_rfc3339Zone (year month day hour min sec nsec : ℤ) (s : List Char) :
    Run.time.rfc3339Zone year month day hour min sec nsec s =
      .ok (if s.length ≠ 1 ∨ time.charAt s 0 ≠ 'Z' then
        if s.length ≠ 6 then none
        else
          if ((time.parseUint ((s.take 3).drop 1) 0 23).2 &&
              (time.parseUint ((s.take 6).drop 4) 0 59).2) = false ∨
              ¬ ((time.charAt s 0 = '-' ∨ time.charAt s 0 = '+') ∧ time.charAt s 3 = ':') then none
          else
            some ⟨year, month, day, hour, min, sec, nsec,
              .fixed "" (if time.charAt s 0 = '-' then
                -(((time.parseUint ((s.take 3).drop 1) 0 23).1 * 60 +
                  (time.parseUint ((s.take 6).drop 4) 0 59).1) * 60)
                else ((time.parseUint ((s.take 3).drop 1) 0 23).1 * 60 +
                  (time.parseUint ((s.take 6).drop 4) 0 59).1) * 60)⟩
      else some ⟨year, month, day, hour, min, sec, nsec, .UTC⟩) := by
  unfold Run.time.rfc3339Zone
  have hor : Run.or (pure (decide (s.length ≠ 1))) (Run.test s 0 fun c => decide (c ≠ 'Z')) =
      .ok (decide (s.length ≠ 1) || decide (time.charAt s 0 ≠ 'Z')) := by
    refine Run.or_eq fun h => ?_
    have := of_decide_eq_false h
    rw [Run.test_eq (by omega)]
    rfl
  rw [hor, Run.ok_bind]
  simp only [Bool.or_eq_true, decide_eq_true_eq]
  split
  · split
    · rfl
    · next h₆ =>
      have h₆ : s.length = 6 := not_not.1 h₆
      rw [Run.slice_eq (by omega) (by omega), Run.ok_bind,
        Run.slice_eq (by omega) (by omega), Run.ok_bind]
      simp only [Run.index_eq (show 0 < s.length by omega) ' ',
        Run.index_eq (show 3 < s.length by omega) ' ', Run.ok_bind, Run.pure_eq_ok, Run.or_ok,
        time.charAt]
      generalize time.parseUint (List.drop 1 (List.take 3 s)) 0 23 = hr
      generalize time.parseUint (List.drop 4 (List.take 6 s)) 0 59 = mm
      cases hb : (hr.2 && mm.2) <;> by_cases h₁ : s.getD 0 ' ' = '-' <;>
        by_cases h₂ : s.getD 0 ' ' = '+' <;> by_cases h₃ : s.getD 3 ' ' = ':' <;>
        simp only [h₁, h₂, h₃, Bool.not_true, Bool.not_false, if_true, if_false, decide_True,
          decide_False, Bool.or_self, Bool.and_self, Bool.or_true, Bool.or_false, Bool.and_true,
          Bool.and_false, Bool.true_or, Bool.false_or, Bool.false_eq_true, true_or, or_true, or_false, false_or,
          and_true, and_false, true_and, false_and, not_true_eq_false, not_false_eq_true,
          Run.ok_bind, reduceCtorEq]
  · rfl

/-- The test of `parseRFC3339` between the date and the fraction. -/
theorem Run.guard_eq {α : Type} (c q : Bool) (P : Prop) [Decidable P] (hq : q = true ↔ P)
    (Z : Run (Option α)) (Z' : Option α) (hZ : Z = .ok Z') :
    ((if (!c) = true then (Except.ok true : Run Bool) else Except.ok (!q)) >>= fun b =>
      if b = true then Except.ok none else Z) =
      Except.ok (if c = false ∨ ¬ P then none else Z') := by
  subst hZ
  cases c
  · rfl
  · cases q
    · have : ¬ P := fun h => Bool.false_ne_true (hq.2 h)
      simp only [Bool.not_true, Bool.false_eq_true, if_false, Bool.not_false, Run.ok_bind,
        if_true, this, not_false_eq_true, or_true, reduceCtorEq]
    · have : P := hq.1 rfl
      simp only [Bool.not_true, Bool.false_eq_true, if_false, Run.ok_bind, this,
        not_true_eq_false, or_false, reduceCtorEq]

theorem run_parseRFC3339 (s : List Char) :
    Run.time.parseRFC3339 s = .ok (time.parseRFC3339 s) := by
  unfold Run.time.parseRFC3339 time.parseRFC3339
  split
  · rfl
  · next h =>
    obtain ⟨hm₁, hm₂⟩ := time.parseUint_range ((s.take 7).drop 5) (show (1 : ℤ) ≤ 12 by decide)
    have e₁ : Run.slice s 0 4 = .ok ((s.take 4).drop 0) := Run.slice_eq (by omega) (by omega)
    have e₂ : Run.slice s 5 7 = .ok ((s.take 7).drop 5) := Run.slice_eq (by omega) (by omega)
    have e₃ : Run.slice s 8 10 = .ok ((s.take 10).drop 8) := Run.slice_eq (by omega) (by omega)
    have e₄ : Run.slice s 11 13 = .ok ((s.take 13).drop 11) :=
      Run.slice_eq (by omega) (by omega)
    have e₅ : Run.slice s 14 16 = .ok ((s.take 16).drop 14) :=
      Run.slice_eq (by omega) (by omega)
    have e₆ : Run.slice s 17 19 = .ok ((s.take 19).drop 17) :=
      Run.slice_eq (by omega) (by omega)
    have i₁ : Run.index s 4 = .ok (s.getD 4 ' ') := Run.index_eq (by omega) ' '
    have i₂ : Run.index s 7 = .ok (s.getD 7 ' ') := Run.index_eq (by omega) ' '
    have i₃ : Run.index s 10 = .ok (s.getD 10 ' ') := Run.index_eq (by omega) ' '
    have i₄ : Run.index s 13 = .ok (s.getD 13 ' ') := Run.index_eq (by omega) ' '
    have i₅ : Run.index s 16 = .ok (s.getD 16 ' ') := Run.index_eq (by omega) ' '
    have e₇ : Run.sliceFrom s 19 = .ok (s.drop 19) := Run.sliceFrom_eq (by omega)
    simp only [e₁, e₂, e₃, e₄, e₅, e₆, i₁, i₂, i₃, i₄, i₅, e₇, Run.ok_bind, Run.pure_eq_ok,
      run_daysIn _ hm₁ hm₂, List.drop_zero, Run.or_ok]
    refine Run.guard_eq _ _ _ ?_ _ _ ?_
    · simp only [Bool.and_eq_true, decide_eq_true_eq, time.charAt, and_assoc]
    · rw [run_rfc3339Frac, Run.ok_bind]
      by_cases hfrac : 2 ≤ (s.drop 19).length ∧ time.charAt (s.drop 19) 0 = '.' ∧
          time.isDigit (s.drop 19) 1 = true
      · simp only [hfrac, and_self, decide_True, if_true]
        rw [run_rfc3339Zone]
      · simp only [hfrac, decide_False, Bool.false_eq_true, if_false]
        rw [run_rfc3339Zone]

/-! ## The checked predicates -/

theorem run_Parse (layout value : GoString) :
    Run.time.Parse layout value = .ok (time.Parse layout value) := by
  unfold Run.time.Parse time.Parse
  split
  · rw [run_parseRFC3339, Run.ok_bind]
    cases time.parseRFC3339 (bytesOf value) with
    | some t => rfl
    | none => exact run_parse layout value .UTC
  · exact run_parse layout value .UTC

theorem run_IsTime (str format : GoString) : Run.IsTime str format = .ok (IsTime str format) := by
  unfold Run.IsTime IsTime
  rw [run_Parse, Run.ok_bind]
  cases time.Parse format str <;> rfl

theorem run_IsRFC3339 (fl : FieldLevel) : Run.IsRFC3339 fl = .ok (IsRFC3339 fl) :=
  run_IsTime _ _

theorem run_IsRFC3339WithoutZone (fl : FieldLevel) :
    Run.IsRFC3339WithoutZone fl = .ok (IsRFC3339WithoutZone fl) :=
  run_IsTime _ _

theorem run_IsDatetime (fl : FieldLevel) : Run.IsDatetime fl = .ok (IsDatetime fl) := by
  unfold Run.IsDatetime IsDatetime
  rw [run_IsTime]
  exact Run.or_eq fun _ => run_IsTime _ _

/-- The pattern `Int` compiles, to the syntax tree `rxInt`. -/
theorem regexp.Compile_Int : regexp.Compile Int = some rxInt := by decide

/-- The pattern `Float` compiles, to the syntax tree `rxFloat`. -/
theorem regexp.Compile_Float : regexp.Compile Float = some rxFloat := by decide

/-- The pattern `DateExp` compiles, to the syntax tree `rxDate`. -/
theorem regexp.Compile_DateExp : regexp.Compile DateExp = some rxDate := by decide

/-- The initialiser of `rxInt` does not panic. -/
theorem run_rxInt : Run.rxInt = .ok rxInt := by
  unfold Run.rxInt Run.regexp.MustCompile
  rw [regexp.Compile_Int]
  rfl

/-- The initialiser of `rxFloat` does not panic. -/
theorem run_rxFloat : Run.rxFloat = .ok rxFloat := by
  unfold Run.rxFloat Run.regexp.MustCompile
  rw [regexp.Compile_Float]
  rfl

/-- The initialiser of `rxDate` does not panic. -/
theorem run_rxDate : Run.rxDate = .ok rxDate := by
  unfold Run.rxDate Run.regexp.MustCompile
  rw [regexp.Compile_DateExp]
  rfl

theorem run_IsInt (fl : FieldLevel) : Run.IsInt fl = .ok (IsInt fl) := by
  unfold Run.IsInt IsInt
  rw [run_rxInt, Run.ok_bind]
  split <;> rfl

theorem run_IsFloat (fl : FieldLevel) : Run.IsFloat fl = .ok (IsFloat fl) := by
  unfold Run.IsFloat IsFloat
  rw [run_rxFloat, Run.ok_bind]
  rfl

theorem run_IsDate (fl : FieldLevel) : Run.IsDate fl = .ok (IsDate fl) := by
  unfold Run.IsDate IsDate
  rw [run_rxDate, Run.ok_bind]
  split <;> rfl

/-- An index expression out of range is a fault of the checked functions. -/
theorem index_out_of_range_faults :
    Run.time.parseNanoseconds [] 1 = .error .indexOutOfRange ∧
      Run.time.matchFold "Jan".data "Ja".data = .error .indexOutOfRange :=
  ⟨rfl, rfl⟩

/-- A slice expression out of range is a fault of the checked functions. -/
theorem slice_out_of_range_faults :
    Run.time.chunk .stdMonth 3 "Ja".data = .error .sliceBoundsOutOfRange :=
  rfl

/-- A pattern that does not parse makes `MustCompile` panic. -/
theorem MustCompile_panics :
    Run.regexp.MustCompile "[0-9" = .error (.panicked "regexp: Compile([0-9)") ∧
      Run.regexp.MustCompile "a**" = .error (.panicked "regexp: Compile(a**)") :=
  ⟨rfl, rfl⟩

/-- The loop of `parse`, cut short, is reported as still running. -/
theorem parseLoop_cut_short :
    Run.time.parseLoop "2006" "2024" 1 "2006".data {} "2024".data = .error .stillRunning :=
  rfl

/-- C10: none of the predicates fails.  Run with every index and slice
expression checked, every loop cut short after a number of rounds that is
fixed by its arguments, and the three patterns compiled by `MustCompile`,
`time.Parse` returns on every layout `f` and text `s`, without a fault, and
`IsTime(s, f)` returns true exactly where it returns a time and false exactly
where it returns an error; and each of the six rules returns a boolean,
without a fault, on every field, the boolean of the rule above. -/
theorem predicates_never_fail :
    (∀ s f : GoString, ∃ r, Run.time.Parse f s = .ok r ∧
      (Run.IsTime s f = .ok true ↔ ∃ t, r = .ok t) ∧
      (Run.IsTime s f = .ok false ↔ ∃ e, r = .error e)) ∧
    (∀ s f : GoString, Run.IsTime s f = .ok (IsTime s f)) ∧
    (∀ fl : FieldLevel,
      Run.IsInt fl = .ok (IsInt fl) ∧ Run.IsFloat fl = .ok (IsFloat fl) ∧
      Run.IsDate fl = .ok (IsDate fl) ∧ Run.IsRFC3339 fl = .ok (IsRFC3339 fl) ∧
      Run.IsRFC3339WithoutZone fl = .ok (IsRFC3339WithoutZone fl) ∧
      Run.IsDatetime fl = .ok (IsDatetime fl)) := by
  refine ⟨fun s f => ⟨time.Parse f s, run_Parse f s, ?_, ?_⟩, fun s f => run_IsTime s f,
    fun fl => ⟨run_IsInt fl, run_IsFloat fl, run_IsDate fl, run_IsRFC3339 fl,
      run_IsRFC3339WithoutZone fl, run_IsDatetime fl⟩⟩
  · rw [run_IsTime]
    unfold IsTime
    cases time.Parse f s with
    | ok t => exact ⟨fun _ => ⟨t, rfl⟩, fun _ => rfl⟩
    | error e =>
      refine ⟨fun h => ?_, fun h => ?_⟩
      · cases h
      · obtain ⟨t, ht⟩ := h
        cases ht
  · rw [run_IsTime]
    unfold IsTime
    cases time.Parse f s with
    | ok t =>
      refine ⟨fun h => ?_, fun h => ?_⟩
      · cases h
      · obtain ⟨e, he⟩ := h
        cases he
    | error e => exact ⟨fun _ => ⟨e, rfl⟩, fun _ => rfl⟩

/-! ## The syntax trees are the package's patterns -/

/-- The syntax tree `rxInt` is written `Int`. -/
theorem rxInt_render : rxInt.render = Int := by decide

/-- The syntax tree `rxFloat` is written `Float`. -/
theorem rxFloat_render : rxFloat.render = Float := by decide

/-- The syntax tree `rxDate` is written `DateExp`. -/
theorem rxDate_render : rxDate.render = DateExp := by decide


/-! ## Consequences for the `int` and `float` rules -/

theorem dropSign_of_not_sign {c : Char} (h₁ : c ≠ '+') (h₂ : c ≠ '-') (t : List Char) :
    dropSign (c :: t) = c :: t := by
  simp [dropSign, h₁, h₂]

/-- An integer text, once its sign is removed, is the single digit `0` or
starts with a digit `1`..`9`. -/
theorem IntegerText_dropSign {s : List Char} (h : IntegerText s) :
    dropSign s = ['0'] ∨ ∃ d ds, dropSign s = d :: ds ∧ ('1' ≤ d ∧ d ≤ '9') ∧ AllDigits ds := by
  obtain ⟨sign, body, rfl, hsign, hbody⟩ := h
  have hb : dropSign body = body := by
    rcases hbody with rfl | ⟨d, ds, rfl, hd, -⟩
    · exact dropSign_of_not_sign (by decide) (by decide) _
    · refine dropSign_of_not_sign ?_ ?_ _
      · rintro rfl; exact absurd hd.1 (by decide)
      · rintro rfl; exact absurd hd.1 (by decide)
  have hs : dropSign (sign ++ body) = body := by
    rcases hsign with rfl | rfl | rfl
    · simpa using hb
    · simp [dropSign]
    · simp [dropSign]
  rw [hs]
  rcases hbody with rfl | ⟨d, ds, rfl, hd, hds⟩
  · exact Or.inl rfl
  · exact Or.inr ⟨d, ds, rfl, hd, hds⟩

/-- An integer text is a float text: a signed run of digits with no fraction
and no exponent. -/
theorem IntegerText_toFloatText {s : List Char} (h : IntegerText s) : FloatText s := by
  obtain ⟨sign, body, rfl, hsign, hbody⟩ := h
  refine ⟨sign ++ body, [], [], by simp, Or.inr ⟨sign, body, rfl, hsign, ?_, ?_⟩, Or.inl rfl,
    Or.inl rfl⟩
  · rcases hbody with rfl | ⟨d, ds, rfl, -, -⟩ <;> simp
  · rcases hbody with rfl | ⟨d, ds, rfl, hd, hds⟩
    · intro c hc
      rw [List.mem_singleton] at hc
      subst hc
      exact ⟨by decide, by decide⟩
    · intro c hc
      rcases List.mem_cons.1 hc with rfl | hc
      · have h49 : 49 ≤ c.toNat := hd.1
        exact ⟨show 48 ≤ c.toNat by omega, hd.2⟩
      · exact hds c hc

/-- A float text that starts with a sign continues with a digit. -/
theorem FloatText_sign_then_digit {c : Char} {rest : List Char} (h : FloatText (c :: rest))
    (hc : c = '+' ∨ c = '-') : ∃ d rest', rest = d :: rest' ∧ AsciiDigit d := by
  have hnd : ¬ AsciiDigit c := by
    rcases hc with rfl | rfl <;> exact fun h => absurd h.1 (by decide)
  obtain ⟨i, f, x, hs, hi, hf, hx⟩ := h
  rcases hi with rfl | ⟨sg, ds, rfl, hsg, hne, hds⟩
  · -- no integer part: the text starts with `.`, `e` or `E`, or is empty
    rcases hf with rfl | ⟨fs, rfl, -⟩
    · rcases hx with rfl | ⟨e, g, w, rfl, he, -, -, -⟩
      · simp at hs
      · simp only [List.nil_append, List.cons.injEq] at hs
        obtain ⟨rfl, -⟩ := hs
        rcases hc with rfl | rfl <;> rcases he with he | he <;> exact absurd he (by decide)
    · simp only [List.nil_append, List.cons_append, List.cons.injEq] at hs
      obtain ⟨rfl, -⟩ := hs
      rcases hc with hc | hc <;> exact absurd hc (by decide)
  · obtain ⟨d, ds', rfl⟩ := List.exists_cons_of_ne_nil hne
    rcases hsg with rfl | rfl | rfl
    · simp only [List.nil_append, List.cons_append, List.cons.injEq] at hs
      obtain ⟨rfl, -⟩ := hs
      exact absurd (hds c (List.mem_cons_self _ _)) hnd
    · simp only [List.cons_append, List.nil_append, List.cons.injEq] at hs
      obtain ⟨-, rfl⟩ := hs
      exact ⟨d, _, rfl, hds d (List.mem_cons_self _ _)⟩
    · simp only [List.cons_append, List.nil_append, List.cons.injEq] at hs
      obtain ⟨-, rfl⟩ := hs
      exact ⟨d, _, rfl, hds d (List.mem_cons_self _ _)⟩


/-- C15: for every string that `IsInt` accepts, what remains once a leading
sign character is removed is either exactly `0` or does not begin with the
digit `0`; `"007"` is rejected. -/
theorem IsInt_no_leading_zero :
    (∀ s : GoString, IsInt (stringField s) = true →
        dropSign s.data = ['0'] ∨ ∀ t, dropSign s.data ≠ '0' :: t) ∧
      IsInt (stringField "007") = false := by
  refine ⟨?_, by decide⟩
  intro s h
  rcases IntegerText_dropSign ((IsInt_stringField_iff s).1 h).2 with h0 | ⟨d, ds, hd, hr, -⟩
  · exact Or.inl h0
  · refine Or.inr fun t ht => ?_
    rw [hd, List.cons.injEq] at ht
    obtain ⟨rfl, -⟩ := ht
    exact absurd hr.1 (by decide)

/-- C15 at `"-42"` and `"0"`: both are accepted; without its sign the first
reads `42`, which does not begin with `0`, and the second is exactly `0`. -/
theorem IsInt_no_leading_zero_witness :
    IsInt (stringField "-42") = true ∧
      (dropSign ("-42" : GoString).data = ['0'] ∨
        ∀ t, dropSign ("-42" : GoString).data ≠ '0' :: t) ∧
      dropSign ("0" : GoString).data = ['0'] :=
  ⟨by decide, IsInt_no_leading_zero.1 "-42" (by decide), by decide⟩

/-- C16 fails on the code: `IsFloat` accepts `"."` and `"e5"`, and the mantissa
of neither contains a decimal digit. -/
theorem IsFloat_accepts_digitless_mantissa :
    IsFloat (stringField ".") = true ∧
      (∀ c ∈ mantissa (".".data), ¬ AsciiDigit c) ∧
      IsFloat (stringField "e5") = true ∧
      (∀ c ∈ mantissa ("e5".data), ¬ AsciiDigit c) := by
  refine ⟨by decide, ?_, by decide, ?_⟩
  · intro c hc
    have hc' : c ∈ ['.'] := hc
    rw [List.mem_singleton] at hc'
    subst hc'
    exact fun h => absurd h.1 (by decide)
  · intro c hc
    have hc' : c ∈ ([] : List Char) := hc
    simp at hc'

/-- C17: for every string `s`, `IsFloat` on a field holding `s` is true exactly
when `s` is non-empty and is an optional signed run of digits, then an optional
fraction (`.` and zero or more digits), then an optional exponent; so every
accepted string that starts with `+` or `-` has a digit as its second
character. -/
theorem IsFloat_exact :
    (∀ s : GoString, IsFloat (stringField s) = true ↔ s ≠ "" ∧ FloatText s.data) ∧
      (∀ (s : GoString) (c : Char) (rest : List Char),
        IsFloat (stringField s) = true → s.data = c :: rest → (c = '+' ∨ c = '-') →
          ∃ d rest', rest = d :: rest' ∧ AsciiDigit d) := by
  refine ⟨IsFloat_stringField_iff, ?_⟩
  intro s c rest h hs hc
  have hf := ((IsFloat_stringField_iff s).1 h).2
  rw [hs] at hf
  exact FloatText_sign_then_digit hf hc

/-- C17 at `"-0.5e10"`: accepted, starts with `-`, and its second character
is the digit `0`. -/
theorem IsFloat_exact_witness :
    IsFloat (stringField "-0.5e10") = true ∧
      ∃ d rest', "0.5e10".data = d :: rest' ∧ AsciiDigit d :=
  ⟨by decide, IsFloat_exact.2 "-0.5e10" '-' "0.5e10".data (by decide) rfl (Or.inr rfl)⟩

/-- C18: every string that `IsInt` accepts is accepted by `IsFloat`. -/
theorem IsInt_imp_IsFloat (s : GoString) (h : IsInt (stringField s) = true) :
    IsFloat (stringField s) = true := by
  obtain ⟨hne, hint⟩ := (IsInt_stringField_iff s).1 h
  exact (IsFloat_stringField_iff s).2 ⟨hne, IntegerText_toFloatText hint⟩

/-- C18 at `"-42"`: accepted by `IsInt`, hence by `IsFloat`. -/
theorem IsInt_imp_IsFloat_witness :
    IsInt (stringField "-42") = true ∧ IsFloat (stringField "-42") = true :=
  ⟨by decide, IsInt_imp_IsFloat "-42" (by decide)⟩


/-! ## The engine's tables -/

namespace validator

theorem mapGet_filter_ne {β : Type} (m : StringMap β) {k k' : GoString} (h : k' ≠ k) :
    mapGet (m.filter fun e => decide (e.1 ≠ k)) k' = mapGet m k' := by
  induction m with
  | nil => rfl
  | cons e m ih =>
    obtain ⟨a, b⟩ := e
    by_cases ha : a = k
    · subst ha
      have hne : a ≠ k' := fun e => h e.symm
      simp only [List.filter, ne_eq, not_true_eq_false, decide_False, mapGet, hne, if_false]
      exact ih
    · by_cases hk : a = k'
      · subst hk
        simp [List.filter, h, mapGet]
      · simp only [List.filter, ne_eq, ha, not_false_eq_true, decide_True, mapGet, hk, if_false]
        exact ih

/-- After `m[k] = b`, reading `m[k]` gives `b`. -/
theorem mapGet_mapSet_self {β : Type} (m : StringMap β) (k : GoString) (b : β) :
    mapGet (mapSet m k b) k = some b := by
  simp [mapSet, mapGet]

/-- After `m[k] = b`, reading any other key gives what it gave before. -/
theorem mapGet_mapSet_ne {β : Type} (m : StringMap β) {k k' : GoString} (b : β) (h : k' ≠ k) :
    mapGet (mapSet m k b) k' = mapGet m k' := by
  have hne : k ≠ k' := fun e => h e.symm
  simp only [mapSet, mapGet, hne, if_false]
  exact mapGet_filter_ne m h

/-- A tag that is neither empty nor reserved is entered in the rule table of
the instance. -/
theorem RegisterValidation_ok {tag : GoString} (h₁ : tag.length ≠ 0)
    (h₂ : ¬ (tag ∈ restrictedTags ∨
      tag.data.any (fun c => decide (c ∈ restrictedTagChars.data)) = true))
    (v : Nat) (fn : Func) (w : World) :
    RegisterValidation v tag fn w =
      .ok (none,
        { heap := w.heap.modify (fun i => { i with validations := mapSet i.validations tag fn }) v
          validate := w.validate
          trace := w.trace ++ [.RegisterValidation tag] }) := by
  unfold RegisterValidation
  simp only [h₁, h₂, if_false]

theorem modify_append_length {α : Type} (f : α → α) (l : List α) (a : α) :
    (l ++ [a]).modify f l.length = l ++ [f a] := by
  induction l with
  | nil => rfl
  | cons x l ih =>
    simp only [List.cons_append, List.length_cons, List.modify_succ_cons, ih]

end validator

/-- The first call: with `validate` still `nil`, `GetValidator` allocates one
instance, enters the seven rules in its rule table in the order of the source,
registers `ValidateValuer` for the four `sql.Null...` types, stores the pointer
in `validate` and returns it. -/
theorem GetValidator_fresh (baked : validator.StringMap validator.Func) (w : World)
    (h : w.validate = none) :
    GetValidator baked w =
      .ok (w.heap.length,
        { heap := w.heap ++
            [{ validations :=
                validator.mapSet (validator.mapSet (validator.mapSet (validator.mapSet
                  (validator.mapSet (validator.mapSet (validator.mapSet baked
                    "notNull" NotNull) "int" IsInt) "float" IsFloat) "date" IsDate)
                    "rfc3339" IsRFC3339) "rfc3339WithoutZone" IsRFC3339WithoutZone)
                    "datetime" IsDatetime
               customFuncs :=
                ["sql.NullString", "sql.NullInt64", "sql.NullBool", "sql.NullFloat64"].foldl
                  (fun m t => validator.mapSet m t ValidateValuer) []
               hasCustomFuncs := true }]
          validate := some w.heap.length
          trace := w.trace ++
            [.New, .RegisterValidation "notNull", .RegisterValidation "int",
              .RegisterValidation "float", .RegisterValidation "date",
              .RegisterValidation "rfc3339", .RegisterValidation "rfc3339WithoutZone",
              .RegisterValidation "datetime",
              .RegisterCustomTypeFunc
                ["sql.NullString", "sql.NullInt64", "sql.NullBool", "sql.NullFloat64"]] }) := by
  have e₁ := @validator.RegisterValidation_ok "notNull" (by decide) (by decide)
  have e₂ := @validator.RegisterValidation_ok "int" (by decide) (by decide)
  have e₃ := @validator.RegisterValidation_ok "float" (by decide) (by decide)
  have e₄ := @validator.RegisterValidation_ok "date" (by decide) (by decide)
  have e₅ := @validator.RegisterValidation_ok "rfc3339" (by decide) (by decide)
  have e₆ := @validator.RegisterValidation_ok "rfc3339WithoutZone" (by decide) (by decide)
  have e₇ := @validator.RegisterValidation_ok "datetime" (by decide) (by decide)
  unfold GetValidator
  rw [h]
  simp only [validator.New, e₁, e₂, e₃, e₄, e₅, e₆, e₇, validator.RegisterCustomTypeFunc,
    validator.modify_append_length, List.append_assoc, List.singleton_append, List.cons_append,
    List.nil_append]


/-- Once `validate` holds a pointer, a call returns that pointer and leaves
the state as it is. -/
theorem GetValidator_constructed (baked : validator.StringMap validator.Func) {w : World}
    {p : Nat} (h : w.validate = some p) : GetValidator baked w = .ok (p, w) := by
  unfold GetValidator
  rw [h]

/-- Every call leaves `validate` holding the pointer it returns. -/
theorem GetValidator_sets_validate (baked : validator.StringMap validator.Func) (w : World) :
    ∃ p w₁, GetValidator baked w = .ok (p, w₁) ∧ w₁.validate = some p := by
  cases h : w.validate with
  | some p => exact ⟨p, w, GetValidator_constructed baked h, h⟩
  | none => exact ⟨_, _, GetValidator_fresh baked w h, rfl⟩

theorem GetValidatorTimes_constructed (baked : validator.StringMap validator.Func) {w : World}
    {p : Nat} (h : w.validate = some p) :
    ∀ n, GetValidatorTimes baked n w = .ok (List.replicate n p, w) := by
  intro n
  induction n with
  | zero => rfl
  | succ n ih =>
    simp only [GetValidatorTimes, GetValidator_constructed baked h, ih, List.replicate_succ]

/-- C11: `NotNull` returns true for every field, whatever its value. -/
theorem NotNull_always_true (fl : FieldLevel) : NotNull fl = true := rfl

/-- C12: from any state, after one call of `GetValidator` any number of later
calls return the pointer the first call returned and leave the state exactly
as the first call left it: no call is made on the engine (the trace stays the
same) and the instance, its rule table included, stays the same. -/
theorem GetValidator_idempotent (baked : validator.StringMap validator.Func) (w : World) :
    ∃ p w₁, GetValidator baked w = .ok (p, w₁) ∧
      ∀ n, ∃ w₂, GetValidatorTimes baked n w₁ = .ok (List.replicate n p, w₂) ∧
        w₂.trace = w₁.trace ∧
        (w₂.deref p).map (fun v => v.validations) = (w₁.deref p).map (fun v => v.validations) ∧
        w₂ = w₁ := by
  obtain ⟨p, w₁, hcall, hval⟩ := GetValidator_sets_validate baked w
  exact ⟨p, w₁, hcall, fun n => ⟨w₁, GetValidatorTimes_constructed baked hval n, rfl, rfl, rfl⟩⟩

/-- C13: the instance that `GetValidator` returns when `validate` is still
`nil` binds `notNull`, `int`, `float`, `date`, `rfc3339`, `rfc3339WithoutZone`
and `datetime` to `NotNull`, `IsInt`, `IsFloat`, `IsDate`, `IsRFC3339`,
`IsRFC3339WithoutZone` and `IsDatetime`; every other name is bound as `New`
bound it; and the call registers these seven names, each once, and no
other. -/
theorem GetValidator_rule_table (baked : validator.StringMap validator.Func) (w : World)
    (h : w.validate = none) :
    ∃ p w₁ v, GetValidator baked w = .ok (p, w₁) ∧ w₁.deref p = some v ∧
      validator.mapGet v.validations "notNull" = some NotNull ∧
      validator.mapGet v.validations "int" = some IsInt ∧
      validator.mapGet v.validations "float" = some IsFloat ∧
      validator.mapGet v.validations "date" = some IsDate ∧
      validator.mapGet v.validations "rfc3339" = some IsRFC3339 ∧
      validator.mapGet v.validations "rfc3339WithoutZone" = some IsRFC3339WithoutZone ∧
      validator.mapGet v.validations "datetime" = some IsDatetime ∧
      (∀ tag : GoString,
        tag ∉ ["notNull", "int", "float", "date", "rfc3339", "rfc3339WithoutZone", "datetime"] →
          validator.mapGet v.validations tag = validator.mapGet baked tag) ∧
      w₁.trace = w.trace ++
        [.New, .RegisterValidation "notNull", .RegisterValidation "int",
          .RegisterValidation "float", .RegisterValidation "date",
          .RegisterValidation "rfc3339", .RegisterValidation "rfc3339WithoutZone",
          .RegisterValidation "datetime",
          .RegisterCustomTypeFunc
            ["sql.NullString", "sql.NullInt64", "sql.NullBool", "sql.NullFloat64"]] ∧
      (["notNull", "int", "float", "date", "rfc3339", "rfc3339WithoutZone", "datetime"] :
        List GoString).Nodup := by
  refine ⟨_, _,
    { validations :=
        validator.mapSet (validator.mapSet (validator.mapSet (validator.mapSet
          (validator.mapSet (validator.mapSet (validator.mapSet baked
            "notNull" NotNull) "int" IsInt) "float" IsFloat) "date" IsDate)
            "rfc3339" IsRFC3339) "rfc3339WithoutZone" IsRFC3339WithoutZone)
            "datetime" IsDatetime
      customFuncs :=
        ["sql.NullString", "sql.NullInt64", "sql.NullBool", "sql.NullFloat64"].foldl
          (fun m t => validator.mapSet m t ValidateValuer) []
      hasCustomFuncs := true },
    GetValidator_fresh baked w h, ?_, ?_, ?_, ?_, ?_, ?_, ?_, ?_, ?_, rfl, by decide⟩
  · simp [World.deref]
  · simp only [validator.mapGet_mapSet_ne _ _ (show ("notNull" : GoString) ≠ "datetime" by decide),
      validator.mapGet_mapSet_ne _ _
        (show ("notNull" : GoString) ≠ "rfc3339WithoutZone" by decide),
      validator.mapGet_mapSet_ne _ _ (show ("notNull" : GoString) ≠ "rfc3339" by decide),
      validator.mapGet_mapSet_ne _ _ (show ("notNull" : GoString) ≠ "date" by decide),
      validator.mapGet_mapSet_ne _ _ (show ("notNull" : GoString) ≠ "float" by decide),
      validator.mapGet_mapSet_ne _ _ (show ("notNull" : GoString) ≠ "int" by decide),
      validator.mapGet_mapSet_self]
  · simp only [validator.mapGet_mapSet_ne _ _ (show ("int" : GoString) ≠ "datetime" by decide),
      validator.mapGet_mapSet_ne _ _ (show ("int" : GoString) ≠ "rfc3339WithoutZone" by decide),
      validator.mapGet_mapSet_ne _ _ (show ("int" : GoString) ≠ "rfc3339" by decide),
      validator.mapGet_mapSet_ne _ _ (show ("int" : GoString) ≠ "date" by decide),
      validator.mapGet_mapSet_ne _ _ (show ("int" : GoString) ≠ "float" by decide),
      validator.mapGet_mapSet_self]
  · simp only [validator.mapGet_mapSet_ne _ _ (show ("float" : GoString) ≠ "datetime" by decide),
      validator.mapGet_mapSet_ne _ _ (show ("float" : GoString) ≠ "rfc3339WithoutZone" by decide),
      validator.mapGet_mapSet_ne _ _ (show ("float" : GoString) ≠ "rfc3339" by decide),
      validator.mapGet_mapSet_ne _ _ (show ("float" : GoString) ≠ "date" by decide),
      validator.mapGet_mapSet_self]
  · simp only [validator.mapGet_mapSet_ne _ _ (show ("date" : GoString) ≠ "datetime" by decide),
      validator.mapGet_mapSet_ne _ _ (show ("date" : GoString) ≠ "rfc3339WithoutZone" by decide),
      validator.mapGet_mapSet_ne _ _ (show ("date" : GoString) ≠ "rfc3339" by decide),
      validator.mapGet_mapSet_self]
  · simp only [validator.mapGet_mapSet_ne _ _ (show ("rfc3339" : GoString) ≠ "datetime" by decide),
      validator.mapGet_mapSet_ne _ _
        (show ("rfc3339" : GoString) ≠ "rfc3339WithoutZone" by decide),
      validator.mapGet_mapSet_self]
  · simp only [validator.mapGet_mapSet_ne _ _
        (show ("rfc3339WithoutZone" : GoString) ≠ "datetime" by decide),
      validator.mapGet_mapSet_self]
  · exact validator.mapGet_mapSet_self _ _ _
  · intro tag htag
    simp only [List.mem_cons, List.mem_singleton, List.not_mem_nil, or_false, not_or] at htag
    obtain ⟨h₁, h₂, h₃, h₄, h₅, h₆, h₇⟩ := htag
    rw [validator.mapGet_mapSet_ne _ _ h₇, validator.mapGet_mapSet_ne _ _ h₆,
      validator.mapGet_mapSet_ne _ _ h₅, validator.mapGet_mapSet_ne _ _ h₄,
      validator.mapGet_mapSet_ne _ _ h₃, validator.mapGet_mapSet_ne _ _ h₂,
      validator.mapGet_mapSet_ne _ _ h₁]

/-- C14: `ValidateValuer` returns the underlying value when the field's value
implements `driver.Valuer` and its `Value` method returns no error, and `nil`
when that method returns an error or the value does not implement the
interface. -/
theorem ValidateValuer_result :
    (∀ (text : GoString) (val : driver.Value),
        ValidateValuer (.valuer text val none) = val) ∧
      (∀ (text : GoString) (val : driver.Value) (err : GoError),
        ValidateValuer (.valuer text val (some err)) = .nil) ∧
      (∀ s : GoString, ValidateValuer (.str s) = .nil) ∧
      (∀ typeName : GoString, ValidateValuer (.other typeName) = .nil) :=
  ⟨fun _ _ => rfl, fun _ _ _ => rfl, fun _ => rfl, fun _ => rfl⟩


/-- C13 at the initial state with an empty table of baked-in rules: the first
call returns an instance in which, for one, `int` is bound to `IsInt`. -/
theorem GetValidator_rule_table_witness :
    World.initial.validate = none ∧
      ∃ p w₁ v, GetValidator [] World.initial = .ok (p, w₁) ∧ w₁.deref p = some v ∧
        validator.mapGet v.validations "int" = some IsInt := by
  obtain ⟨p, w₁, v, h₁, h₂, -, h₃, -⟩ := GetValidator_rule_table [] World.initial rfl
  exact ⟨rfl, p, w₁, v, h₁, h₂, h₃⟩

end JGoValidator
